import Mathlib

/-!
# gopherword: the game session state machine

A shallow embedding of `internal/models/models.go`, of `internal/game/manager.go`, and of
`sendState` and `processMessage` of `cmd/server/main.go`.

Modelling conventions.

* Go `int` fields are `Int`. The counters are only ever incremented by one per call, so
  64-bit wrap-around is out of reach and is not modelled.
* A Go `map[string]T` is an association list with pairwise distinct keys: `mapGet` is the
  lookup, `mapSet` the assignment `m[k] = v` (overwrite in place, else add an entry), and the
  number of entries is the length of the list.
* `*GameState` pointers stored in `GameManager.Sessions` are mutated in place by the Go code.
  Here every method returns the manager after the call, in which the entry of the session
  carries the mutated state; the state handed back to the caller is that same value.
* The wall clock is an explicit argument `now`, in nanoseconds (the unit of
  `time.Duration`); `time.Since(start)` is `now - start`.
* A Go run-time panic (slice index out of range) is the result `none`.
* Go strings handled here come out of `encoding/json`, hence are valid UTF-8; they are Lean
  strings, and a rune is a `Char`.
* The messages a handler writes with `SafeConn.WriteJSON` are collected in a list, write
  errors being ignored as in the code. JSON itself is not modelled: the payload of an outbound
  message is the value handed to `json.Marshal`, and the payload of an inbound message is
  known through the results of `json.Unmarshal`.
* Goroutines are not modelled: calls are sequential. `lockMode` records which lock each
  method of the manager takes.
-/

namespace Gopherword

/-! ## Maps -/

/-- Lookup `m[k]` in a map; `none` when the key is absent. -/
def mapGet {β : Type} : List (String × β) → String → Option β
  | [], _ => none
  | (k', v) :: rest, k => if k' = k then some v else mapGet rest k

/-- Assignment `m[k] = v`. -/
def mapSet {β : Type} : List (String × β) → String → β → List (String × β)
  | [], k, v => [(k, v)]
  | (k', v') :: rest, k, v => if k' = k then (k, v) :: rest else (k', v') :: mapSet rest k v

/-! ## models.go -/

set_option linter.dupNamespace false in
structure Question where
  Letter : String
  Question : String
  Answer : String
deriving DecidableEq, Repr

structure GameState where
  SessionID : String
  Language : String
  Questions : List Question
  CurrentIndex : Int
  CorrectCount : Int
  WrongCount : Int
  PassedCount : Int
  LettersState : List (String × String)
  TimeRemaining : Int
  IsGameOver : Bool
  StartTime : Int
  PendingPasses : List Int
  IsRevisiting : Bool
deriving DecidableEq, Repr

structure FeedbackPayload where
  Letter : String
  Status : String
  Correct : Bool
deriving DecidableEq, Repr

/-- The zero value `models.FeedbackPayload{}`. -/
def FeedbackPayload.empty : FeedbackPayload := { Letter := "", Status := "", Correct := false }

/-! ## Library functions used by manager.go -/

/-- The predicate `unicode.IsSpace`: the Unicode White_Space code points. -/
def isSpace (c : Char) : Bool :=
  let n := c.toNat
  (0x09 ≤ n && n ≤ 0x0D) || n == 0x20 || n == 0x85 || n == 0xA0 || n == 0x1680 ||
    (0x2000 ≤ n && n ≤ 0x200A) || n == 0x2028 || n == 0x2029 || n == 0x202F ||
    n == 0x205F || n == 0x3000

/-- The function `strings.TrimSpace`: drop the leading and the trailing white space. -/
def TrimSpace (s : String) : String :=
  String.mk ((s.data.dropWhile isSpace).reverse.dropWhile isSpace).reverse

/-- The orbit walk of `strings.EqualFold`, `for r != sr && r < tr { r = SimpleFold(r) }`,
started at `r`. The fuel bounds the number of iterations. -/
def foldWalk (simpleFold : Char → Char) (sr tr : Char) : Nat → Char → Char
  | 0, r => r
  | n + 1, r => if r ≠ sr ∧ r < tr then foldWalk simpleFold sr tr n (simpleFold r) else r

/-- One iteration of the rune loop of `strings.EqualFold`: do the runes `sr` and `tr` agree
under simple case folding? `simpleFold` is the table `unicode.SimpleFold`. The walk gets as
much fuel as there are code points: a walk that has not stopped by then never stops. -/
def runeEqualFold (simpleFold : Char → Char) (sr tr : Char) : Bool :=
  if tr = sr then true
  else
    let lo := if tr < sr then tr else sr
    let hi := if tr < sr then sr else tr
    if hi.toNat < 0x80 then
      decide (0x41 ≤ lo.toNat ∧ lo.toNat ≤ 0x5A ∧ hi.toNat = lo.toNat + 0x20)
    else
      decide (foldWalk simpleFold lo hi 0x110000 (simpleFold lo) = hi)

/-- The rune loop of `strings.EqualFold` over the runes of both strings. -/
def equalFoldRunes (simpleFold : Char → Char) : List Char → List Char → Bool
  | [], [] => true
  | [], _ :: _ => false
  | _ :: _, [] => false
  | sr :: s, tr :: t => runeEqualFold simpleFold sr tr && equalFoldRunes simpleFold s t

/-- The function `strings.EqualFold`. -/
def EqualFold (simpleFold : Char → Char) (s t : String) : Bool :=
  equalFoldRunes simpleFold s.data t.data

/-! ## manager.go -/

def GameDuration : Int := 300

structure GameManager where
  Sessions : List (String × GameState)
  Questions : List (String × List Question)
deriving DecidableEq, Repr

/-- The expression `int(time.Since(start).Seconds())`: whole seconds, truncated towards
zero, of a duration in nanoseconds. `Seconds` goes through `float64`; its integer part is
exact for durations shorter than 2^22 seconds, far beyond the 300 seconds of a game. -/
def elapsedSeconds (start now : Int) : Int := (now - start).tdiv 1000000000

/-- The slice index expression `qs[i]`; `none` is the out-of-range panic. -/
def index (qs : List Question) (i : Int) : Option Question :=
  if 0 ≤ i then qs.get? i.toNat else none

def updateTimer (state : GameState) (now : Int) : GameState :=
  if state.IsGameOver then state
  else
    let elapsed := elapsedSeconds state.StartTime now
    let state := { state with TimeRemaining := GameDuration - elapsed }
    if state.TimeRemaining ≤ 0 then
      { state with TimeRemaining := 0, IsGameOver := true }
    else state

def moveToNext (state : GameState) : GameState :=
  if state.IsGameOver then state
  else
    let state :=
      if !state.IsRevisiting then
        let state := { state with CurrentIndex := state.CurrentIndex + 1 }
        if (state.Questions.length : Int) ≤ state.CurrentIndex then
          { state with IsRevisiting := true }
        else state
      else state
    if state.IsRevisiting then
      match state.PendingPasses with
      | [] => { state with IsGameOver := true, PassedCount := 0 }
      | p :: rest => { state with CurrentIndex := p, PendingPasses := rest }
    else state

/-- The state built by `GetOrCreateSession` for a new session, `LettersState` filled by the
loop over the questions. -/
def newSessionState (sessionID lang : String) (questions : List Question) (now : Int) :
    GameState :=
  let newState : GameState :=
    { SessionID := sessionID
      Language := lang
      Questions := questions
      CurrentIndex := 0
      CorrectCount := 0
      WrongCount := 0
      PassedCount := 0
      LettersState := []
      TimeRemaining := GameDuration
      IsGameOver := false
      StartTime := now
      PendingPasses := []
      IsRevisiting := false }
  questions.foldl
    (fun st q => { st with LettersState := mapSet st.LettersState q.Letter "" }) newState

def GetOrCreateSession (gm : GameManager) (now : Int) (sessionID lang : String) :
    GameManager × GameState × Bool :=
  match mapGet gm.Sessions sessionID with
  | some state => (gm, state, false)
  | none =>
    let resolved : List Question × String :=
      match mapGet gm.Questions lang with
      | some questions => (questions, lang)
      | none => ((mapGet gm.Questions "en").getD [], "en")
    let newState := newSessionState sessionID resolved.2 resolved.1 now
    ({ gm with Sessions := mapSet gm.Sessions sessionID newState }, newState, true)

/-- What `SubmitAnswer` and `Pass` hand back: the manager after the call and the three
returned values. -/
structure CallResult where
  gm : GameManager
  state : Option GameState
  feedback : FeedbackPayload
  ok : Bool
deriving DecidableEq, Repr

def SubmitAnswer (simpleFold : Char → Char) (gm : GameManager) (now : Int)
    (sessionID answer : String) : Option CallResult :=
  match mapGet gm.Sessions sessionID with
  | none => some ⟨gm, none, FeedbackPayload.empty, false⟩
  | some state =>
    if state.IsGameOver then some ⟨gm, none, FeedbackPayload.empty, false⟩
    else
      let state := updateTimer state now
      if state.IsGameOver then
        some ⟨{ gm with Sessions := mapSet gm.Sessions sessionID state }, some state,
          FeedbackPayload.empty, true⟩
      else
        match index state.Questions state.CurrentIndex with
        | none => none
        | some currentQ =>
          let isCorrect := EqualFold simpleFold (TrimSpace answer) (TrimSpace currentQ.Answer)
          let status := if isCorrect then "green" else "red"
          let state :=
            if isCorrect then { state with CorrectCount := state.CorrectCount + 1 }
            else { state with WrongCount := state.WrongCount + 1 }
          let state :=
            { state with LettersState := mapSet state.LettersState currentQ.Letter status }
          let feedback : FeedbackPayload :=
            { Letter := currentQ.Letter, Status := status, Correct := isCorrect }
          let state := moveToNext state
          some ⟨{ gm with Sessions := mapSet gm.Sessions sessionID state }, some state,
            feedback, true⟩

def Pass (gm : GameManager) (now : Int) (sessionID : String) : Option CallResult :=
  match mapGet gm.Sessions sessionID with
  | none => some ⟨gm, none, FeedbackPayload.empty, false⟩
  | some state =>
    if state.IsGameOver then some ⟨gm, none, FeedbackPayload.empty, false⟩
    else
      let state := updateTimer state now
      if state.IsGameOver then
        some ⟨{ gm with Sessions := mapSet gm.Sessions sessionID state }, some state,
          FeedbackPayload.empty, true⟩
      else
        match index state.Questions state.CurrentIndex with
        | none => none
        | some currentQ =>
          let state :=
            { state with LettersState := mapSet state.LettersState currentQ.Letter "yellow" }
          let state :=
            { state with PendingPasses := state.PendingPasses ++ [state.CurrentIndex] }
          let feedback : FeedbackPayload :=
            { Letter := currentQ.Letter, Status := "yellow", Correct := false }
          let state := moveToNext state
          some ⟨{ gm with Sessions := mapSet gm.Sessions sessionID state }, some state,
            feedback, true⟩

def GetState (gm : GameManager) (now : Int) (sessionID : String) :
    GameManager × Option GameState × Bool :=
  match mapGet gm.Sessions sessionID with
  | none => (gm, none, false)
  | some state =>
    let state := updateTimer state now
    ({ gm with Sessions := mapSet gm.Sessions sessionID state }, some state, true)

/-! ## Traces of calls on one session -/

/-- A call made on a session: `SubmitAnswer` with an answer, `Pass`, or `GetState`. -/
inductive Call where
  | answer (a : String)
  | pass
  | get
deriving DecidableEq, Repr

/-- The manager after one call on session `sessionID` at clock reading `c.2`; `none` when the
call panics. -/
def applyCall (simpleFold : Char → Char) (sessionID : String) (gm : GameManager)
    (c : Call × Int) : Option GameManager :=
  match c.1 with
  | Call.answer a => (SubmitAnswer simpleFold gm c.2 sessionID a).map CallResult.gm
  | Call.pass => (Pass gm c.2 sessionID).map CallResult.gm
  | Call.get => some (GetState gm c.2 sessionID).1

/-- The manager after a sequence of calls on session `sessionID`, each with its clock
reading. -/
def run (simpleFold : Char → Char) (sessionID : String) :
    GameManager → List (Call × Int) → Option GameManager
  | gm, [] => some gm
  | gm, c :: cs => (applyCall simpleFold sessionID gm c).bind fun gm' =>
      run simpleFold sessionID gm' cs

/-- The state of session `sessionID` after a sequence of calls. -/
def stateAfter (simpleFold : Char → Char) (sessionID : String) (gm : GameManager)
    (cs : List (Call × Int)) : Option GameState :=
  (run simpleFold sessionID gm cs).bind fun gm' => mapGet gm'.Sessions sessionID

/-! ## Sample data -/

def demoQuestions : List Question :=
  [⟨"A", "Q1", "ans1"⟩, ⟨"B", "Q2", "ans2"⟩]

/-- A manager with the two-question English catalog and no session. -/
def demoManager : GameManager :=
  { Sessions := [], Questions := [("en", demoQuestions)] }

/-- The manager `demoManager` after session "s" was created at clock reading 0. -/
def demoStarted : GameManager := (GetOrCreateSession demoManager 0 "s" "en").1

/-- The fresh state of session "s" in `demoStarted`. -/
def demoState : GameState := (GetOrCreateSession demoManager 0 "s" "en").2.1

/-- A case folding table that folds nothing. -/
def noFold : Char → Char := fun c => c

/-- The letters map written by the creation loop of `GetOrCreateSession`. -/
def initLetters (questions : List Question) (m : List (String × String)) :
    List (String × String) :=
  questions.foldl (fun m q => mapSet m q.Letter "") m

/-- The state of a running session after `SubmitAnswer` has scored question `q` and before
advancement: `e` whole seconds have elapsed and the answer was `correct`. -/
def scoredState (s : GameState) (e : Int) (q : Question) (correct : Bool) : GameState :=
  { s with
    TimeRemaining := 300 - e
    CorrectCount := s.CorrectCount + (if correct then 1 else 0)
    WrongCount := s.WrongCount + (if correct then 0 else 1)
    LettersState := mapSet s.LettersState q.Letter (if correct then "green" else "red") }

/-- The state of a running session after `Pass` has marked question `q` and queued the
active index, before advancement: `e` whole seconds have elapsed. -/
def passedState (s : GameState) (e : Int) (q : Question) : GameState :=
  { s with
    TimeRemaining := 300 - e
    LettersState := mapSet s.LettersState q.Letter "yellow"
    PendingPasses := s.PendingPasses ++ [s.CurrentIndex] }

/-- The session is missing from the store or its stored state is already game-over. -/
def deadSession (gm : GameManager) (sessionID : String) : Prop :=
  mapGet gm.Sessions sessionID = none ∨
    ∃ s, mapGet gm.Sessions sessionID = some s ∧ s.IsGameOver = true

/-- The spec scenario: a wrong answer, a pass, then the right answer to the revisited
question. -/
def demoCalls : List (Call × Int) :=
  [(Call.answer "nope", 1000000000), (Call.pass, 2000000000), (Call.get, 2500000000),
    (Call.answer "ANS2", 3000000000)]

/-- The indices passed during a first linear pass that starts at index `i`: the positions of
the `Pass` calls, in increasing order. -/
def passedIndices : List (Call × Int) → Int → List Int
  | [], _ => []
  | c :: cs, i =>
    if c.1 = Call.pass then i :: passedIndices cs (i + 1) else passedIndices cs (i + 1)

/-- The `SubmitAnswer` calls for a list of answers with their clock readings. -/
def answerCalls (answers : List (String × Int)) : List (Call × Int) :=
  answers.map fun a => (Call.answer a.1, a.2)

/-- The revisit queue of a state: the active index followed by the pending passes, and
nothing once the game is over. -/
def queueOf (s : GameState) : List Int :=
  if s.IsGameOver then [] else s.CurrentIndex :: s.PendingPasses

/-- One turn of a first-in-first-out revisit queue: the front question leaves the queue, and
re-enters at the tail when it is passed. -/
def fifoStep (queue : List Int) (c : Call × Int) : List Int :=
  match queue with
  | [] => []
  | front :: rest => if c.1 = Call.pass then rest ++ [front] else rest

def demoQuestions3 : List Question :=
  [⟨"A", "Q1", "ans1"⟩, ⟨"B", "Q2", "ans2"⟩, ⟨"C", "Q3", "ans3"⟩]

/-- A manager with a three-question catalog and session "s" created at clock reading 0. -/
def demoStarted3 : GameManager :=
  (GetOrCreateSession { Sessions := [], Questions := [("en", demoQuestions3)] } 0 "s" "en").1

/-- A first linear pass over three questions: pass, answer, pass. -/
def demoFirstPass : List (Call × Int) :=
  [(Call.pass, 1000000000), (Call.answer "ans2", 2000000000), (Call.pass, 3000000000)]

/-- The state of session "s" after `demoFirstPass`: revisiting question 0 with question 2
queued. -/
def demoRevisitState : GameState :=
  { SessionID := "s"
    Language := "en"
    Questions := demoQuestions3
    CurrentIndex := 0
    CorrectCount := 1
    WrongCount := 0
    PassedCount := 0
    LettersState := [("A", "yellow"), ("B", "green"), ("C", "yellow")]
    TimeRemaining := 297
    IsGameOver := false
    StartTime := 0
    PendingPasses := [2]
    IsRevisiting := true }

/-- The manager holding `demoRevisitState`. -/
def demoRevisiting : GameManager :=
  { Sessions := [("s", demoRevisitState)], Questions := [("en", demoQuestions3)] }

/-- Calls of a revisit phase: pass again, answer, answer. -/
def demoRevisitCalls : List (Call × Int) :=
  [(Call.pass, 4000000000), (Call.answer "ans3", 5000000000), (Call.answer "x", 6000000000)]

/-- Lower-casing of the ASCII letters `A`..`Z`; every other rune is left alone. -/
def asciiLower (c : Char) : Char :=
  if 0x41 ≤ c.toNat ∧ c.toNat ≤ 0x5A then Char.ofNat (c.toNat + 0x20) else c

/-! ## Invariants of a session -/

/-- A letter status that still awaits an answer: unset or passed. -/
def unresolvedStatus (v : String) : Prop := v = "" ∨ v = "yellow"

/-- Index `j` still awaits an answer in state `s`: it is queued, or it is the active index
of the revisit phase, or it has not been reached by the first pass. -/
def openIndex (s : GameState) (j : Int) : Prop :=
  j ∈ s.PendingPasses ∨ (if s.IsRevisiting then j = s.CurrentIndex else s.CurrentIndex ≤ j)

/-- A running session over the questions `qs`. -/
structure Live (qs : List Question) (s : GameState) : Prop where
  questions : s.Questions = qs
  running : s.IsGameOver = false
  lo : 0 ≤ s.CurrentIndex
  hi : s.CurrentIndex < qs.length
  pending : ∀ p ∈ s.PendingPasses, 0 ≤ p ∧ p < qs.length
  countFirst : s.IsRevisiting = false →
    s.CorrectCount + s.WrongCount + s.PendingPasses.length = s.CurrentIndex
  countRevisit : s.IsRevisiting = true →
    s.CorrectCount + s.WrongCount + s.PendingPasses.length + 1 = qs.length
  letters : ∀ k v, mapGet s.LettersState k = some v → unresolvedStatus v →
    ∃ j q, openIndex s j ∧ index qs j = some q ∧ q.Letter = k

/-- A running session after an answer or a pass has been recorded and before advancement. -/
structure PreAdvance (qs : List Question) (s : GameState) : Prop where
  questions : s.Questions = qs
  running : s.IsGameOver = false
  lo : 0 ≤ s.CurrentIndex
  hi : s.CurrentIndex < qs.length
  pending : ∀ p ∈ s.PendingPasses, 0 ≤ p ∧ p < qs.length
  countFirst : s.IsRevisiting = false →
    s.CorrectCount + s.WrongCount + s.PendingPasses.length = s.CurrentIndex + 1
  countRevisit : s.IsRevisiting = true →
    s.CorrectCount + s.WrongCount + s.PendingPasses.length = qs.length
  letters : ∀ k v, mapGet s.LettersState k = some v → unresolvedStatus v →
    ∃ j q, (j ∈ s.PendingPasses ∨ (s.IsRevisiting = false ∧ s.CurrentIndex + 1 ≤ j)) ∧
      index qs j = some q ∧ q.Letter = k

/-- A session that advancement has ended: every question has been answered. -/
structure Resolved (qs : List Question) (s : GameState) : Prop where
  questions : s.Questions = qs
  over : s.IsGameOver = true
  count : s.CorrectCount + s.WrongCount = qs.length
  letters : ∀ k v, mapGet s.LettersState k = some v → ¬ unresolvedStatus v

/-- A session that the timer has ended. -/
def TimedOut (s : GameState) : Prop := s.IsGameOver = true ∧ s.TimeRemaining ≤ 0

/-- The invariant of a session over the questions `qs`. -/
def SessionInv (qs : List Question) (s : GameState) : Prop :=
  Live qs s ∨ Resolved qs s ∨ TimedOut s

/-- The store holds for `sessionID` a state that satisfies the session invariant. -/
def StoreInv (qs : List Question) (gm : GameManager) (sessionID : String) : Prop :=
  ∃ s, mapGet gm.Sessions sessionID = some s ∧ SessionInv qs s

/-! ## models.go: messages -/

structure InitPayload where
  Language : String
  SessionID : String
deriving DecidableEq, Repr

structure AnswerPayload where
  Answer : String
deriving DecidableEq, Repr

structure QuestionPayload where
  Letter : String
  Question : String
  Index : Int
  LettersState : List (String × String)
  TimeRemaining : Int
deriving DecidableEq, Repr

structure GameOverPayload where
  CorrectCount : Int
  WrongCount : Int
  PassedCount : Int
deriving DecidableEq, Repr

def TypeInit : String := "INIT"
def TypeQuestion : String := "QUESTION"
def TypeAnswer : String := "ANSWER"
def TypePass : String := "PASS"
def TypeFeedback : String := "FEEDBACK"
def TypeGameOver : String := "GAME_OVER"

/-- The `json.RawMessage` of an inbound message, known through what `json.Unmarshal` makes
of it for the two payload types `processMessage` decodes; `none` is a decoding error. -/
structure RawMessage where
  asInit : Option InitPayload
  asAnswer : Option AnswerPayload
deriving DecidableEq, Repr

/-- An inbound `models.WSMessage`; `MsgType` is its field `Type`. -/
structure WSMessage where
  MsgType : String
  Payload : RawMessage
deriving DecidableEq, Repr

/-- The value handed to `json.Marshal` for the payload of an outbound message. -/
inductive SentPayload where
  | question (p : QuestionPayload)
  | feedback (p : FeedbackPayload)
  | gameOver (p : GameOverPayload)
deriving DecidableEq, Repr

/-- An outbound `models.WSMessage`, as passed to `SafeConn.WriteJSON`; `MsgType` is its
field `Type`. -/
structure SentMessage where
  MsgType : String
  Payload : SentPayload
deriving DecidableEq, Repr

/-! ## main.go -/

/-- The messages `sendState` writes to the connection; `none` is the out-of-range panic. The
state is only read. -/
def sendState (state : GameState) : Option (List SentMessage) :=
  if state.IsGameOver then
    some [{ MsgType := TypeGameOver
            Payload := SentPayload.gameOver
              { CorrectCount := state.CorrectCount
                WrongCount := state.WrongCount
                PassedCount := state.PendingPasses.length } }]
  else
    match index state.Questions state.CurrentIndex with
    | none => none
    | some currentQ =>
      some [{ MsgType := TypeQuestion
              Payload := SentPayload.question
                { Letter := currentQ.Letter
                  Question := currentQ.Question
                  Index := state.CurrentIndex
                  LettersState := state.LettersState
                  TimeRemaining := state.TimeRemaining } }]

/-- The handler `processMessage` for one inbound message on the connection whose session id
is `sessionID`, at clock reading `now`: the manager after the call and the messages written
to the connection, in order. `none` is a panic. -/
def processMessage (simpleFold : Char → Char) (gm : GameManager) (now : Int)
    (sessionID : String) (msg : WSMessage) : Option (GameManager × List SentMessage) :=
  if msg.MsgType = TypeInit then
    match msg.Payload.asInit with
    | none => some (gm, [])
    | some payload =>
      let id := if payload.SessionID ≠ "" then payload.SessionID else sessionID
      let r := GetOrCreateSession gm now id payload.Language
      (sendState r.2.1).map fun sent => (r.1, sent)
  else if msg.MsgType = TypeAnswer then
    match msg.Payload.asAnswer with
    | none => some (gm, [])
    | some payload =>
      match SubmitAnswer simpleFold gm now sessionID payload.Answer with
      | none => none
      | some r =>
        if r.ok then
          match r.state with
          | none => none
          | some state =>
            (sendState state).map fun sent =>
              (r.gm, { MsgType := TypeFeedback, Payload := SentPayload.feedback r.feedback } :: sent)
        else some (r.gm, [])
  else if msg.MsgType = TypePass then
    match Pass gm now sessionID with
    | none => none
    | some r =>
      if r.ok then
        match r.state with
        | none => none
        | some state =>
          (sendState state).map fun sent =>
            (r.gm, { MsgType := TypeFeedback, Payload := SentPayload.feedback r.feedback } :: sent)
      else some (r.gm, [])
  else some (gm, [])

/-! ## Locks of manager.go -/

/-- The two ways of holding `GameManager.mu`: `Lock` and `RLock`. -/
inductive LockMode where
  | exclusive
  | shared
deriving DecidableEq, Repr

/-- The exported methods of `GameManager` that touch the sessions. -/
inductive Method where
  | GetOrCreateSession
  | SubmitAnswer
  | Pass
  | GetState
deriving DecidableEq, Repr

/-- The lock each method takes in its first statement and releases on return. -/
def lockMode : Method → LockMode
  | Method.GetOrCreateSession => LockMode.exclusive
  | Method.SubmitAnswer => LockMode.exclusive
  | Method.Pass => LockMode.exclusive
  | Method.GetState => LockMode.shared

/-! ## Traces of calls on the whole store -/

/-- The value `NewGameManager` returns for the catalog read from the questions file. -/
def NewGameManager (questions : List (String × List Question)) : GameManager :=
  { Sessions := [], Questions := questions }

/-- A call of one of the four store methods, with the session it addresses. -/
inductive StoreCall where
  | create (sessionID lang : String)
  | answer (sessionID a : String)
  | pass (sessionID : String)
  | get (sessionID : String)
deriving DecidableEq, Repr

/-- The manager after one store call at clock reading `c.2`; `none` when the call panics. -/
def applyStoreCall (simpleFold : Char → Char) (gm : GameManager)
    (c : StoreCall × Int) : Option GameManager :=
  match c.1 with
  | StoreCall.create sessionID lang => some (GetOrCreateSession gm c.2 sessionID lang).1
  | StoreCall.answer sessionID a => (SubmitAnswer simpleFold gm c.2 sessionID a).map CallResult.gm
  | StoreCall.pass sessionID => (Pass gm c.2 sessionID).map CallResult.gm
  | StoreCall.get sessionID => some (GetState gm c.2 sessionID).1

/-- The manager after a sequence of store calls, each with its clock reading. -/
def runStore (simpleFold : Char → Char) :
    GameManager → List (StoreCall × Int) → Option GameManager
  | gm, [] => some gm
  | gm, c :: cs => (applyStoreCall simpleFold gm c).bind fun gm' => runStore simpleFold gm' cs

/-- One change of a session state by a store method: the timer check alone, or an answer or
a pass on the active question followed by advancement. -/
inductive Step : GameState → GameState → Prop where
  | timer (s : GameState) (now : Int) : Step s (updateTimer s now)
  | answer (s : GameState) (e : Int) (q : Question) (correct : Bool) :
      s.IsGameOver = false → index s.Questions s.CurrentIndex = some q →
      Step s (moveToNext (scoredState s e q correct))
  | pass (s : GameState) (e : Int) (q : Question) :
      s.IsGameOver = false → index s.Questions s.CurrentIndex = some q →
      Step s (moveToNext (passedState s e q))

/-- The question sequence `GetOrCreateSession` resolves for a language key. -/
def resolvedQuestions (catalog : List (String × List Question)) (lang : String) :
    List Question :=
  match mapGet catalog lang with
  | some questions => questions
  | none => (mapGet catalog "en").getD []

/-- The language `GetOrCreateSession` records for a language key. -/
def resolvedLanguage (catalog : List (String × List Question)) (lang : String) : String :=
  match mapGet catalog lang with
  | some _ => lang
  | none => "en"

/-- Every language key of the catalog maps to a non-empty sequence and "en" is a key. -/
def WellFormedCatalog (catalog : List (String × List Question)) : Prop :=
  (∀ lang qs, mapGet catalog lang = some qs → 1 ≤ qs.length) ∧
    (mapGet catalog "en").isSome = true

/-- Every session of the store satisfies `P`. -/
def AllSessions (P : GameState → Prop) (gm : GameManager) : Prop :=
  ∀ sessionID s, mapGet gm.Sessions sessionID = some s → P s

/-! ## Sample data for the store and the connection -/

/-- The manager `demoStarted` after the calls `demoCalls`: session "s" has been ended by
advancement, three seconds after its start. -/
def demoFinished : GameManager := (run noFold "s" demoStarted demoCalls).getD demoManager

/-- The state of session "s" in `demoFinished`. -/
def demoFinishedState : GameState := (mapGet demoFinished.Sessions "s").getD demoState

/-- An inbound ANSWER message with the answer "ans1". -/
def demoAnswerMsg : WSMessage :=
  { MsgType := TypeAnswer, Payload := { asInit := none, asAnswer := some { Answer := "ans1" } } }

/-- An inbound PASS message. -/
def demoPassMsg : WSMessage :=
  { MsgType := TypePass, Payload := { asInit := none, asAnswer := none } }

/-- An inbound INIT message that names session "s". -/
def demoInitMsg : WSMessage :=
  { MsgType := TypeInit
    Payload := { asInit := some { Language := "en", SessionID := "s" }, asAnswer := none } }

/-- The state of a running session once the timer has expired. -/
def expiredState (s : GameState) : GameState :=
  { s with TimeRemaining := 0, IsGameOver := true }

/-- The two messages `processMessage` writes when the expiry check ends the game: the empty
feedback and the game-over view. -/
def expiryMessages (s : GameState) : List SentMessage :=
  [{ MsgType := TypeFeedback, Payload := SentPayload.feedback FeedbackPayload.empty },
   { MsgType := TypeGameOver
     Payload := SentPayload.gameOver
       { CorrectCount := s.CorrectCount
         WrongCount := s.WrongCount
         PassedCount := s.PendingPasses.length } }]

/-- What one store call does to the manager: nothing, or one session gets a new state that
is a `Step` of its old one, or one new session gets its fresh state. -/
def Effect (gm gm' : GameManager) : Prop :=
  gm' = gm ∨
    ∃ sessionID s', gm' = { gm with Sessions := mapSet gm.Sessions sessionID s' } ∧
      ((∃ s, mapGet gm.Sessions sessionID = some s ∧ Step s s') ∨
        (mapGet gm.Sessions sessionID = none ∧
          ∃ lang now, s' = newSessionState sessionID (resolvedLanguage gm.Questions lang)
            (resolvedQuestions gm.Questions lang) now))

/-- The calls of a small session on the whole store: two sessions are created and played. -/
def demoStoreCalls : List (StoreCall × Int) :=
  [(StoreCall.create "s" "en", 0), (StoreCall.answer "s" "nope", 1000000000),
    (StoreCall.create "t" "xx", 1500000000), (StoreCall.pass "s", 2000000000),
    (StoreCall.get "t", 2500000000), (StoreCall.pass "s", 3000000000),
    (StoreCall.create "s" "en", 3500000000)]

/-- The keys of a map. -/
def keysOf {β : Type} (m : List (String × β)) : List String := m.map Prod.fst

/-- The letters of the questions are pairwise distinct. -/
def DistinctLetters (qs : List Question) : Prop := (qs.map Question.Letter).Nodup

/-- Two questions that share the letter "A". -/
def dupQuestions : List Question :=
  [⟨"A", "Q1", "ans1"⟩, ⟨"A", "Q2", "ans2"⟩]

/-- The keys of `LettersState` are the keys written at creation. -/
def KeysKept (s : GameState) : Prop :=
  keysOf s.LettersState = keysOf (initLetters s.Questions [])

/-- The store reached from the new manager by `demoStoreCalls`. -/
def demoStore : GameManager :=
  (runStore noFold (NewGameManager [("en", demoQuestions)]) demoStoreCalls).getD demoManager

/-- The state of session "s" in `demoStore`: revisiting question 1, which was passed twice. -/
def demoStoreState : GameState := (mapGet demoStore.Sessions "s").getD demoState

/-- The question at index `j` exists and its letter has status `v`. -/
def hasStatus (s : GameState) (j : Int) (v : String) : Prop :=
  ∃ q, index s.Questions j = some q ∧ mapGet s.LettersState q.Letter = some v

/-- The queue and the statuses agree: every queued index is a question whose letter is
"yellow", no index is queued twice, during the first pass the queued indices lie before the
active one and the questions from the active one on are unset, and during the revisit phase
the active index is not queued and its letter is "yellow". -/
structure Tidy (s : GameState) : Prop where
  pendingYellow : ∀ j ∈ s.PendingPasses, hasStatus s j "yellow"
  pendingNodup : s.PendingPasses.Nodup
  first : s.IsGameOver = false → s.IsRevisiting = false →
    (∀ j ∈ s.PendingPasses, j < s.CurrentIndex) ∧
      ∀ j q, s.CurrentIndex ≤ j → index s.Questions j = some q →
        mapGet s.LettersState q.Letter = some ""
  revisit : s.IsGameOver = false → s.IsRevisiting = true →
    s.CurrentIndex ∉ s.PendingPasses ∧
      ∀ q, index s.Questions s.CurrentIndex = some q →
        mapGet s.LettersState q.Letter = some "yellow"

/-- The queue and the statuses of a running session after an answer or a pass has been
recorded and before advancement. -/
structure PreTidy (s : GameState) : Prop where
  running : s.IsGameOver = false
  pendingYellow : ∀ j ∈ s.PendingPasses, hasStatus s j "yellow"
  pendingNodup : s.PendingPasses.Nodup
  first : s.IsRevisiting = false →
    (∀ j ∈ s.PendingPasses, j < s.CurrentIndex + 1) ∧
      ∀ j q, s.CurrentIndex + 1 ≤ j → index s.Questions j = some q →
        mapGet s.LettersState q.Letter = some ""

/-- The invariant behind the status claims: a session with pairwise distinct letters is
tidy. -/
def TidyIfDistinct (s : GameState) : Prop := DistinctLetters s.Questions → Tidy s

/-- The allowed moves of a letter status: no change, unset to green, red or yellow, and
yellow to green or red. -/
def statusAdvance (v v' : String) : Prop :=
  v' = v ∨ (v = "" ∧ (v' = "green" ∨ v' = "red" ∨ v' = "yellow")) ∨
    (v = "yellow" ∧ (v' = "green" ∨ v' = "red"))

/-- Every letter of `s` is still a letter of `s'`, and its status has moved as allowed. -/
def lettersAdvance (s s' : GameState) : Prop :=
  ∀ k v, mapGet s.LettersState k = some v →
    ∃ v', mapGet s'.LettersState k = some v' ∧ statusAdvance v v'

/-- A first linear pass over three questions on the whole store: pass, answer, pass. -/
def demoStoreCalls3 : List (StoreCall × Int) :=
  [(StoreCall.create "s" "en", 0), (StoreCall.pass "s", 1000000000),
    (StoreCall.answer "s" "ans2", 2000000000), (StoreCall.pass "s", 3000000000)]

/-- The store reached by `demoStoreCalls3`: session "s" revisits question 0 with question 2
queued. -/
def demoStore3 : GameManager :=
  (runStore noFold (NewGameManager [("en", demoQuestions3)]) demoStoreCalls3).getD demoManager

/-- The state of session "s" in `demoStore3`. -/
def demoStoreState3 : GameState := (mapGet demoStore3.Sessions "s").getD demoState

/-- Calls that go on from `demoStore3`: a wrong answer to question 0, a second pass of
question 2, a timer read. -/
def demoMoreCalls3 : List (StoreCall × Int) :=
  [(StoreCall.answer "s" "nope", 4000000000), (StoreCall.pass "s", 5000000000),
    (StoreCall.get "s", 6000000000)]

/-! ## The contract of unicode.SimpleFold -/

/-- The contract of `unicode.SimpleFold`, from its documentation: the runes that are equal
under Unicode simple case folding form the classes of an equivalence `E`; `SimpleFold r` is in
the class of `r`, and when the class has a rune above `r` it is the least such rune. On the
ASCII runes the classes are the letters up to their case. -/
structure FoldTable (simpleFold : Char → Char) (E : Char → Char → Prop) : Prop where
  equiv : Equivalence E
  next : ∀ r, E r (simpleFold r)
  least : ∀ r x, E r x → r < x → r < simpleFold r ∧ simpleFold r ≤ x
  ascii : ∀ a b, a.toNat < 0x80 → b.toNat < 0x80 → (E a b ↔ asciiLower a = asciiLower b)

/-- The code points of a sample folding table: the ASCII letters, with the orbits
`K k U+212A` and `S s U+017F` as in Unicode, and the Greek orbit `U+03A3 U+03C2 U+03C3`;
every other code point is left alone. -/
def demoFoldNat (n : Nat) : Nat :=
  if n = 0x4B then 0x6B else if n = 0x6B then 0x212A else if n = 0x212A then 0x4B
  else if n = 0x53 then 0x73 else if n = 0x73 then 0x17F else if n = 0x17F then 0x53
  else if n = 0x3A3 then 0x3C2 else if n = 0x3C2 then 0x3C3 else if n = 0x3C3 then 0x3A3
  else if 0x41 ≤ n ∧ n ≤ 0x5A then n + 0x20
  else if 0x61 ≤ n ∧ n ≤ 0x7A then n - 0x20 else n

/-- The sample folding table. -/
def demoFold (c : Char) : Char := Char.ofNat (demoFoldNat c.toNat)

/-- The representative of the class of a code point under the sample table. -/
def demoKeyNat (n : Nat) : Nat :=
  if 0x41 ≤ n ∧ n ≤ 0x5A then n + 0x20
  else if n = 0x212A then 0x6B else if n = 0x17F then 0x73
  else if n = 0x3A3 ∨ n = 0x3C2 then 0x3C3 else n

/-- Two runes are the same letter under the sample table. -/
def demoSameLetter (a b : Char) : Prop := demoKeyNat a.toNat = demoKeyNat b.toNat

/-- A manager whose only question expects the answer "σas", with session "s" created at
clock reading 0. -/
def demoGreekStarted : GameManager :=
  (GetOrCreateSession (NewGameManager [("en", [⟨"S", "Q1", "σas"⟩])]) 0 "s" "en").1

/-- The fresh state of session "s" in `demoGreekStarted`. -/
def demoGreekState : GameState :=
  (GetOrCreateSession (NewGameManager [("en", [⟨"S", "Q1", "σas"⟩])]) 0 "s" "en").2.1

/-! ## Maps: lookup after assignment -/

theorem mapGet_mapSet_self {β : Type} (m : List (String × β)) (k : String) (v : β) :
    mapGet (mapSet m k v) k = some v := by
  induction m with
  | nil => simp [mapSet, mapGet]
  | cons e rest ih =>
    obtain ⟨k', v'⟩ := e
    by_cases h : k' = k
    · simp [mapSet, mapGet, h]
    · simp [mapSet, mapGet, h, ih]

theorem mapGet_mapSet_ne {β : Type} (m : List (String × β)) (k k' : String) (v : β)
    (h : k ≠ k') : mapGet (mapSet m k v) k' = mapGet m k' := by
  induction m with
  | nil => simp [mapSet, mapGet, h]
  | cons e rest ih =>
    obtain ⟨k0, v0⟩ := e
    by_cases h0 : k0 = k
    · subst h0
      simp [mapSet, mapGet, h]
    · by_cases h1 : k0 = k'
      · subst h1
        simp [mapSet, mapGet, h0]
      · simp [mapSet, mapGet, h0, h1, ih]

theorem mapGet_mapSet {β : Type} (m : List (String × β)) (k k' : String) (v : β) :
    mapGet (mapSet m k v) k' = if k = k' then some v else mapGet m k' := by
  by_cases h : k = k'
  · subst h
    simp [mapGet_mapSet_self]
  · simp [h, mapGet_mapSet_ne m k k' v h]

/-! ## The timer -/

theorem updateTimer_of_over (state : GameState) (now : Int) (h : state.IsGameOver = true) :
    updateTimer state now = state := by
  simp [updateTimer, h]

theorem updateTimer_of_expired (state : GameState) (now : Int)
    (h : state.IsGameOver = false) (he : 300 ≤ elapsedSeconds state.StartTime now) :
    updateTimer state now = { state with TimeRemaining := 0, IsGameOver := true } := by
  have : GameDuration - elapsedSeconds state.StartTime now ≤ 0 := by
    simp only [GameDuration]; omega
  simp [updateTimer, h, this]

theorem updateTimer_of_running (state : GameState) (now : Int)
    (h : state.IsGameOver = false) (he : elapsedSeconds state.StartTime now < 300) :
    updateTimer state now =
      { state with TimeRemaining := 300 - elapsedSeconds state.StartTime now } := by
  simp [updateTimer, h, GameDuration, he]

/-- C8. Timer arithmetic: on a state that is not game-over, with `e` whole seconds elapsed
since `StartTime`, `updateTimer` sets `TimeRemaining` to `max 0 (300 - e)`, sets `IsGameOver`
exactly when `300 ≤ e` (exactly when the new `TimeRemaining` is 0) and leaves every other
field alone; on a game-over state it changes nothing. -/
theorem updateTimer_arithmetic (state : GameState) (now : Int) :
    (state.IsGameOver = false →
      updateTimer state now =
          { state with
            TimeRemaining := max 0 (GameDuration - elapsedSeconds state.StartTime now)
            IsGameOver := decide (300 ≤ elapsedSeconds state.StartTime now) } ∧
        ((updateTimer state now).IsGameOver = true ↔
          (updateTimer state now).TimeRemaining = 0)) ∧
      (state.IsGameOver = true → updateTimer state now = state) := by
  refine ⟨fun h => ?_, updateTimer_of_over state now⟩
  by_cases he : 300 ≤ elapsedSeconds state.StartTime now
  · rw [updateTimer_of_expired state now h he]
    have hm : max 0 (GameDuration - elapsedSeconds state.StartTime now) = 0 := by
      simp only [GameDuration]; omega
    simp [hm, he]
  · have he' : elapsedSeconds state.StartTime now < 300 := by omega
    rw [updateTimer_of_running state now h he']
    have hm : max 0 (GameDuration - elapsedSeconds state.StartTime now)
        = 300 - elapsedSeconds state.StartTime now := by
      simp only [GameDuration]; omega
    rw [hm]
    refine ⟨?_, ?_⟩
    · cases state
      simp_all
    · simp only [h]
      constructor
      · intro hc; cases hc
      · intro hc; omega

theorem updateTimer_arithmetic_witness :
    (updateTimer demoState 120500000000 =
        { demoState with
          TimeRemaining := max 0 (GameDuration - elapsedSeconds demoState.StartTime 120500000000)
          IsGameOver := decide (300 ≤ elapsedSeconds demoState.StartTime 120500000000) } ∧
      ((updateTimer demoState 120500000000).IsGameOver = true ↔
        (updateTimer demoState 120500000000).TimeRemaining = 0)) ∧
    (updateTimer demoState 120500000000).TimeRemaining = 180 :=
  ⟨(updateTimer_arithmetic demoState 120500000000).1 (by decide), by decide⟩

/-! ## Session creation and lookup -/

/-- C9. Session affinity: when the store holds a state for `sessionID`, `GetOrCreateSession`
returns that very state with `created = false` and the manager (store and catalog) is the
one it was given, whatever the language key. -/
theorem GetOrCreateSession_existing (gm : GameManager) (now : Int) (sessionID lang : String)
    (state : GameState) (h : mapGet gm.Sessions sessionID = some state) :
    GetOrCreateSession gm now sessionID lang = (gm, state, false) ∧
      mapGet (GetOrCreateSession gm now sessionID lang).1.Sessions sessionID = some state ∧
      (GetOrCreateSession gm now sessionID lang).2.1.Language = state.Language ∧
      (GetOrCreateSession gm now sessionID lang).2.1.Questions = state.Questions := by
  have hres : GetOrCreateSession gm now sessionID lang = (gm, state, false) := by
    unfold GetOrCreateSession
    rw [h]
  rw [hres]
  exact ⟨rfl, h, rfl, rfl⟩

theorem GetOrCreateSession_existing_witness :
    GetOrCreateSession demoStarted 7000000000 "s" "xx" = (demoStarted, demoState, false) ∧
      demoState.Language = "en" :=
  ⟨(GetOrCreateSession_existing demoStarted 7000000000 "s" "xx" demoState (by decide)).1,
    by decide⟩

theorem foldl_letters (questions : List Question) (st : GameState) :
    questions.foldl
        (fun st q => { st with LettersState := mapSet st.LettersState q.Letter "" }) st =
      { st with LettersState := initLetters questions st.LettersState } := by
  induction questions generalizing st with
  | nil => rfl
  | cons q qs ih =>
    simp only [List.foldl_cons]
    rw [ih]
    rfl

theorem newSessionState_eq (sessionID lang : String) (questions : List Question) (now : Int) :
    newSessionState sessionID lang questions now =
      { SessionID := sessionID
        Language := lang
        Questions := questions
        CurrentIndex := 0
        CorrectCount := 0
        WrongCount := 0
        PassedCount := 0
        LettersState := initLetters questions []
        TimeRemaining := 300
        IsGameOver := false
        StartTime := now
        PendingPasses := []
        IsRevisiting := false } := by
  unfold newSessionState
  rw [foldl_letters]
  rfl

theorem mapGet_initLetters (questions : List Question) (m : List (String × String))
    (k : String) :
    mapGet (initLetters questions m) k =
      if ∃ q ∈ questions, q.Letter = k then some "" else mapGet m k := by
  induction questions generalizing m with
  | nil => simp [initLetters]
  | cons q qs ih =>
    have hstep : initLetters (q :: qs) m = initLetters qs (mapSet m q.Letter "") := rfl
    rw [hstep, ih, mapGet_mapSet]
    by_cases h1 : ∃ q' ∈ qs, q'.Letter = k
    · have h2 : ∃ q' ∈ q :: qs, q'.Letter = k := by
        obtain ⟨q', hq', hk⟩ := h1
        exact ⟨q', List.mem_cons_of_mem _ hq', hk⟩
      simp [h1, h2]
    · by_cases h3 : q.Letter = k
      · have h2 : ∃ q' ∈ q :: qs, q'.Letter = k := ⟨q, List.mem_cons_self _ _, h3⟩
        rw [if_neg h1, if_pos h3, if_pos h2]
      · have h2 : ¬ ∃ q' ∈ q :: qs, q'.Letter = k := by
          rintro ⟨q', hq', hk⟩
          rcases List.mem_cons.mp hq' with rfl | hq'
          · exact h3 hk
          · exact h1 ⟨q', hq', hk⟩
        rw [if_neg h1, if_neg h3, if_neg h2]

/-- C10. Session creation with language fallback: when the store holds no state for
`sessionID`, `GetOrCreateSession` returns `created = true` and registers under `sessionID`
(other sessions and the catalog untouched) the state it returns. Its language is `lang` when
`lang` is a catalog key and "en" otherwise, its questions are the catalog entry of that
language, its index and counters are 0, its queue empty, both flags false, `TimeRemaining`
300, `StartTime` the clock reading, and `LettersState` maps exactly the letters of its
questions, each to "". In particular an unknown key "xx" gives language "en". -/
theorem GetOrCreateSession_creates (gm : GameManager) (now : Int) (sessionID lang : String)
    (h : mapGet gm.Sessions sessionID = none) :
    (GetOrCreateSession gm now sessionID lang).2.2 = true ∧
    mapGet (GetOrCreateSession gm now sessionID lang).1.Sessions sessionID
      = some (GetOrCreateSession gm now sessionID lang).2.1 ∧
    (∀ other, other ≠ sessionID →
      mapGet (GetOrCreateSession gm now sessionID lang).1.Sessions other
        = mapGet gm.Sessions other) ∧
    (GetOrCreateSession gm now sessionID lang).1.Questions = gm.Questions ∧
    (GetOrCreateSession gm now sessionID lang).2.1 =
      { SessionID := sessionID
        Language := if (mapGet gm.Questions lang).isSome then lang else "en"
        Questions :=
          (mapGet gm.Questions (if (mapGet gm.Questions lang).isSome then lang else "en")).getD []
        CurrentIndex := 0
        CorrectCount := 0
        WrongCount := 0
        PassedCount := 0
        LettersState := (GetOrCreateSession gm now sessionID lang).2.1.LettersState
        TimeRemaining := 300
        IsGameOver := false
        StartTime := now
        PendingPasses := []
        IsRevisiting := false } ∧
    (∀ k, mapGet (GetOrCreateSession gm now sessionID lang).2.1.LettersState k =
      if ∃ q ∈ (GetOrCreateSession gm now sessionID lang).2.1.Questions, q.Letter = k
      then some "" else none) ∧
    (mapGet gm.Questions "xx" = none →
      (GetOrCreateSession gm now sessionID "xx").2.1.Language = "en") := by
  refine ⟨?_, ?_, ?_, ?_, ?_, ?_, ?_⟩
  · simp [GetOrCreateSession, h]
  · simp [GetOrCreateSession, h, mapGet_mapSet_self]
  · intro other hne
    simp only [GetOrCreateSession, h]
    exact mapGet_mapSet_ne _ _ _ _ (Ne.symm hne)
  · simp [GetOrCreateSession, h]
  · simp only [GetOrCreateSession, h, newSessionState_eq]
    cases hl : mapGet gm.Questions lang <;> simp [hl]
  · intro k
    simp only [GetOrCreateSession, h, newSessionState_eq]
    rw [mapGet_initLetters]
    simp [mapGet]
  · intro hx
    simp [GetOrCreateSession, h, hx, newSessionState_eq]

theorem GetOrCreateSession_creates_witness :
    (GetOrCreateSession demoManager 0 "s" "xx").2.2 = true ∧
    (GetOrCreateSession demoManager 0 "s" "xx").2.1.Language = "en" ∧
    (GetOrCreateSession demoManager 0 "s" "xx").2.1.Questions = demoQuestions ∧
    (GetOrCreateSession demoManager 0 "s" "xx").2.1.LettersState = [("A", ""), ("B", "")] :=
  ⟨(GetOrCreateSession_creates demoManager 0 "s" "xx" (by decide)).1,
    (GetOrCreateSession_creates demoManager 0 "s" "xx" (by decide)).2.2.2.2.2.2 (by decide),
    by decide, by decide⟩

/-! ## SubmitAnswer, Pass and GetState, case by case -/

theorem SubmitAnswer_dead (simpleFold : Char → Char) (gm : GameManager) (now : Int)
    (sessionID answer : String) (h : deadSession gm sessionID) :
    SubmitAnswer simpleFold gm now sessionID answer
      = some ⟨gm, none, FeedbackPayload.empty, false⟩ := by
  rcases h with h | ⟨s, h, ho⟩
  · simp [SubmitAnswer, h]
  · simp [SubmitAnswer, h, ho]

theorem Pass_dead (gm : GameManager) (now : Int) (sessionID : String)
    (h : deadSession gm sessionID) :
    Pass gm now sessionID = some ⟨gm, none, FeedbackPayload.empty, false⟩ := by
  rcases h with h | ⟨s, h, ho⟩
  · simp [Pass, h]
  · simp [Pass, h, ho]

theorem SubmitAnswer_expired (simpleFold : Char → Char) (gm : GameManager) (now : Int)
    (sessionID answer : String) (s : GameState) (h : mapGet gm.Sessions sessionID = some s)
    (hno : s.IsGameOver = false) (he : 300 ≤ elapsedSeconds s.StartTime now) :
    SubmitAnswer simpleFold gm now sessionID answer =
      some ⟨{ gm with Sessions := (mapSet gm.Sessions sessionID
                { s with TimeRemaining := 0, IsGameOver := true }) },
        some { s with TimeRemaining := 0, IsGameOver := true }, FeedbackPayload.empty, true⟩ := by
  simp [SubmitAnswer, h, hno, updateTimer_of_expired s now hno he]

theorem Pass_expired (gm : GameManager) (now : Int) (sessionID : String) (s : GameState)
    (h : mapGet gm.Sessions sessionID = some s)
    (hno : s.IsGameOver = false) (he : 300 ≤ elapsedSeconds s.StartTime now) :
    Pass gm now sessionID =
      some ⟨{ gm with Sessions := (mapSet gm.Sessions sessionID
                { s with TimeRemaining := 0, IsGameOver := true }) },
        some { s with TimeRemaining := 0, IsGameOver := true }, FeedbackPayload.empty, true⟩ := by
  simp [Pass, h, hno, updateTimer_of_expired s now hno he]

theorem SubmitAnswer_running (simpleFold : Char → Char) (gm : GameManager) (now : Int)
    (sessionID answer : String) (s : GameState) (q : Question)
    (h : mapGet gm.Sessions sessionID = some s) (hno : s.IsGameOver = false)
    (he : elapsedSeconds s.StartTime now < 300)
    (hq : index s.Questions s.CurrentIndex = some q) :
    SubmitAnswer simpleFold gm now sessionID answer =
      some ⟨{ gm with Sessions := (mapSet gm.Sessions sessionID
                (moveToNext (scoredState s (elapsedSeconds s.StartTime now) q
                  (EqualFold simpleFold (TrimSpace answer) (TrimSpace q.Answer))))) },
        some (moveToNext (scoredState s (elapsedSeconds s.StartTime now) q
          (EqualFold simpleFold (TrimSpace answer) (TrimSpace q.Answer)))),
        { Letter := q.Letter
          Status := if EqualFold simpleFold (TrimSpace answer) (TrimSpace q.Answer)
            then "green" else "red"
          Correct := EqualFold simpleFold (TrimSpace answer) (TrimSpace q.Answer) },
        true⟩ := by
  simp only [SubmitAnswer, h, hno, updateTimer_of_running s now hno he, hq, scoredState]
  cases EqualFold simpleFold (TrimSpace answer) (TrimSpace q.Answer) <;> simp

theorem Pass_running (gm : GameManager) (now : Int) (sessionID : String) (s : GameState)
    (q : Question) (h : mapGet gm.Sessions sessionID = some s) (hno : s.IsGameOver = false)
    (he : elapsedSeconds s.StartTime now < 300)
    (hq : index s.Questions s.CurrentIndex = some q) :
    Pass gm now sessionID =
      some ⟨{ gm with Sessions := (mapSet gm.Sessions sessionID
                (moveToNext (passedState s (elapsedSeconds s.StartTime now) q))) },
        some (moveToNext (passedState s (elapsedSeconds s.StartTime now) q)),
        { Letter := q.Letter, Status := "yellow", Correct := false }, true⟩ := by
  simp [Pass, h, hno, updateTimer_of_running s now hno he, hq, passedState]

theorem SubmitAnswer_ok_of_alive (simpleFold : Char → Char) (gm : GameManager) (now : Int)
    (sessionID answer : String) (h : ¬ deadSession gm sessionID) (r : CallResult)
    (hr : SubmitAnswer simpleFold gm now sessionID answer = some r) : r.ok = true := by
  cases hs : mapGet gm.Sessions sessionID with
  | none => exact absurd (Or.inl hs) h
  | some s =>
    have hno : s.IsGameOver = false := by
      cases ho : s.IsGameOver
      · rfl
      · exact absurd (Or.inr ⟨s, hs, ho⟩) h
    by_cases he : 300 ≤ elapsedSeconds s.StartTime now
    · rw [SubmitAnswer_expired simpleFold gm now sessionID answer s hs hno he] at hr
      cases hr
      rfl
    · have he' : elapsedSeconds s.StartTime now < 300 := by omega
      cases hq : index s.Questions s.CurrentIndex with
      | none =>
        simp [SubmitAnswer, hs, hno, updateTimer_of_running s now hno he', hq] at hr
      | some q =>
        rw [SubmitAnswer_running simpleFold gm now sessionID answer s q hs hno he' hq] at hr
        cases hr
        rfl

theorem Pass_ok_of_alive (gm : GameManager) (now : Int) (sessionID : String)
    (h : ¬ deadSession gm sessionID) (r : CallResult)
    (hr : Pass gm now sessionID = some r) : r.ok = true := by
  cases hs : mapGet gm.Sessions sessionID with
  | none => exact absurd (Or.inl hs) h
  | some s =>
    have hno : s.IsGameOver = false := by
      cases ho : s.IsGameOver
      · rfl
      · exact absurd (Or.inr ⟨s, hs, ho⟩) h
    by_cases he : 300 ≤ elapsedSeconds s.StartTime now
    · rw [Pass_expired gm now sessionID s hs hno he] at hr
      cases hr
      rfl
    · have he' : elapsedSeconds s.StartTime now < 300 := by omega
      cases hq : index s.Questions s.CurrentIndex with
      | none =>
        simp [Pass, hs, hno, updateTimer_of_running s now hno he', hq] at hr
      | some q =>
        rw [Pass_running gm now sessionID s q hs hno he' hq] at hr
        cases hr
        rfl

/-- C6. Silent failure: `SubmitAnswer` and `Pass` return `ok = false` if and only if the
session is absent from the store or its stored state is already game-over at entry; in that
case they return no state and the empty feedback, and the manager after the call is the
manager before it. -/
theorem silent_failure (simpleFold : Char → Char) (gm : GameManager) (now : Int)
    (sessionID answer : String) :
    ((∃ r, SubmitAnswer simpleFold gm now sessionID answer = some r ∧ r.ok = false) ↔
        deadSession gm sessionID) ∧
      ((∃ r, Pass gm now sessionID = some r ∧ r.ok = false) ↔ deadSession gm sessionID) ∧
      (deadSession gm sessionID →
        SubmitAnswer simpleFold gm now sessionID answer
            = some ⟨gm, none, FeedbackPayload.empty, false⟩ ∧
          Pass gm now sessionID = some ⟨gm, none, FeedbackPayload.empty, false⟩) := by
  refine ⟨⟨?_, ?_⟩, ⟨?_, ?_⟩, ?_⟩
  · rintro ⟨r, hr, hok⟩
    by_contra hd
    have := SubmitAnswer_ok_of_alive simpleFold gm now sessionID answer hd r hr
    rw [hok] at this
    cases this
  · intro hd
    exact ⟨_, SubmitAnswer_dead simpleFold gm now sessionID answer hd, rfl⟩
  · rintro ⟨r, hr, hok⟩
    by_contra hd
    have := Pass_ok_of_alive gm now sessionID hd r hr
    rw [hok] at this
    cases this
  · intro hd
    exact ⟨_, Pass_dead gm now sessionID hd, rfl⟩
  · intro hd
    exact ⟨SubmitAnswer_dead simpleFold gm now sessionID answer hd,
      Pass_dead gm now sessionID hd⟩

theorem silent_failure_witness :
    SubmitAnswer noFold demoManager 5000000000 "s" "ans1"
        = some ⟨demoManager, none, FeedbackPayload.empty, false⟩ ∧
      Pass demoManager 5000000000 "s" = some ⟨demoManager, none, FeedbackPayload.empty, false⟩ :=
  (silent_failure noFold demoManager 5000000000 "s" "ans1").2.2 (Or.inl (by decide))

/-- C7. Expiry discards the in-flight event: for a stored session that is not game-over, when
at least 300 whole seconds have elapsed since `StartTime`, `SubmitAnswer`, `Pass` and
`GetState` store and return the state with `IsGameOver = true` and `TimeRemaining = 0` and
every other field (counters, `LettersState`, `CurrentIndex`, `PendingPasses`,
`IsRevisiting`) as it was; `SubmitAnswer` and `Pass` return `ok = true` with the empty
feedback. -/
theorem expiry_discards_event (simpleFold : Char → Char) (gm : GameManager) (now : Int)
    (sessionID answer : String) (s : GameState) (h : mapGet gm.Sessions sessionID = some s)
    (hno : s.IsGameOver = false) (he : 300 ≤ elapsedSeconds s.StartTime now) :
    SubmitAnswer simpleFold gm now sessionID answer =
        some ⟨{ gm with Sessions := (mapSet gm.Sessions sessionID
                  { s with TimeRemaining := 0, IsGameOver := true }) },
          some { s with TimeRemaining := 0, IsGameOver := true },
          FeedbackPayload.empty, true⟩ ∧
      Pass gm now sessionID =
        some ⟨{ gm with Sessions := (mapSet gm.Sessions sessionID
                  { s with TimeRemaining := 0, IsGameOver := true }) },
          some { s with TimeRemaining := 0, IsGameOver := true },
          FeedbackPayload.empty, true⟩ ∧
      GetState gm now sessionID =
        ({ gm with Sessions := (mapSet gm.Sessions sessionID
              { s with TimeRemaining := 0, IsGameOver := true }) },
          some { s with TimeRemaining := 0, IsGameOver := true }, true) ∧
      mapGet (mapSet gm.Sessions sessionID { s with TimeRemaining := 0, IsGameOver := true })
        sessionID = some { s with TimeRemaining := 0, IsGameOver := true } := by
  refine ⟨SubmitAnswer_expired simpleFold gm now sessionID answer s h hno he,
    Pass_expired gm now sessionID s h hno he, ?_, mapGet_mapSet_self _ _ _⟩
  simp [GetState, h, updateTimer_of_expired s now hno he]

theorem expiry_discards_event_witness :
    SubmitAnswer noFold demoStarted 300000000000 "s" "ans1" =
        some ⟨{ demoStarted with Sessions := (mapSet demoStarted.Sessions "s"
                  { demoState with TimeRemaining := 0, IsGameOver := true }) },
          some { demoState with TimeRemaining := 0, IsGameOver := true },
          FeedbackPayload.empty, true⟩ ∧
      Pass demoStarted 300000000000 "s" =
        some ⟨{ demoStarted with Sessions := (mapSet demoStarted.Sessions "s"
                  { demoState with TimeRemaining := 0, IsGameOver := true }) },
          some { demoState with TimeRemaining := 0, IsGameOver := true },
          FeedbackPayload.empty, true⟩ ∧
      GetState demoStarted 300000000000 "s" =
        ({ demoStarted with Sessions := (mapSet demoStarted.Sessions "s"
              { demoState with TimeRemaining := 0, IsGameOver := true }) },
          some { demoState with TimeRemaining := 0, IsGameOver := true }, true) ∧
      mapGet (mapSet demoStarted.Sessions "s"
          { demoState with TimeRemaining := 0, IsGameOver := true }) "s"
        = some { demoState with TimeRemaining := 0, IsGameOver := true } :=
  expiry_discards_event noFold demoStarted 300000000000 "s" "ans1" demoState
    (by decide) (by decide) (by decide)

/-! ## Trimming and case folding -/

theorem char_eq_of_toNat (a b : Char) (h : a.toNat = b.toNat) : a = b := by
  rw [← Char.ofNat_toNat a, ← Char.ofNat_toNat b, h]

theorem char_lt_iff (a b : Char) : a < b ↔ a.toNat < b.toNat := by
  rw [Char.lt_def]
  exact Iff.rfl

theorem toNat_upper_shift (n : Nat) (h1 : 0x41 ≤ n) (h2 : n ≤ 0x5A) :
    (Char.ofNat (n + 0x20)).toNat = n + 0x20 := by
  interval_cases n <;> rfl

theorem toNat_asciiLower (c : Char) :
    (asciiLower c).toNat =
      if 0x41 ≤ c.toNat ∧ c.toNat ≤ 0x5A then c.toNat + 0x20 else c.toNat := by
  unfold asciiLower
  split_ifs with h
  · exact toNat_upper_shift _ h.1 h.2
  · rfl

/-- On ASCII runes the fold comparison is equality of the lower-cased runes, whatever the
folding table. -/
theorem runeEqualFold_ascii (simpleFold : Char → Char) (a b : Char)
    (ha : a.toNat < 0x80) (hb : b.toNat < 0x80) :
    runeEqualFold simpleFold a b = true ↔ asciiLower a = asciiLower b := by
  have hlow : asciiLower a = asciiLower b ↔ (asciiLower a).toNat = (asciiLower b).toNat :=
    ⟨fun h => by rw [h], char_eq_of_toNat _ _⟩
  rw [hlow, toNat_asciiLower, toNat_asciiLower]
  unfold runeEqualFold
  by_cases hab : b = a
  · subst hab
    simp
  · have hne : a.toNat ≠ b.toNat := fun h => hab (char_eq_of_toNat _ _ h.symm)
    rw [if_neg hab]
    by_cases hlt : b < a
    · have hlt' := (char_lt_iff b a).mp hlt
      simp only [hlt, if_true, ha, decide_eq_true_eq]
      split_ifs <;> omega
    · have hlt' : ¬ b.toNat < a.toNat := fun h => hlt ((char_lt_iff b a).mpr h)
      simp only [hlt, if_false, hb, if_true, decide_eq_true_eq]
      split_ifs <;> omega

theorem equalFoldRunes_ascii (simpleFold : Char → Char) (s t : List Char)
    (hs : ∀ c ∈ s, c.toNat < 0x80) (ht : ∀ c ∈ t, c.toNat < 0x80) :
    equalFoldRunes simpleFold s t = true ↔ s.map asciiLower = t.map asciiLower := by
  induction s generalizing t with
  | nil => cases t <;> simp [equalFoldRunes]
  | cons a s ih =>
    cases t with
    | nil => simp [equalFoldRunes]
    | cons b t =>
      have h1 := runeEqualFold_ascii simpleFold a b (hs a (List.mem_cons_self _ _))
        (ht b (List.mem_cons_self _ _))
      have h2 := ih t (fun c hc => hs c (List.mem_cons_of_mem _ hc))
        (fun c hc => ht c (List.mem_cons_of_mem _ hc))
      simp only [equalFoldRunes, Bool.and_eq_true, List.map_cons, List.cons.injEq, h1, h2]

theorem dropWhile_head_not (p : Char → Bool) (l : List Char) (c : Char)
    (h : (l.dropWhile p).head? = some c) : p c = false := by
  have := List.head?_dropWhile_not p l
  rw [h] at this
  exact this

/-- The string `TrimSpace s` is `s` without a leading and a trailing run of white space, and
it neither starts nor ends with white space. -/
theorem TrimSpace_spec (s : String) :
    ∃ pre post, s.data = pre ++ (TrimSpace s).data ++ post ∧
      (∀ c ∈ pre, isSpace c = true) ∧ (∀ c ∈ post, isSpace c = true) ∧
      (∀ c, (TrimSpace s).data.head? = some c → isSpace c = false) ∧
      (∀ c, (TrimSpace s).data.getLast? = some c → isSpace c = false) := by
  have hm : s.data = s.data.takeWhile isSpace ++ s.data.dropWhile isSpace :=
    (List.takeWhile_append_dropWhile isSpace s.data).symm
  have hr : (s.data.dropWhile isSpace).reverse =
      (s.data.dropWhile isSpace).reverse.takeWhile isSpace ++
        (s.data.dropWhile isSpace).reverse.dropWhile isSpace :=
    (List.takeWhile_append_dropWhile isSpace _).symm
  have hr' : s.data.dropWhile isSpace =
      ((s.data.dropWhile isSpace).reverse.dropWhile isSpace).reverse ++
        ((s.data.dropWhile isSpace).reverse.takeWhile isSpace).reverse := by
    have := congrArg List.reverse hr
    rw [List.reverse_reverse, List.reverse_append] at this
    exact this
  refine ⟨s.data.takeWhile isSpace,
    ((s.data.dropWhile isSpace).reverse.takeWhile isSpace).reverse, ?_, ?_, ?_, ?_, ?_⟩
  · show s.data = _ ++ ((s.data.dropWhile isSpace).reverse.dropWhile isSpace).reverse ++ _
    rw [List.append_assoc, ← hr']
    exact hm
  · intro c hc
    exact List.mem_takeWhile_imp hc
  · intro c hc
    exact List.mem_takeWhile_imp (List.mem_reverse.mp hc)
  · intro c hc
    have hc' :
        (((s.data.dropWhile isSpace).reverse.dropWhile isSpace).reverse).head? = some c := hc
    have hpre : (s.data.dropWhile isSpace).head? = some c := by
      rw [hr', List.head?_append, hc']
      rfl
    exact dropWhile_head_not isSpace s.data c hpre
  · intro c hc
    have hc' :
        (((s.data.dropWhile isSpace).reverse.dropWhile isSpace).reverse).getLast? = some c := hc
    rw [List.getLast?_reverse] at hc'
    exact dropWhile_head_not isSpace _ c hc'

/-! ## Case folding under the contract of the table -/

theorem toNat_ofNat_small (m : Nat) (h : m < 0xD800) : (Char.ofNat m).toNat = m := by
  have hv : m.isValidChar := Or.inl h
  unfold Char.ofNat
  rw [dif_pos hv]
  simp [Char.ofNatAux, Char.toNat, UInt32.toNat]

theorem char_toNat_lt (c : Char) : c.toNat < 0x110000 := by
  rcases c.valid with h | ⟨_, h⟩
  · have h' : c.val.toNat < 0xD800 := h
    show c.val.toNat < 0x110000
    omega
  · exact h

theorem char_le_iff (a b : Char) : a ≤ b ↔ a.toNat ≤ b.toNat := by
  rw [Char.le_def]
  exact Iff.rfl

theorem foldWalk_succ (simpleFold : Char → Char) (sr tr : Char) (n : Nat) (r : Char) :
    foldWalk simpleFold sr tr (n + 1) r =
      if r ≠ sr ∧ r < tr then foldWalk simpleFold sr tr n (simpleFold r) else r := rfl

/-- The orbit walk never leaves the class of the rune it starts from. -/
theorem foldWalk_sound (simpleFold : Char → Char) (E : Char → Char → Prop)
    (h : FoldTable simpleFold E) (lo hi : Char) (fuel : Nat) :
    ∀ r, E lo r → E lo (foldWalk simpleFold lo hi fuel r) := by
  induction fuel with
  | zero => intro r hr; exact hr
  | succ n ih =>
    intro r hr
    rw [foldWalk_succ]
    split_ifs
    · exact ih _ (h.equiv.trans hr (h.next r))
    · exact hr

/-- When the target is in the class, the orbit walk climbs to it. -/
theorem foldWalk_complete (simpleFold : Char → Char) (E : Char → Char → Prop)
    (h : FoldTable simpleFold E) (lo hi : Char) (hE : E lo hi) (fuel : Nat) :
    ∀ r, E lo r → lo < r → r ≤ hi → hi.toNat - r.toNat < fuel →
      foldWalk simpleFold lo hi fuel r = hi := by
  induction fuel with
  | zero => intro r _ _ _ hf; omega
  | succ n ih =>
    intro r hr hlo hhi hf
    rw [foldWalk_succ]
    by_cases hlt : r < hi
    · have hne : r ≠ lo := by
        intro e
        rw [e] at hlo
        exact absurd hlo (lt_irrefl _)
      rw [if_pos ⟨hne, hlt⟩]
      have hrhi : E r hi := h.equiv.trans (h.equiv.symm hr) hE
      obtain ⟨h1, h2⟩ := h.least r hi hrhi hlt
      refine ih _ (h.equiv.trans hr (h.next r)) (lt_trans hlo h1) h2 ?_
      have h1' := (char_lt_iff _ _).mp h1
      have h2' := (char_le_iff _ _).mp h2
      omega
    · rw [if_neg (fun hc => hlt hc.2)]
      have h1 := (char_le_iff _ _).mp hhi
      have h2 : ¬ r.toNat < hi.toNat := fun hc => hlt ((char_lt_iff _ _).mpr hc)
      exact char_eq_of_toNat _ _ (by omega)

/-- The general case of the rune comparison: for `lo < hi` the walk from `SimpleFold lo`
ends at `hi` exactly when the two runes are in one class. -/
theorem foldWalk_iff (simpleFold : Char → Char) (E : Char → Char → Prop)
    (h : FoldTable simpleFold E) (lo hi : Char) (hlt : lo < hi) :
    foldWalk simpleFold lo hi 0x110000 (simpleFold lo) = hi ↔ E lo hi := by
  constructor
  · intro hw
    have := foldWalk_sound simpleFold E h lo hi 0x110000 (simpleFold lo) (h.next lo)
    rw [hw] at this
    exact this
  · intro hE
    obtain ⟨h1, h2⟩ := h.least lo hi hE hlt
    refine foldWalk_complete simpleFold E h lo hi hE 0x110000 _ (h.next lo) h1 h2 ?_
    have := char_toNat_lt hi
    omega

/-- Under the contract of the table the rune comparison of `EqualFold` decides whether two
runes are equal under simple case folding. -/
theorem runeEqualFold_iff (simpleFold : Char → Char) (E : Char → Char → Prop)
    (h : FoldTable simpleFold E) (a b : Char) :
    runeEqualFold simpleFold a b = true ↔ E a b := by
  by_cases hascii : a.toNat < 0x80 ∧ b.toNat < 0x80
  · rw [runeEqualFold_ascii simpleFold a b hascii.1 hascii.2]
    exact (h.ascii a b hascii.1 hascii.2).symm
  · by_cases hab : b = a
    · subst hab
      simp only [runeEqualFold, if_true, true_iff]
      exact h.equiv.refl _
    · have hne : a.toNat ≠ b.toNat := fun e => hab (char_eq_of_toNat _ _ e.symm)
      unfold runeEqualFold
      rw [if_neg hab]
      by_cases hlt : b < a
      · have hlt' := (char_lt_iff b a).mp hlt
        have hhi : ¬ a.toNat < 0x80 := by
          intro hc
          exact hascii ⟨hc, by omega⟩
        simp only [hlt, if_true, hhi, if_false, decide_eq_true_eq]
        rw [foldWalk_iff simpleFold E h b a hlt]
        exact ⟨h.equiv.symm, h.equiv.symm⟩
      · have hlt' : a.toNat < b.toNat := by
          have : ¬ b.toNat < a.toNat := fun hc => hlt ((char_lt_iff b a).mpr hc)
          omega
        have hhi : ¬ b.toNat < 0x80 := by
          intro hc
          exact hascii ⟨by omega, hc⟩
        simp only [hlt, if_false, hhi, decide_eq_true_eq]
        exact foldWalk_iff simpleFold E h a b ((char_lt_iff a b).mpr hlt')

/-- Under the contract of the table `EqualFold` holds exactly when the two strings have the
same length and agree rune by rune under simple case folding. -/
theorem equalFoldRunes_iff (simpleFold : Char → Char) (E : Char → Char → Prop)
    (h : FoldTable simpleFold E) (s t : List Char) :
    equalFoldRunes simpleFold s t = true ↔ List.Forall₂ E s t := by
  induction s generalizing t with
  | nil => cases t <;> simp [equalFoldRunes]
  | cons a s ih =>
    cases t with
    | nil => simp [equalFoldRunes]
    | cons b t =>
      simp only [equalFoldRunes, Bool.and_eq_true, List.forall₂_cons,
        runeEqualFold_iff simpleFold E h a b, ih t]

theorem demoFoldNat_upper (n : Nat) (h1 : 0x41 ≤ n) (h2 : n ≤ 0x5A) (h3 : n ≠ 0x4B)
    (h4 : n ≠ 0x53) : demoFoldNat n = n + 0x20 := by
  unfold demoFoldNat
  rw [if_neg h3, if_neg (by omega), if_neg (by omega), if_neg h4, if_neg (by omega),
    if_neg (by omega), if_neg (by omega), if_neg (by omega), if_neg (by omega),
    if_pos ⟨h1, h2⟩]

theorem demoFoldNat_lower (n : Nat) (h1 : 0x61 ≤ n) (h2 : n ≤ 0x7A) (h3 : n ≠ 0x6B)
    (h4 : n ≠ 0x73) : demoFoldNat n = n - 0x20 := by
  unfold demoFoldNat
  rw [if_neg (by omega), if_neg h3, if_neg (by omega), if_neg (by omega), if_neg h4,
    if_neg (by omega), if_neg (by omega), if_neg (by omega), if_neg (by omega),
    if_neg (by omega), if_pos ⟨h1, h2⟩]

theorem demoFoldNat_other (n : Nat) (h1 : n < 0x41 ∨ (0x5A < n ∧ n < 0x61) ∨ 0x7A < n)
    (h2 : n ≠ 0x212A) (h3 : n ≠ 0x17F) (h4 : n ≠ 0x3A3) (h5 : n ≠ 0x3C2) (h6 : n ≠ 0x3C3) :
    demoFoldNat n = n := by
  unfold demoFoldNat
  rw [if_neg (by omega), if_neg (by omega), if_neg h2, if_neg (by omega), if_neg (by omega),
    if_neg h3, if_neg h4, if_neg h5, if_neg h6, if_neg (by omega), if_neg (by omega)]

theorem demoFoldNat_cases (n : Nat) :
    (n = 0x4B ∧ demoFoldNat n = 0x6B) ∨ (n = 0x6B ∧ demoFoldNat n = 0x212A) ∨
    (n = 0x212A ∧ demoFoldNat n = 0x4B) ∨ (n = 0x53 ∧ demoFoldNat n = 0x73) ∨
    (n = 0x73 ∧ demoFoldNat n = 0x17F) ∨ (n = 0x17F ∧ demoFoldNat n = 0x53) ∨
    (n = 0x3A3 ∧ demoFoldNat n = 0x3C2) ∨ (n = 0x3C2 ∧ demoFoldNat n = 0x3C3) ∨
    (n = 0x3C3 ∧ demoFoldNat n = 0x3A3) ∨
    (0x41 ≤ n ∧ n ≤ 0x5A ∧ n ≠ 0x4B ∧ n ≠ 0x53 ∧ demoFoldNat n = n + 0x20) ∨
    (0x61 ≤ n ∧ n ≤ 0x7A ∧ n ≠ 0x6B ∧ n ≠ 0x73 ∧ demoFoldNat n = n - 0x20) ∨
    ((n < 0x41 ∨ (0x5A < n ∧ n < 0x61) ∨ 0x7A < n) ∧ n ≠ 0x212A ∧ n ≠ 0x17F ∧ n ≠ 0x3A3 ∧
      n ≠ 0x3C2 ∧ n ≠ 0x3C3 ∧ demoFoldNat n = n) := by
  by_cases c1 : n = 0x4B
  · subst c1; exact Or.inl ⟨rfl, rfl⟩
  by_cases c2 : n = 0x6B
  · subst c2; exact Or.inr (Or.inl ⟨rfl, rfl⟩)
  by_cases c3 : n = 0x212A
  · subst c3; exact Or.inr (Or.inr (Or.inl ⟨rfl, rfl⟩))
  by_cases c4 : n = 0x53
  · subst c4; exact Or.inr (Or.inr (Or.inr (Or.inl ⟨rfl, rfl⟩)))
  by_cases c5 : n = 0x73
  · subst c5; exact Or.inr (Or.inr (Or.inr (Or.inr (Or.inl ⟨rfl, rfl⟩))))
  by_cases c6 : n = 0x17F
  · subst c6; exact Or.inr (Or.inr (Or.inr (Or.inr (Or.inr (Or.inl ⟨rfl, rfl⟩)))))
  by_cases c7 : n = 0x3A3
  · subst c7; exact Or.inr (Or.inr (Or.inr (Or.inr (Or.inr (Or.inr (Or.inl ⟨rfl, rfl⟩))))))
  by_cases c8 : n = 0x3C2
  · subst c8
    exact Or.inr (Or.inr (Or.inr (Or.inr (Or.inr (Or.inr (Or.inr (Or.inl ⟨rfl, rfl⟩)))))))
  by_cases c9 : n = 0x3C3
  · subst c9
    exact Or.inr (Or.inr (Or.inr (Or.inr (Or.inr (Or.inr (Or.inr (Or.inr
      (Or.inl ⟨rfl, rfl⟩))))))))
  by_cases cu : 0x41 ≤ n ∧ n ≤ 0x5A
  · exact Or.inr (Or.inr (Or.inr (Or.inr (Or.inr (Or.inr (Or.inr (Or.inr (Or.inr (Or.inl
      ⟨cu.1, cu.2, c1, c4, demoFoldNat_upper n cu.1 cu.2 c1 c4⟩)))))))))
  by_cases cl : 0x61 ≤ n ∧ n ≤ 0x7A
  · exact Or.inr (Or.inr (Or.inr (Or.inr (Or.inr (Or.inr (Or.inr (Or.inr (Or.inr (Or.inr
      (Or.inl ⟨cl.1, cl.2, c2, c5, demoFoldNat_lower n cl.1 cl.2 c2 c5⟩))))))))))
  · have hr : n < 0x41 ∨ (0x5A < n ∧ n < 0x61) ∨ 0x7A < n := by omega
    exact Or.inr (Or.inr (Or.inr (Or.inr (Or.inr (Or.inr (Or.inr (Or.inr (Or.inr (Or.inr
      (Or.inr ⟨hr, c3, c6, c7, c8, c9, demoFoldNat_other n hr c3 c6 c7 c8 c9⟩))))))))))

theorem demoKeyNat_cases (n : Nat) :
    (0x41 ≤ n ∧ n ≤ 0x5A ∧ demoKeyNat n = n + 0x20) ∨ (n = 0x212A ∧ demoKeyNat n = 0x6B) ∨
    (n = 0x17F ∧ demoKeyNat n = 0x73) ∨ ((n = 0x3A3 ∨ n = 0x3C2) ∧ demoKeyNat n = 0x3C3) ∨
    ((n < 0x41 ∨ 0x5A < n) ∧ n ≠ 0x212A ∧ n ≠ 0x17F ∧ n ≠ 0x3A3 ∧ n ≠ 0x3C2 ∧
      demoKeyNat n = n) := by
  unfold demoKeyNat
  by_cases c1 : 0x41 ≤ n ∧ n ≤ 0x5A
  · rw [if_pos c1]
    exact Or.inl ⟨c1.1, c1.2, rfl⟩
  rw [if_neg c1]
  by_cases c2 : n = 0x212A
  · rw [if_pos c2]
    exact Or.inr (Or.inl ⟨c2, rfl⟩)
  rw [if_neg c2]
  by_cases c3 : n = 0x17F
  · rw [if_pos c3]
    exact Or.inr (Or.inr (Or.inl ⟨c3, rfl⟩))
  rw [if_neg c3]
  by_cases c4 : n = 0x3A3 ∨ n = 0x3C2
  · rw [if_pos c4]
    exact Or.inr (Or.inr (Or.inr (Or.inl ⟨c4, rfl⟩)))
  rw [if_neg c4]
  refine Or.inr (Or.inr (Or.inr (Or.inr ⟨by omega, c2, c3, by omega, by omega, rfl⟩)))

theorem demoFoldNat_small (n : Nat) (h : demoFoldNat n ≠ n) : demoFoldNat n < 0xD800 := by
  have h1 := demoFoldNat_cases n
  omega

theorem demoKeyNat_fold (n : Nat) : demoKeyNat n = demoKeyNat (demoFoldNat n) := by
  have h1 := demoFoldNat_cases n
  have h2 := demoKeyNat_cases n
  have h3 := demoKeyNat_cases (demoFoldNat n)
  omega

theorem demoFoldNat_least (n m : Nat) (hE : demoKeyNat n = demoKeyNat m) (hlt : n < m) :
    n < demoFoldNat n ∧ demoFoldNat n ≤ m := by
  have h1 := demoFoldNat_cases n
  have h2 := demoKeyNat_cases n
  have h3 := demoKeyNat_cases m
  omega

theorem demoKeyNat_ascii (n m : Nat) (hn : n < 0x80) (hm : m < 0x80) :
    demoKeyNat n = demoKeyNat m ↔
      (if 0x41 ≤ n ∧ n ≤ 0x5A then n + 0x20 else n) =
        (if 0x41 ≤ m ∧ m ≤ 0x5A then m + 0x20 else m) := by
  have h2 := demoKeyNat_cases n
  have h3 := demoKeyNat_cases m
  split_ifs <;> omega

theorem toNat_demoFold (c : Char) : (demoFold c).toNat = demoFoldNat c.toNat := by
  unfold demoFold
  by_cases hsame : demoFoldNat c.toNat = c.toNat
  · rw [hsame, Char.ofNat_toNat]
  · exact toNat_ofNat_small _ (demoFoldNat_small _ hsame)

/-- The sample table meets the contract. -/
theorem demoFold_table : FoldTable demoFold demoSameLetter := by
  refine ⟨⟨fun _ => rfl, fun h => h.symm, fun h1 h2 => h1.trans h2⟩, ?_, ?_, ?_⟩
  · intro r
    show demoKeyNat r.toNat = demoKeyNat (demoFold r).toNat
    rw [toNat_demoFold]
    exact demoKeyNat_fold _
  · intro r x hE hlt
    rw [char_lt_iff] at hlt
    rw [char_lt_iff, char_le_iff, toNat_demoFold]
    exact demoFoldNat_least _ _ hE hlt
  · intro a b ha hb
    have hlow : asciiLower a = asciiLower b ↔ (asciiLower a).toNat = (asciiLower b).toNat :=
      ⟨fun e => by rw [e], char_eq_of_toNat _ _⟩
    rw [hlow, toNat_asciiLower, toNat_asciiLower]
    exact demoKeyNat_ascii _ _ ha hb

/-! ## Scoring and passing -/

/-- Advancement touches only `CurrentIndex`, `IsRevisiting`, `PendingPasses`, `IsGameOver`
and `PassedCount`. -/
theorem moveToNext_frame (s : GameState) :
    (moveToNext s).SessionID = s.SessionID ∧ (moveToNext s).Language = s.Language ∧
      (moveToNext s).Questions = s.Questions ∧
      (moveToNext s).CorrectCount = s.CorrectCount ∧
      (moveToNext s).WrongCount = s.WrongCount ∧
      (moveToNext s).LettersState = s.LettersState ∧
      (moveToNext s).TimeRemaining = s.TimeRemaining ∧
      (moveToNext s).StartTime = s.StartTime := by
  unfold moveToNext
  rcases s with ⟨a1, a2, a3, a4, a5, a6, a7, a8, a9, over, a11, pending, rev⟩
  cases over <;> cases rev <;> cases pending <;> simp <;> split_ifs <;> simp

/-- C4. SubmitAnswer scoring: for a stored session that is not game-over, with fewer than 300
whole seconds elapsed and active question `q`, `SubmitAnswer` returns `ok = true`, the stored
state, and the feedback with `q`'s letter, where `Correct` is `EqualFold` of the two trimmed
strings and `Status` is "green" when correct and "red" otherwise; `LettersState` maps
`q.Letter` to that status, and exactly one counter moves: `CorrectCount` by one when
correct, else `WrongCount` by one. Trimming removes exactly a leading and a trailing run of
white space; on ASCII strings the fold comparison is equality up to the case of the letters;
the answer " Paris " matches the expected "paris". For every table that meets the contract of
`unicode.SimpleFold`, `EqualFold` holds exactly when the two strings have the same length and
agree rune by rune under simple case folding, so `Correct` holds exactly when the trimmed
answer and the trimmed expected answer are equal up to the case of their letters. -/
theorem SubmitAnswer_scoring (simpleFold : Char → Char) (gm : GameManager) (now : Int)
    (sessionID answer : String) (s : GameState) (q : Question)
    (h : mapGet gm.Sessions sessionID = some s) (hno : s.IsGameOver = false)
    (he : elapsedSeconds s.StartTime now < 300)
    (hq : index s.Questions s.CurrentIndex = some q) :
    (∃ r st, SubmitAnswer simpleFold gm now sessionID answer = some r ∧
      r.ok = true ∧ r.state = some st ∧ mapGet r.gm.Sessions sessionID = some st ∧
      r.feedback =
        { Letter := q.Letter
          Status := if EqualFold simpleFold (TrimSpace answer) (TrimSpace q.Answer)
            then "green" else "red"
          Correct := EqualFold simpleFold (TrimSpace answer) (TrimSpace q.Answer) } ∧
      mapGet st.LettersState q.Letter =
        some (if EqualFold simpleFold (TrimSpace answer) (TrimSpace q.Answer)
          then "green" else "red") ∧
      (∀ k, k ≠ q.Letter → mapGet st.LettersState k = mapGet s.LettersState k) ∧
      (EqualFold simpleFold (TrimSpace answer) (TrimSpace q.Answer) = true →
        st.CorrectCount = s.CorrectCount + 1 ∧ st.WrongCount = s.WrongCount) ∧
      (EqualFold simpleFold (TrimSpace answer) (TrimSpace q.Answer) = false →
        st.CorrectCount = s.CorrectCount ∧ st.WrongCount = s.WrongCount + 1)) ∧
    (∀ x : String, ∃ pre post, x.data = pre ++ (TrimSpace x).data ++ post ∧
      (∀ c ∈ pre, isSpace c = true) ∧ (∀ c ∈ post, isSpace c = true) ∧
      (∀ c, (TrimSpace x).data.head? = some c → isSpace c = false) ∧
      (∀ c, (TrimSpace x).data.getLast? = some c → isSpace c = false)) ∧
    (∀ x y : String, (∀ c ∈ x.data, c.toNat < 0x80) → (∀ c ∈ y.data, c.toNat < 0x80) →
      (EqualFold simpleFold x y = true ↔ x.data.map asciiLower = y.data.map asciiLower)) ∧
    EqualFold simpleFold (TrimSpace " Paris ") (TrimSpace "paris") = true ∧
    (∀ E : Char → Char → Prop, FoldTable simpleFold E →
      (∀ x y : String, EqualFold simpleFold x y = true ↔ List.Forall₂ E x.data y.data) ∧
      ((SubmitAnswer simpleFold gm now sessionID answer).map
          (fun r => r.feedback.Correct) = some true ↔
        List.Forall₂ E (TrimSpace answer).data (TrimSpace q.Answer).data)) := by
  refine ⟨⟨_, _, SubmitAnswer_running simpleFold gm now sessionID answer s q h hno he hq,
    rfl, rfl, mapGet_mapSet_self _ _ _, rfl, ?_, ?_, ?_, ?_⟩, TrimSpace_spec,
    fun x y hx hy => equalFoldRunes_ascii simpleFold x.data y.data hx hy, rfl, ?_⟩
  · rw [(moveToNext_frame _).2.2.2.2.2.1]
    exact mapGet_mapSet_self _ _ _
  · intro k hk
    rw [(moveToNext_frame _).2.2.2.2.2.1]
    exact mapGet_mapSet_ne _ _ _ _ (Ne.symm hk)
  · intro hc
    rw [(moveToNext_frame _).2.2.2.1, (moveToNext_frame _).2.2.2.2.1]
    simp [scoredState, hc]
  · intro hc
    rw [(moveToNext_frame _).2.2.2.1, (moveToNext_frame _).2.2.2.2.1]
    simp [scoredState, hc]
  · intro E hE
    refine ⟨fun x y => equalFoldRunes_iff simpleFold E hE x.data y.data, ?_⟩
    rw [SubmitAnswer_running simpleFold gm now sessionID answer s q h hno he hq]
    simp only [Option.map_some', Option.some.injEq]
    exact equalFoldRunes_iff simpleFold E hE _ _

theorem SubmitAnswer_scoring_witness :
    (∃ r st, SubmitAnswer demoFold demoGreekStarted 1000000000 "s" " ΣAſ " = some r ∧
      r.ok = true ∧ r.state = some st ∧ mapGet r.gm.Sessions "s" = some st ∧
      r.feedback =
        { Letter := "S"
          Status := if EqualFold demoFold (TrimSpace " ΣAſ ") (TrimSpace "σas")
            then "green" else "red"
          Correct := EqualFold demoFold (TrimSpace " ΣAſ ") (TrimSpace "σas") } ∧
      mapGet st.LettersState "S" =
        some (if EqualFold demoFold (TrimSpace " ΣAſ ") (TrimSpace "σas")
          then "green" else "red") ∧
      (∀ k, k ≠ "S" → mapGet st.LettersState k = mapGet demoGreekState.LettersState k) ∧
      (EqualFold demoFold (TrimSpace " ΣAſ ") (TrimSpace "σas") = true →
        st.CorrectCount = demoGreekState.CorrectCount + 1 ∧
          st.WrongCount = demoGreekState.WrongCount) ∧
      (EqualFold demoFold (TrimSpace " ΣAſ ") (TrimSpace "σas") = false →
        st.CorrectCount = demoGreekState.CorrectCount ∧
          st.WrongCount = demoGreekState.WrongCount + 1)) ∧
    EqualFold demoFold (TrimSpace " Paris ") (TrimSpace "paris") = true ∧
    ((∀ x y : String,
        EqualFold demoFold x y = true ↔ List.Forall₂ demoSameLetter x.data y.data) ∧
      ((SubmitAnswer demoFold demoGreekStarted 1000000000 "s" " ΣAſ ").map
          (fun r => r.feedback.Correct) = some true ↔
        List.Forall₂ demoSameLetter (TrimSpace " ΣAſ ").data (TrimSpace "σas").data)) ∧
    (SubmitAnswer demoFold demoGreekStarted 1000000000 "s" " ΣAſ ").map CallResult.feedback
      = some { Letter := "S", Status := "green", Correct := true } ∧
    (SubmitAnswer demoFold demoGreekStarted 1000000000 "s" " ΣAs0 ").map CallResult.feedback
      = some { Letter := "S", Status := "red", Correct := false } :=
  ⟨(SubmitAnswer_scoring demoFold demoGreekStarted 1000000000 "s" " ΣAſ " demoGreekState
      ⟨"S", "Q1", "σas"⟩ (by decide) (by decide) (by decide) (by decide)).1,
    (SubmitAnswer_scoring demoFold demoGreekStarted 1000000000 "s" " ΣAſ " demoGreekState
      ⟨"S", "Q1", "σas"⟩ (by decide) (by decide) (by decide) (by decide)).2.2.2.1,
    (SubmitAnswer_scoring demoFold demoGreekStarted 1000000000 "s" " ΣAſ " demoGreekState
      ⟨"S", "Q1", "σas"⟩ (by decide) (by decide) (by decide) (by decide)).2.2.2.2
      demoSameLetter demoFold_table,
    by decide, by decide⟩

/-- C5. Pass postcondition: for a stored session that is not game-over, with fewer than 300
whole seconds elapsed, active index `i` and active question `q`, `Pass` returns `ok = true`,
the stored state and the feedback `(q.Letter, "yellow", false)`; the state is advancement
applied to a state whose queue is the old queue followed by `i`; `LettersState` maps
`q.Letter` to "yellow" and both counters are unchanged. -/
theorem Pass_postcondition (gm : GameManager) (now : Int) (sessionID : String)
    (s : GameState) (q : Question)
    (h : mapGet gm.Sessions sessionID = some s) (hno : s.IsGameOver = false)
    (he : elapsedSeconds s.StartTime now < 300)
    (hq : index s.Questions s.CurrentIndex = some q) :
    ∃ r st pre, Pass gm now sessionID = some r ∧
      r.ok = true ∧ r.state = some st ∧ mapGet r.gm.Sessions sessionID = some st ∧
      r.feedback = { Letter := q.Letter, Status := "yellow", Correct := false } ∧
      st = moveToNext pre ∧
      pre.PendingPasses = s.PendingPasses ++ [s.CurrentIndex] ∧
      pre.CurrentIndex = s.CurrentIndex ∧ pre.IsRevisiting = s.IsRevisiting ∧
      pre.IsGameOver = false ∧
      mapGet st.LettersState q.Letter = some "yellow" ∧
      (∀ k, k ≠ q.Letter → mapGet st.LettersState k = mapGet s.LettersState k) ∧
      st.CorrectCount = s.CorrectCount ∧ st.WrongCount = s.WrongCount := by
  refine ⟨_, _, passedState s (elapsedSeconds s.StartTime now) q,
    Pass_running gm now sessionID s q h hno he hq,
    rfl, rfl, mapGet_mapSet_self _ _ _, rfl, rfl, rfl, rfl, rfl, hno, ?_, ?_, ?_, ?_⟩
  · rw [(moveToNext_frame _).2.2.2.2.2.1]
    exact mapGet_mapSet_self _ _ _
  · intro k hk
    rw [(moveToNext_frame _).2.2.2.2.2.1]
    exact mapGet_mapSet_ne _ _ _ _ (Ne.symm hk)
  · rw [(moveToNext_frame _).2.2.2.1]
    rfl
  · rw [(moveToNext_frame _).2.2.2.2.1]
    rfl

theorem Pass_postcondition_witness :
    ∃ r st pre, Pass demoStarted 1000000000 "s" = some r ∧
      r.ok = true ∧ r.state = some st ∧ mapGet r.gm.Sessions "s" = some st ∧
      r.feedback = { Letter := "A", Status := "yellow", Correct := false } ∧
      st = moveToNext pre ∧
      pre.PendingPasses = demoState.PendingPasses ++ [demoState.CurrentIndex] ∧
      pre.CurrentIndex = demoState.CurrentIndex ∧
      pre.IsRevisiting = demoState.IsRevisiting ∧
      pre.IsGameOver = false ∧
      mapGet st.LettersState "A" = some "yellow" ∧
      (∀ k, k ≠ "A" → mapGet st.LettersState k = mapGet demoState.LettersState k) ∧
      st.CorrectCount = demoState.CorrectCount ∧ st.WrongCount = demoState.WrongCount :=
  Pass_postcondition demoStarted 1000000000 "s" demoState ⟨"A", "Q1", "ans1"⟩
    (by decide) (by decide) (by decide) (by decide)

/-! ## Advancement, case by case -/

theorem index_some_iff (qs : List Question) (i : Int) (q : Question) :
    index qs i = some q ↔ 0 ≤ i ∧ qs.get? i.toNat = some q := by
  unfold index
  by_cases h : 0 ≤ i <;> simp [h]

theorem index_bounds (qs : List Question) (i : Int) (q : Question)
    (h : index qs i = some q) : 0 ≤ i ∧ i < qs.length := by
  rw [index_some_iff] at h
  refine ⟨h.1, ?_⟩
  have := List.get?_eq_some.mp h.2
  obtain ⟨hlt, _⟩ := this
  omega

theorem index_of_bounds (qs : List Question) (i : Int) (h0 : 0 ≤ i) (h1 : i < qs.length) :
    ∃ q, index qs i = some q := by
  have hlt : i.toNat < qs.length := by omega
  exact ⟨qs.get ⟨i.toNat, hlt⟩, by rw [index_some_iff]; exact ⟨h0, List.get?_eq_get hlt⟩⟩

theorem moveToNext_first_more (s : GameState) (h1 : s.IsGameOver = false)
    (h2 : s.IsRevisiting = false) (h3 : s.CurrentIndex + 1 < s.Questions.length) :
    moveToNext s = { s with CurrentIndex := s.CurrentIndex + 1 } := by
  have h4 : ¬ ((s.Questions.length : Int) ≤ s.CurrentIndex + 1) := by omega
  simp [moveToNext, h1, h2, h4]

theorem moveToNext_first_done_nil (s : GameState) (h1 : s.IsGameOver = false)
    (h2 : s.IsRevisiting = false) (h3 : (s.Questions.length : Int) ≤ s.CurrentIndex + 1)
    (h4 : s.PendingPasses = []) :
    moveToNext s =
      { s with CurrentIndex := s.CurrentIndex + 1, IsRevisiting := true, IsGameOver := true,
               PassedCount := 0 } := by
  simp [moveToNext, h1, h2, h3, h4]

theorem moveToNext_first_done_cons (s : GameState) (p : Int) (rest : List Int)
    (h1 : s.IsGameOver = false) (h2 : s.IsRevisiting = false)
    (h3 : (s.Questions.length : Int) ≤ s.CurrentIndex + 1) (h4 : s.PendingPasses = p :: rest) :
    moveToNext s = { s with CurrentIndex := p, IsRevisiting := true, PendingPasses := rest } := by
  simp [moveToNext, h1, h2, h3, h4]

theorem moveToNext_revisit_nil (s : GameState) (h1 : s.IsGameOver = false)
    (h2 : s.IsRevisiting = true) (h4 : s.PendingPasses = []) :
    moveToNext s = { s with IsGameOver := true, PassedCount := 0 } := by
  simp [moveToNext, h1, h2, h4]

theorem moveToNext_revisit_cons (s : GameState) (p : Int) (rest : List Int)
    (h1 : s.IsGameOver = false) (h2 : s.IsRevisiting = true) (h4 : s.PendingPasses = p :: rest) :
    moveToNext s = { s with CurrentIndex := p, PendingPasses := rest } := by
  simp [moveToNext, h1, h2, h4]

/-! ## The invariant is preserved -/

theorem moveToNext_preserves (qs : List Question) (s : GameState) (h : PreAdvance qs s) :
    Live qs (moveToNext s) ∨ Resolved qs (moveToNext s) := by
  have hq := h.questions
  have hN : (s.Questions.length : Int) = qs.length := by rw [hq]
  cases hrev : s.IsRevisiting
  · -- first pass
    have hc := h.countFirst hrev
    by_cases hmore : s.CurrentIndex + 1 < s.Questions.length
    · left
      rw [moveToNext_first_more s h.running hrev hmore]
      refine ⟨hq, h.running, ?_, ?_, h.pending, ?_, ?_, ?_⟩
      · have := h.lo
        show 0 ≤ s.CurrentIndex + 1
        omega
      · show s.CurrentIndex + 1 < qs.length
        omega
      · intro _
        exact hc
      · intro hr
        have : s.IsRevisiting = true := hr
        rw [hrev] at this
        cases this
      · intro k v hk hv
        obtain ⟨j, q, hj, hjq, hl⟩ := h.letters k v hk hv
        refine ⟨j, q, ?_, hjq, hl⟩
        rcases hj with hj | ⟨_, hj⟩
        · exact Or.inl hj
        · right
          simp only [hrev]
          exact hj
    · have hdone : (s.Questions.length : Int) ≤ s.CurrentIndex + 1 := by omega
      have hhi := h.hi
      cases hp : s.PendingPasses with
      | nil =>
        right
        rw [moveToNext_first_done_nil s h.running hrev hdone hp]
        refine ⟨hq, rfl, ?_, ?_⟩
        · show s.CorrectCount + s.WrongCount = qs.length
          rw [hp] at hc
          simp only [List.length_nil] at hc
          omega
        · intro k v hk hv
          obtain ⟨j, q, hj, hjq, _⟩ := h.letters k v hk hv
          have hb := index_bounds qs j q hjq
          rcases hj with hj | ⟨_, hj⟩
          · rw [hp] at hj
            cases hj
          · omega
      | cons p rest =>
        left
        rw [moveToNext_first_done_cons s p rest h.running hrev hdone hp]
        have hpv := h.pending p (by rw [hp]; exact List.mem_cons_self _ _)
        refine ⟨hq, h.running, hpv.1, hpv.2, ?_, ?_, ?_, ?_⟩
        · intro x hx
          exact h.pending x (by rw [hp]; exact List.mem_cons_of_mem _ hx)
        · intro hr
          cases hr
        · intro _
          show s.CorrectCount + s.WrongCount + (rest.length : Int) + 1 = qs.length
          rw [hp] at hc
          simp only [List.length_cons, Nat.cast_add, Nat.cast_one] at hc
          omega
        · intro k v hk hv
          obtain ⟨j, q, hj, hjq, hl⟩ := h.letters k v hk hv
          have hb := index_bounds qs j q hjq
          refine ⟨j, q, ?_, hjq, hl⟩
          rcases hj with hj | ⟨_, hj⟩
          · rw [hp] at hj
            rcases List.mem_cons.mp hj with hj | hj
            · right
              exact hj
            · left
              exact hj
          · omega
  · -- revisit phase
    have hc := h.countRevisit hrev
    cases hp : s.PendingPasses with
    | nil =>
      right
      rw [moveToNext_revisit_nil s h.running hrev hp]
      refine ⟨hq, rfl, ?_, ?_⟩
      · show s.CorrectCount + s.WrongCount = qs.length
        rw [hp] at hc
        simp only [List.length_nil] at hc
        omega
      · intro k v hk hv
        obtain ⟨j, q, hj, _, _⟩ := h.letters k v hk hv
        rcases hj with hj | ⟨hj, _⟩
        · rw [hp] at hj
          cases hj
        · rw [hrev] at hj
          cases hj
    | cons p rest =>
      left
      rw [moveToNext_revisit_cons s p rest h.running hrev hp]
      have hpv := h.pending p (by rw [hp]; exact List.mem_cons_self _ _)
      refine ⟨hq, h.running, hpv.1, hpv.2, ?_, ?_, ?_, ?_⟩
      · intro x hx
        exact h.pending x (by rw [hp]; exact List.mem_cons_of_mem _ hx)
      · intro hr
        have : s.IsRevisiting = false := hr
        rw [hrev] at this
        cases this
      · intro _
        show s.CorrectCount + s.WrongCount + (rest.length : Int) + 1 = qs.length
        rw [hp] at hc
        simp only [List.length_cons, Nat.cast_add, Nat.cast_one] at hc
        omega
      · intro k v hk hv
        obtain ⟨j, q, hj, hjq, hl⟩ := h.letters k v hk hv
        refine ⟨j, q, ?_, hjq, hl⟩
        rcases hj with hj | ⟨hj, _⟩
        · rw [hp] at hj
          rcases List.mem_cons.mp hj with hj | hj
          · right
            show (if s.IsRevisiting = true then j = p else p ≤ j)
            simp only [hrev, if_true]
            exact hj
          · left
            exact hj
        · rw [hrev] at hj
          cases hj

theorem scoredState_preAdvance (qs : List Question) (s : GameState) (e : Int) (q : Question)
    (correct : Bool) (h : Live qs s) (hq : index qs s.CurrentIndex = some q) :
    PreAdvance qs (scoredState s e q correct) := by
  refine ⟨h.questions, h.running, h.lo, h.hi, h.pending, ?_, ?_, ?_⟩
  · intro hr
    have hc := h.countFirst hr
    show s.CorrectCount + (if correct = true then 1 else 0)
      + (s.WrongCount + (if correct = true then 0 else 1)) + s.PendingPasses.length
      = s.CurrentIndex + 1
    cases correct <;> simp <;> omega
  · intro hr
    have hc := h.countRevisit hr
    show s.CorrectCount + (if correct = true then 1 else 0)
      + (s.WrongCount + (if correct = true then 0 else 1)) + s.PendingPasses.length
      = qs.length
    cases correct <;> simp <;> omega
  · intro k v hk hv
    have hk' : mapGet (mapSet s.LettersState q.Letter (if correct = true then "green" else "red")) k
        = some v := hk
    rw [mapGet_mapSet] at hk'
    by_cases hkq : q.Letter = k
    · rw [if_pos hkq] at hk'
      exfalso
      cases correct
      · simp at hk'
        subst hk'
        rcases hv with hv | hv <;> exact absurd hv (by decide)
      · simp at hk'
        subst hk'
        rcases hv with hv | hv <;> exact absurd hv (by decide)
    · rw [if_neg hkq] at hk'
      obtain ⟨j, q', hj, hjq, hl⟩ := h.letters k v hk' hv
      have hne : j ≠ s.CurrentIndex := by
        rintro rfl
        rw [hq] at hjq
        cases hjq
        exact hkq hl
      refine ⟨j, q', ?_, hjq, hl⟩
      rcases hj with hj | hj
      · exact Or.inl hj
      · right
        show s.IsRevisiting = false ∧ s.CurrentIndex + 1 ≤ j
        cases hrev : s.IsRevisiting
        · rw [hrev] at hj
          simp only [Bool.false_eq_true, if_false] at hj
          exact ⟨rfl, by omega⟩
        · rw [hrev] at hj
          simp only [if_true] at hj
          exact absurd hj hne

theorem passedState_preAdvance (qs : List Question) (s : GameState) (e : Int) (q : Question)
    (h : Live qs s) (hq : index qs s.CurrentIndex = some q) :
    PreAdvance qs (passedState s e q) := by
  refine ⟨h.questions, h.running, h.lo, h.hi, ?_, ?_, ?_, ?_⟩
  · intro p hp
    have hp' : p ∈ s.PendingPasses ++ [s.CurrentIndex] := hp
    rcases List.mem_append.mp hp' with hp' | hp'
    · exact h.pending p hp'
    · rw [List.mem_singleton] at hp'
      subst hp'
      exact ⟨h.lo, h.hi⟩
  · intro hr
    have hc := h.countFirst hr
    show s.CorrectCount + s.WrongCount + ((s.PendingPasses ++ [s.CurrentIndex]).length : Int)
      = s.CurrentIndex + 1
    simp only [List.length_append, List.length_singleton, Nat.cast_add, Nat.cast_one]
    omega
  · intro hr
    have hc := h.countRevisit hr
    show s.CorrectCount + s.WrongCount + ((s.PendingPasses ++ [s.CurrentIndex]).length : Int)
      = qs.length
    simp only [List.length_append, List.length_singleton, Nat.cast_add, Nat.cast_one]
    omega
  · intro k v hk hv
    have hk' : mapGet (mapSet s.LettersState q.Letter "yellow") k = some v := hk
    rw [mapGet_mapSet] at hk'
    show ∃ j q', (j ∈ s.PendingPasses ++ [s.CurrentIndex] ∨
        (s.IsRevisiting = false ∧ s.CurrentIndex + 1 ≤ j)) ∧ index qs j = some q' ∧ q'.Letter = k
    by_cases hkq : q.Letter = k
    · exact ⟨s.CurrentIndex, q, Or.inl (by simp), hq, hkq⟩
    · rw [if_neg hkq] at hk'
      obtain ⟨j, q', hj, hjq, hl⟩ := h.letters k v hk' hv
      refine ⟨j, q', ?_, hjq, hl⟩
      rcases hj with hj | hj
      · exact Or.inl (List.mem_append_left _ hj)
      · cases hrev : s.IsRevisiting
        · rw [hrev] at hj
          simp only [Bool.false_eq_true, if_false] at hj
          by_cases hjc : j = s.CurrentIndex
          · left
            simp [hjc]
          · right
            exact ⟨rfl, by omega⟩
        · rw [hrev] at hj
          simp only [if_true] at hj
          left
          simp [hj]

theorem updateTimer_preserves (qs : List Question) (s : GameState) (now : Int)
    (h : SessionInv qs s) : SessionInv qs (updateTimer s now) := by
  cases ho : s.IsGameOver
  · by_cases he : 300 ≤ elapsedSeconds s.StartTime now
    · rw [updateTimer_of_expired s now ho he]
      exact Or.inr (Or.inr ⟨rfl, le_refl _⟩)
    · have he' : elapsedSeconds s.StartTime now < 300 := by omega
      rw [updateTimer_of_running s now ho he']
      rcases h with h | h | h
      · exact Or.inl ⟨h.questions, h.running, h.lo, h.hi, h.pending, h.countFirst,
          h.countRevisit, h.letters⟩
      · have := h.over
        rw [ho] at this
        cases this
      · have := h.1
        rw [ho] at this
        cases this
  · rw [updateTimer_of_over s now ho]
    exact h

theorem newSessionState_live (sessionID lang : String) (qs : List Question) (now : Int)
    (hN : 1 ≤ qs.length) : Live qs (newSessionState sessionID lang qs now) := by
  rw [newSessionState_eq]
  refine ⟨rfl, rfl, le_refl _, ?_, ?_, ?_, ?_, ?_⟩
  · show (0 : Int) < qs.length
    omega
  · intro p hp
    cases hp
  · intro _
    rfl
  · intro hr
    cases hr
  · intro k v hk _
    have hk' : mapGet (initLetters qs []) k = some v := hk
    rw [mapGet_initLetters] at hk'
    by_cases hex : ∃ q ∈ qs, q.Letter = k
    · obtain ⟨q, hq, hl⟩ := hex
      obtain ⟨n, hg⟩ := List.mem_iff_get?.mp hq
      refine ⟨(n : Int), q, Or.inr ?_, ?_, hl⟩
      · show (0 : Int) ≤ n
        omega
      · rw [index_some_iff]
        refine ⟨by omega, ?_⟩
        simpa using hg
    · rw [if_neg hex] at hk'
      simp [mapGet] at hk'

theorem dead_of_over (gm : GameManager) (sessionID : String) (s : GameState)
    (h : mapGet gm.Sessions sessionID = some s) (ho : s.IsGameOver = true) :
    deadSession gm sessionID := Or.inr ⟨s, h, ho⟩

theorem SubmitAnswer_preserves (simpleFold : Char → Char) (qs : List Question)
    (gm : GameManager) (now : Int) (sessionID answer : String)
    (h : StoreInv qs gm sessionID) :
    ∃ r, SubmitAnswer simpleFold gm now sessionID answer = some r ∧
      StoreInv qs r.gm sessionID := by
  obtain ⟨s, hs, hinv⟩ := h
  cases ho : s.IsGameOver
  · by_cases he : 300 ≤ elapsedSeconds s.StartTime now
    · exact ⟨_, SubmitAnswer_expired simpleFold gm now sessionID answer s hs ho he,
        _, mapGet_mapSet_self _ _ _, Or.inr (Or.inr ⟨rfl, le_refl _⟩)⟩
    · have he' : elapsedSeconds s.StartTime now < 300 := by omega
      rcases hinv with hl | hr | ht
      · obtain ⟨q, hq⟩ := index_of_bounds qs s.CurrentIndex hl.lo hl.hi
        have hq' : index s.Questions s.CurrentIndex = some q := by rw [hl.questions]; exact hq
        refine ⟨_, SubmitAnswer_running simpleFold gm now sessionID answer s q hs ho he' hq',
          _, mapGet_mapSet_self _ _ _, ?_⟩
        rcases moveToNext_preserves qs _ (scoredState_preAdvance qs s
          (elapsedSeconds s.StartTime now) q
          (EqualFold simpleFold (TrimSpace answer) (TrimSpace q.Answer)) hl hq) with h1 | h1
        · exact Or.inl h1
        · exact Or.inr (Or.inl h1)
      · have := hr.over
        rw [ho] at this
        cases this
      · have := ht.1
        rw [ho] at this
        cases this
  · exact ⟨_, SubmitAnswer_dead simpleFold gm now sessionID answer
      (dead_of_over gm sessionID s hs ho), s, hs, hinv⟩

theorem Pass_preserves (qs : List Question) (gm : GameManager) (now : Int)
    (sessionID : String) (h : StoreInv qs gm sessionID) :
    ∃ r, Pass gm now sessionID = some r ∧ StoreInv qs r.gm sessionID := by
  obtain ⟨s, hs, hinv⟩ := h
  cases ho : s.IsGameOver
  · by_cases he : 300 ≤ elapsedSeconds s.StartTime now
    · exact ⟨_, Pass_expired gm now sessionID s hs ho he,
        _, mapGet_mapSet_self _ _ _, Or.inr (Or.inr ⟨rfl, le_refl _⟩)⟩
    · have he' : elapsedSeconds s.StartTime now < 300 := by omega
      rcases hinv with hl | hr | ht
      · obtain ⟨q, hq⟩ := index_of_bounds qs s.CurrentIndex hl.lo hl.hi
        have hq' : index s.Questions s.CurrentIndex = some q := by rw [hl.questions]; exact hq
        refine ⟨_, Pass_running gm now sessionID s q hs ho he' hq',
          _, mapGet_mapSet_self _ _ _, ?_⟩
        rcases moveToNext_preserves qs _ (passedState_preAdvance qs s
          (elapsedSeconds s.StartTime now) q hl hq) with h1 | h1
        · exact Or.inl h1
        · exact Or.inr (Or.inl h1)
      · have := hr.over
        rw [ho] at this
        cases this
      · have := ht.1
        rw [ho] at this
        cases this
  · exact ⟨_, Pass_dead gm now sessionID (dead_of_over gm sessionID s hs ho), s, hs, hinv⟩

theorem GetState_preserves (qs : List Question) (gm : GameManager) (now : Int)
    (sessionID : String) (h : StoreInv qs gm sessionID) :
    StoreInv qs (GetState gm now sessionID).1 sessionID := by
  obtain ⟨s, hs, hinv⟩ := h
  simp only [GetState, hs]
  exact ⟨_, mapGet_mapSet_self _ _ _, updateTimer_preserves qs s now hinv⟩

theorem applyCall_preserves (simpleFold : Char → Char) (qs : List Question)
    (gm : GameManager) (sessionID : String) (c : Call × Int)
    (h : StoreInv qs gm sessionID) :
    ∃ gm', applyCall simpleFold sessionID gm c = some gm' ∧ StoreInv qs gm' sessionID := by
  obtain ⟨call, now⟩ := c
  cases call with
  | answer a =>
    obtain ⟨r, hr, hinv⟩ := SubmitAnswer_preserves simpleFold qs gm now sessionID a h
    exact ⟨r.gm, by simp [applyCall, hr], hinv⟩
  | pass =>
    obtain ⟨r, hr, hinv⟩ := Pass_preserves qs gm now sessionID h
    exact ⟨r.gm, by simp [applyCall, hr], hinv⟩
  | get => exact ⟨_, rfl, GetState_preserves qs gm now sessionID h⟩

theorem run_preserves (simpleFold : Char → Char) (qs : List Question) (sessionID : String)
    (cs : List (Call × Int)) (gm : GameManager) (h : StoreInv qs gm sessionID) :
    ∃ gm', run simpleFold sessionID gm cs = some gm' ∧ StoreInv qs gm' sessionID := by
  induction cs generalizing gm with
  | nil => exact ⟨gm, rfl, h⟩
  | cons c cs ih =>
    obtain ⟨gm1, h1, hinv1⟩ := applyCall_preserves simpleFold qs gm sessionID c h
    obtain ⟨gm2, h2, hinv2⟩ := ih gm1 hinv1
    exact ⟨gm2, by simp [run, h1, h2], hinv2⟩

theorem created_storeInv (gm : GameManager) (now : Int) (sessionID lang : String)
    (h : mapGet gm.Sessions sessionID = none)
    (hN : 1 ≤ (GetOrCreateSession gm now sessionID lang).2.1.Questions.length) :
    StoreInv (GetOrCreateSession gm now sessionID lang).2.1.Questions
      (GetOrCreateSession gm now sessionID lang).1 sessionID := by
  refine ⟨(GetOrCreateSession gm now sessionID lang).2.1, ?_, Or.inl ?_⟩
  · simp [GetOrCreateSession, h, mapGet_mapSet_self]
  · simp only [GetOrCreateSession, h] at hN ⊢
    have hqs : ∀ a b c d, (newSessionState a b c d).Questions = c := by
      intro a b c d
      rw [newSessionState_eq]
    rw [hqs] at hN ⊢
    exact newSessionState_live _ _ _ _ hN

/-- C3. All questions resolved when advancement ends the game: for a session created by
`GetOrCreateSession` with `N ≥ 1` questions, every sequence of `SubmitAnswer`, `Pass` and
`GetState` calls at any clock readings runs without panic, and if the state it leaves has
`IsGameOver = true` and `TimeRemaining > 0` then `CorrectCount + WrongCount = N` and no
letter has status "" or "yellow". -/
theorem resolved_when_advancement_ends (simpleFold : Char → Char) (gm : GameManager)
    (now : Int) (sessionID lang : String) (calls : List (Call × Int))
    (h : mapGet gm.Sessions sessionID = none)
    (hN : 1 ≤ (GetOrCreateSession gm now sessionID lang).2.1.Questions.length) :
    ∃ st, stateAfter simpleFold sessionID (GetOrCreateSession gm now sessionID lang).1 calls
        = some st ∧
      (st.IsGameOver = true → 0 < st.TimeRemaining →
        st.CorrectCount + st.WrongCount
            = (GetOrCreateSession gm now sessionID lang).2.1.Questions.length ∧
          ∀ k v, mapGet st.LettersState k = some v → v ≠ "" ∧ v ≠ "yellow") := by
  obtain ⟨gm', hrun, st, hst, hinv⟩ := run_preserves simpleFold _ sessionID calls _
    (created_storeInv gm now sessionID lang h hN)
  refine ⟨st, by simp [stateAfter, hrun, hst], ?_⟩
  intro ho ht
  rcases hinv with hl | hr | hto
  · have := hl.running
    rw [ho] at this
    cases this
  · refine ⟨hr.count, ?_⟩
    intro k v hk
    have := hr.letters k v hk
    exact ⟨fun hv => this (Or.inl hv), fun hv => this (Or.inr hv)⟩
  · have := hto.2
    omega

theorem resolved_when_advancement_ends_witness :
    (∃ st, stateAfter noFold "s" (GetOrCreateSession demoManager 0 "s" "en").1 demoCalls
        = some st ∧
      (st.IsGameOver = true → 0 < st.TimeRemaining →
        st.CorrectCount + st.WrongCount
            = (GetOrCreateSession demoManager 0 "s" "en").2.1.Questions.length ∧
          ∀ k v, mapGet st.LettersState k = some v → v ≠ "" ∧ v ≠ "yellow")) ∧
    (stateAfter noFold "s" (GetOrCreateSession demoManager 0 "s" "en").1 demoCalls).map
        (fun st => (st.IsGameOver, st.TimeRemaining, st.CorrectCount, st.WrongCount,
          st.LettersState))
      = some (true, (297 : Int), (1 : Int), (1 : Int), [("A", "red"), ("B", "green")]) :=
  ⟨resolved_when_advancement_ends noFold demoManager 0 "s" "en" demoCalls
    (by decide) (by decide), by rfl⟩

/-! ## The first linear pass -/

/-- One answer or pass on a running session: the stored state becomes advancement applied to
a state whose queue has grown by the active index exactly when the call is a pass. -/
theorem applyCall_step (simpleFold : Char → Char) (gm : GameManager) (sessionID : String)
    (c : Call × Int) (s : GameState) (q : Question)
    (hs : mapGet gm.Sessions sessionID = some s) (hno : s.IsGameOver = false)
    (hc : c.1 ≠ Call.get) (he : elapsedSeconds s.StartTime c.2 < 300)
    (hq : index s.Questions s.CurrentIndex = some q) :
    ∃ gm' pre, applyCall simpleFold sessionID gm c = some gm' ∧
      mapGet gm'.Sessions sessionID = some (moveToNext pre) ∧
      pre.IsGameOver = false ∧ pre.IsRevisiting = s.IsRevisiting ∧
      pre.CurrentIndex = s.CurrentIndex ∧ pre.Questions = s.Questions ∧
      pre.StartTime = s.StartTime ∧
      pre.PendingPasses = s.PendingPasses ++ (if c.1 = Call.pass then [s.CurrentIndex] else []) := by
  obtain ⟨call, now⟩ := c
  cases call with
  | answer a =>
    refine ⟨{ gm with Sessions := mapSet gm.Sessions sessionID (moveToNext
        (scoredState s (elapsedSeconds s.StartTime now) q
          (EqualFold simpleFold (TrimSpace a) (TrimSpace q.Answer)))) },
      scoredState s (elapsedSeconds s.StartTime now) q
      (EqualFold simpleFold (TrimSpace a) (TrimSpace q.Answer)), ?_, mapGet_mapSet_self _ _ _,
      hno, rfl, rfl, rfl, rfl, ?_⟩
    · simp only [applyCall]
      rw [SubmitAnswer_running simpleFold gm now sessionID a s q hs hno he hq]
      rfl
    · simp [scoredState]
  | pass =>
    refine ⟨{ gm with Sessions := mapSet gm.Sessions sessionID (moveToNext
        (passedState s (elapsedSeconds s.StartTime now) q)) },
      passedState s (elapsedSeconds s.StartTime now) q, ?_, mapGet_mapSet_self _ _ _,
      hno, rfl, rfl, rfl, rfl, ?_⟩
    · simp only [applyCall]
      rw [Pass_running gm now sessionID s q hs hno he hq]
      rfl
    · simp [passedState]
  | get => exact absurd rfl hc

theorem first_pass (simpleFold : Char → Char) (sessionID : String) (calls : List (Call × Int)) :
    ∀ (gm : GameManager) (s : GameState),
      mapGet gm.Sessions sessionID = some s → s.IsGameOver = false → s.IsRevisiting = false →
      0 ≤ s.CurrentIndex → (∀ c ∈ calls, c.1 ≠ Call.get) →
      (∀ c ∈ calls, elapsedSeconds s.StartTime c.2 < 300) →
      s.CurrentIndex + calls.length ≤ s.Questions.length →
      ∃ gm' s', run simpleFold sessionID gm calls = some gm' ∧
        mapGet gm'.Sessions sessionID = some s' ∧
        (s.CurrentIndex + calls.length < s.Questions.length →
          s'.IsGameOver = false ∧ s'.IsRevisiting = false ∧
            s'.CurrentIndex = s.CurrentIndex + calls.length ∧
            s'.PendingPasses = s.PendingPasses ++ passedIndices calls s.CurrentIndex) ∧
        (s.CurrentIndex + calls.length = s.Questions.length → 1 ≤ calls.length →
          (s.PendingPasses ++ passedIndices calls s.CurrentIndex = [] → s'.IsGameOver = true) ∧
          (∀ p rest, s.PendingPasses ++ passedIndices calls s.CurrentIndex = p :: rest →
            s'.IsGameOver = false ∧ s'.IsRevisiting = true ∧ s'.CurrentIndex = p ∧
              s'.PendingPasses = rest)) := by
  induction calls with
  | nil =>
    intro gm s hs hno hrev _ _ _ _
    refine ⟨gm, s, rfl, hs, ?_, ?_⟩
    · intro _
      simp [passedIndices, hno, hrev]
    · intro _ h1
      simp at h1
  | cons c cs ih =>
    intro gm s hs hno hrev h0 hcalls htime hlen
    have hlen' : s.CurrentIndex + 1 + (cs.length : Int) ≤ s.Questions.length := by
      simp only [List.length_cons, Nat.cast_add, Nat.cast_one] at hlen
      omega
    obtain ⟨q, hq⟩ := index_of_bounds s.Questions s.CurrentIndex h0 (by omega)
    obtain ⟨gm1, pre, happ, hst, hpo, hpr, hpc, hpq, hpt, hpp⟩ :=
      applyCall_step simpleFold gm sessionID c s q hs hno
        (hcalls c (List.mem_cons_self _ _)) (htime c (List.mem_cons_self _ _)) hq
    have hprf : pre.IsRevisiting = false := by rw [hpr, hrev]
    have hQ : pre.PendingPasses ++ passedIndices cs (s.CurrentIndex + 1)
        = s.PendingPasses ++ passedIndices (c :: cs) s.CurrentIndex := by
      rw [hpp]
      by_cases hp : c.1 = Call.pass <;> simp [passedIndices, hp]
    by_cases hmore : s.CurrentIndex + 1 < s.Questions.length
    · -- the first pass goes on
      have hmv := moveToNext_first_more pre hpo hprf (by rw [hpc, hpq]; exact hmore)
      rw [hmv] at hst
      obtain ⟨gm2, s2, hrun, hst2, hA, hB⟩ := ih gm1 _ hst hpo hprf
        (by show 0 ≤ pre.CurrentIndex + 1; omega)
        (fun x hx => hcalls x (List.mem_cons_of_mem _ hx))
        (fun x hx => by
          show elapsedSeconds pre.StartTime x.2 < 300
          rw [hpt]
          exact htime x (List.mem_cons_of_mem _ hx))
        (by show pre.CurrentIndex + 1 + (cs.length : Int) ≤ pre.Questions.length
            rw [hpc, hpq]; exact hlen')
      refine ⟨gm2, s2, by simp [run, happ, hrun], hst2, ?_, ?_⟩
      · intro hlt
        simp only [List.length_cons, Nat.cast_add, Nat.cast_one] at hlt
        have := hA (by show pre.CurrentIndex + 1 + (cs.length : Int) < pre.Questions.length
                       rw [hpc, hpq]; omega)
        obtain ⟨a1, a2, a3, a4⟩ := this
        refine ⟨a1, a2, ?_, ?_⟩
        · rw [a3]
          show pre.CurrentIndex + 1 + (cs.length : Int) = _
          rw [hpc]
          simp only [List.length_cons, Nat.cast_add, Nat.cast_one]
          omega
        · rw [a4]
          show pre.PendingPasses ++ passedIndices cs (pre.CurrentIndex + 1) = _
          rw [hpc]
          exact hQ
      · intro heq _
        simp only [List.length_cons, Nat.cast_add, Nat.cast_one] at heq
        have hcs : 1 ≤ cs.length := by
          by_contra hcon
          have : (cs.length : Int) = 0 := by omega
          omega
        have := hB (by show pre.CurrentIndex + 1 + (cs.length : Int) = pre.Questions.length
                       rw [hpc, hpq]; omega) hcs
        have hQ' : pre.PendingPasses ++ passedIndices cs (pre.CurrentIndex + 1)
            = s.PendingPasses ++ passedIndices (c :: cs) s.CurrentIndex := by
          rw [hpc]; exact hQ
        obtain ⟨b1, b2⟩ := this
        refine ⟨?_, ?_⟩
        · intro hnil
          exact b1 (by show pre.PendingPasses ++ passedIndices cs (pre.CurrentIndex + 1) = []
                       rw [hQ']; exact hnil)
        · intro p rest hpr'
          exact b2 p rest (by
            show pre.PendingPasses ++ passedIndices cs (pre.CurrentIndex + 1) = p :: rest
            rw [hQ']; exact hpr')
    · -- this call ends the first pass
      have hcs : cs = [] := by
        cases cs with
        | nil => rfl
        | cons x xs =>
          simp only [List.length_cons, Nat.cast_add, Nat.cast_one] at hlen'
          omega
      subst hcs
      have hdone : (pre.Questions.length : Int) ≤ pre.CurrentIndex + 1 := by
        rw [hpc, hpq]; omega
      have hQ0 : pre.PendingPasses = s.PendingPasses ++ passedIndices [c] s.CurrentIndex := by
        rw [← hQ]; simp [passedIndices]
      refine ⟨gm1, moveToNext pre, by simp [run, happ], hst, ?_, ?_⟩
      · intro hlt
        simp only [List.length_cons, List.length_nil, Nat.cast_add, Nat.cast_one] at hlt
        omega
      · intro _ _
        refine ⟨?_, ?_⟩
        · intro hnil
          rw [← hQ0] at hnil
          rw [moveToNext_first_done_nil pre hpo hprf hdone hnil]
        · intro p rest hpr'
          rw [← hQ0] at hpr'
          rw [moveToNext_first_done_cons pre p rest hpo hprf hdone hpr']
          exact ⟨hpo, rfl, rfl, rfl⟩

theorem created_fresh (gm : GameManager) (now : Int) (sessionID lang : String)
    (h : mapGet gm.Sessions sessionID = none) :
    mapGet (GetOrCreateSession gm now sessionID lang).1.Sessions sessionID
        = some (GetOrCreateSession gm now sessionID lang).2.1 ∧
      (GetOrCreateSession gm now sessionID lang).2.1.IsGameOver = false ∧
      (GetOrCreateSession gm now sessionID lang).2.1.IsRevisiting = false ∧
      (GetOrCreateSession gm now sessionID lang).2.1.CurrentIndex = 0 ∧
      (GetOrCreateSession gm now sessionID lang).2.1.PendingPasses = [] ∧
      (GetOrCreateSession gm now sessionID lang).2.1.StartTime = now := by
  simp [GetOrCreateSession, h, mapGet_mapSet_self, newSessionState_eq]

theorem passedIndices_answerCalls (answers : List (String × Int)) (i : Int) :
    passedIndices (answerCalls answers) i = [] := by
  induction answers generalizing i with
  | nil => rfl
  | cons a rest ih =>
    show passedIndices ((Call.answer a.1, a.2) :: answerCalls rest) i = []
    simp only [passedIndices]
    rw [if_neg (by simp), ih]

theorem answerCalls_not_get (answers : List (String × Int)) :
    ∀ c ∈ answerCalls answers, c.1 ≠ Call.get := by
  intro c hc
  obtain ⟨a, _, rfl⟩ := List.mem_map.mp hc
  simp

theorem answerCalls_time (answers : List (String × Int)) (start : Int)
    (h : ∀ a ∈ answers, elapsedSeconds start a.2 < 300) :
    ∀ c ∈ answerCalls answers, elapsedSeconds start c.2 < 300 := by
  intro c hc
  obtain ⟨a, ha, rfl⟩ := List.mem_map.mp hc
  exact h a ha

/-- C1. Exhaustion: for a session created with `N ≥ 1` questions, when `N` `SubmitAnswer`
calls with arbitrary answers are made, each while fewer than 300 whole seconds have elapsed
since the start, no call panics, the game is not over after any `m < N` of them, and it is
over after the `N`-th. -/
theorem exhaustion (simpleFold : Char → Char) (gm : GameManager) (now : Int)
    (sessionID lang : String) (answers : List (String × Int))
    (h : mapGet gm.Sessions sessionID = none)
    (hN : 1 ≤ (GetOrCreateSession gm now sessionID lang).2.1.Questions.length)
    (hlen : answers.length = (GetOrCreateSession gm now sessionID lang).2.1.Questions.length)
    (htime : ∀ a ∈ answers, elapsedSeconds now a.2 < 300) :
    (∀ m, m < answers.length →
      ∃ st, stateAfter simpleFold sessionID (GetOrCreateSession gm now sessionID lang).1
          (answerCalls (answers.take m)) = some st ∧ st.IsGameOver = false) ∧
    (∃ st, stateAfter simpleFold sessionID (GetOrCreateSession gm now sessionID lang).1
        (answerCalls answers) = some st ∧ st.IsGameOver = true) := by
  obtain ⟨hst, hno, hrev, hcur, hpend, hstart⟩ := created_fresh gm now sessionID lang h
  refine ⟨?_, ?_⟩
  · intro m hm
    have hlm : (answerCalls (answers.take m)).length = m := by
      simp [answerCalls, List.length_take]
      omega
    obtain ⟨gm', s', hrun, hs', hA, _⟩ := first_pass simpleFold sessionID
      (answerCalls (answers.take m)) _ _ hst hno hrev (by rw [hcur])
      (answerCalls_not_get _)
      (answerCalls_time _ _ (fun a ha => by
        rw [hstart]; exact htime a (List.mem_of_mem_take ha)))
      (by rw [hcur, hlm]; omega)
    refine ⟨s', by simp [stateAfter, hrun, hs'], (hA ?_).1⟩
    rw [hcur, hlm]
    omega
  · have hl : (answerCalls answers).length = answers.length := by simp [answerCalls]
    obtain ⟨gm', s', hrun, hs', _, hB⟩ := first_pass simpleFold sessionID
      (answerCalls answers) _ _ hst hno hrev (by rw [hcur])
      (answerCalls_not_get _)
      (answerCalls_time _ _ (fun a ha => by rw [hstart]; exact htime a ha))
      (by rw [hcur, hl, hlen]; omega)
    refine ⟨s', by simp [stateAfter, hrun, hs'], (hB ?_ ?_).1 ?_⟩
    · rw [hcur, hl, hlen]
      omega
    · rw [hl, hlen]
      exact hN
    · rw [hpend, hcur, passedIndices_answerCalls]
      rfl

theorem exhaustion_witness :
    (∀ m, m < [("nope", (1000000000 : Int)), ("ans2", 2000000000)].length →
      ∃ st, stateAfter noFold "s" (GetOrCreateSession demoManager 0 "s" "en").1
          (answerCalls ([("nope", (1000000000 : Int)), ("ans2", 2000000000)].take m))
            = some st ∧ st.IsGameOver = false) ∧
    (∃ st, stateAfter noFold "s" (GetOrCreateSession demoManager 0 "s" "en").1
        (answerCalls [("nope", 1000000000), ("ans2", 2000000000)]) = some st ∧
      st.IsGameOver = true) :=
  exhaustion noFold demoManager 0 "s" "en" [("nope", 1000000000), ("ans2", 2000000000)]
    (by decide) (by decide) (by decide) (by decide)

/-! ## The revisit phase is a first-in-first-out queue -/

theorem passedIndices_lower (calls : List (Call × Int)) (i j : Int)
    (h : j ∈ passedIndices calls i) : i ≤ j := by
  induction calls generalizing i with
  | nil => cases h
  | cons c cs ih =>
    simp only [passedIndices] at h
    split_ifs at h
    · rcases List.mem_cons.mp h with h | h
      · omega
      · have := ih (i + 1) h
        omega
    · have := ih (i + 1) h
      omega

theorem passedIndices_pairwise (calls : List (Call × Int)) (i : Int) :
    List.Pairwise (fun a b => a < b) (passedIndices calls i) := by
  induction calls generalizing i with
  | nil => exact List.Pairwise.nil
  | cons c cs ih =>
    simp only [passedIndices]
    split_ifs
    · refine List.Pairwise.cons ?_ (ih (i + 1))
      intro j hj
      have := passedIndices_lower cs (i + 1) j hj
      omega
    · exact ih (i + 1)

theorem mem_passedIndices (calls : List (Call × Int)) (i j : Int) :
    j ∈ passedIndices calls i ↔
      i ≤ j ∧ ∃ t, calls.get? (j - i).toNat = some (Call.pass, t) := by
  induction calls generalizing i with
  | nil => simp [passedIndices]
  | cons c cs ih =>
    have hshift : ∀ x : Int, i + 1 ≤ x → (x - i).toNat = (x - (i + 1)).toNat + 1 := by
      intro x hx
      omega
    constructor
    · intro h
      simp only [passedIndices] at h
      have hcase : (c.1 = Call.pass ∧ j = i) ∨ j ∈ passedIndices cs (i + 1) := by
        split_ifs at h with hp
        · rcases List.mem_cons.mp h with h | h
          · exact Or.inl ⟨hp, h⟩
          · exact Or.inr h
        · exact Or.inr h
      rcases hcase with ⟨hp, rfl⟩ | h
      · refine ⟨le_refl _, c.2, ?_⟩
        simp [← hp]
      · obtain ⟨h1, t, ht⟩ := (ih (i + 1)).mp h
        refine ⟨by omega, t, ?_⟩
        rw [hshift j h1]
        simpa using ht
    · rintro ⟨h1, t, ht⟩
      simp only [passedIndices]
      by_cases hji : j = i
      · subst hji
        simp at ht
        have hp : c.1 = Call.pass := by rw [ht]
        rw [if_pos hp]
        exact List.mem_cons_self _ _
      · have h2 : i + 1 ≤ j := by omega
        rw [hshift j h2] at ht
        have hmem : j ∈ passedIndices cs (i + 1) :=
          (ih (i + 1)).mpr ⟨h2, t, by simpa using ht⟩
        split_ifs
        · exact List.mem_cons_of_mem _ hmem
        · exact hmem

theorem applyCall_dead (simpleFold : Char → Char) (gm : GameManager) (sessionID : String)
    (c : Call × Int) (hc : c.1 ≠ Call.get) (h : deadSession gm sessionID) :
    applyCall simpleFold sessionID gm c = some gm := by
  obtain ⟨call, now⟩ := c
  cases call with
  | answer a => simp [applyCall, SubmitAnswer_dead simpleFold gm now sessionID a h]
  | pass => simp [applyCall, Pass_dead gm now sessionID h]
  | get => exact absurd rfl hc

theorem queueOf_moveToNext_revisit (pre : GameState) (h1 : pre.IsGameOver = false)
    (h2 : pre.IsRevisiting = true) :
    queueOf (moveToNext pre) = pre.PendingPasses ∧ (moveToNext pre).IsRevisiting = true := by
  cases hp : pre.PendingPasses with
  | nil =>
    rw [moveToNext_revisit_nil pre h1 h2 hp]
    exact ⟨rfl, h2⟩
  | cons p rest =>
    rw [moveToNext_revisit_cons pre p rest h1 h2 hp]
    exact ⟨by simp [queueOf, h1], h2⟩

theorem revisit_fifo (simpleFold : Char → Char) (sessionID : String)
    (calls : List (Call × Int)) :
    ∀ (gm : GameManager) (s : GameState),
      mapGet gm.Sessions sessionID = some s → s.IsRevisiting = true →
      (∀ j ∈ queueOf s, 0 ≤ j ∧ j < s.Questions.length) →
      (∀ c ∈ calls, c.1 ≠ Call.get) →
      (∀ c ∈ calls, elapsedSeconds s.StartTime c.2 < 300) →
      ∃ gm' s', run simpleFold sessionID gm calls = some gm' ∧
        mapGet gm'.Sessions sessionID = some s' ∧ s'.IsRevisiting = true ∧
        queueOf s' = calls.foldl fifoStep (queueOf s) := by
  induction calls with
  | nil =>
    intro gm s hs hrev _ _ _
    exact ⟨gm, s, rfl, hs, hrev, rfl⟩
  | cons c cs ih =>
    intro gm s hs hrev hvalid hcalls htime
    have hc := hcalls c (List.mem_cons_self _ _)
    cases ho : s.IsGameOver
    · have hq0 : queueOf s = s.CurrentIndex :: s.PendingPasses := by simp [queueOf, ho]
      have hcur := hvalid s.CurrentIndex (by rw [hq0]; exact List.mem_cons_self _ _)
      obtain ⟨q, hq⟩ := index_of_bounds s.Questions s.CurrentIndex hcur.1 hcur.2
      obtain ⟨gm1, pre, happ, hst, hpo, hpr, hpc, hpq, hpt, hpp⟩ :=
        applyCall_step simpleFold gm sessionID c s q hs ho hc
          (htime c (List.mem_cons_self _ _)) hq
      have hprt : pre.IsRevisiting = true := by rw [hpr, hrev]
      obtain ⟨hqueue, hrev1⟩ := queueOf_moveToNext_revisit pre hpo hprt
      have hfifo : fifoStep (queueOf s) c = pre.PendingPasses := by
        rw [hq0, hpp]
        by_cases hp : c.1 = Call.pass <;> simp [fifoStep, hp]
      have hq1 : (moveToNext pre).Questions = s.Questions := by
        rw [(moveToNext_frame pre).2.2.1, hpq]
      have ht1 : (moveToNext pre).StartTime = s.StartTime := by
        rw [(moveToNext_frame pre).2.2.2.2.2.2.2, hpt]
      obtain ⟨gm2, s2, hrun, hs2, hrev2, hqueue2⟩ := ih gm1 (moveToNext pre) hst hrev1
        (by
          intro j hj
          rw [hqueue, hpp] at hj
          rw [hq1]
          rcases List.mem_append.mp hj with hj | hj
          · exact hvalid j (by rw [hq0]; exact List.mem_cons_of_mem _ hj)
          · split_ifs at hj
            · rw [List.mem_singleton] at hj
              rw [hj]
              exact hcur
            · cases hj)
        (fun x hx => hcalls x (List.mem_cons_of_mem _ hx))
        (fun x hx => by rw [ht1]; exact htime x (List.mem_cons_of_mem _ hx))
      refine ⟨gm2, s2, by simp [run, happ, hrun], hs2, hrev2, ?_⟩
      rw [hqueue2, hqueue, List.foldl_cons, hfifo]
    · have hq0 : queueOf s = [] := by simp [queueOf, ho]
      have happ := applyCall_dead simpleFold gm sessionID c hc (dead_of_over gm sessionID s hs ho)
      obtain ⟨gm2, s2, hrun, hs2, hrev2, hqueue2⟩ := ih gm s hs hrev hvalid
        (fun x hx => hcalls x (List.mem_cons_of_mem _ hx))
        (fun x hx => htime x (List.mem_cons_of_mem _ hx))
      refine ⟨gm2, s2, by simp [run, happ, hrun], hs2, hrev2, ?_⟩
      rw [hqueue2, List.foldl_cons, hq0]
      rfl

/-- C2. FIFO revisit order, for a session with `N ≥ 1` questions and no timer expiry.
(1) After a first linear pass of `N` answer or pass calls in which the passed indices are
`i1 :: rest`, the session is revisiting with `CurrentIndex = i1` and `PendingPasses = rest`.
(2) The passed indices are the positions of the `Pass` calls, in increasing order.
(3) In the revisit phase `Pass` makes the front of the old queue followed by the passed index
the next `CurrentIndex` and removes it; `SubmitAnswer` makes the front of the queue the next
`CurrentIndex` and removes it, and ends the game when the queue is empty.
(4) Over any sequence of answers and passes in the revisit phase, the active index followed by
the pending passes evolves as a first-in-first-out queue. -/
theorem fifo_revisit_order (simpleFold : Char → Char) (sessionID : String) :
    (∀ (gm : GameManager) (now : Int) (lang : String) (calls : List (Call × Int))
        (i1 : Int) (rest : List Int),
      mapGet gm.Sessions sessionID = none →
      1 ≤ (GetOrCreateSession gm now sessionID lang).2.1.Questions.length →
      calls.length = (GetOrCreateSession gm now sessionID lang).2.1.Questions.length →
      (∀ c ∈ calls, c.1 ≠ Call.get) →
      (∀ c ∈ calls, elapsedSeconds now c.2 < 300) →
      passedIndices calls 0 = i1 :: rest →
      ∃ st, stateAfter simpleFold sessionID (GetOrCreateSession gm now sessionID lang).1 calls
          = some st ∧
        st.IsGameOver = false ∧ st.IsRevisiting = true ∧ st.CurrentIndex = i1 ∧
        st.PendingPasses = rest) ∧
    (∀ (calls : List (Call × Int)),
      List.Pairwise (fun a b => a < b) (passedIndices calls 0) ∧
      ∀ j, j ∈ passedIndices calls 0 ↔
        0 ≤ j ∧ ∃ t, calls.get? j.toNat = some (Call.pass, t)) ∧
    (∀ (gm : GameManager) (now : Int) (answer : String) (s : GameState) (q : Question),
      mapGet gm.Sessions sessionID = some s → s.IsGameOver = false →
      s.IsRevisiting = true → elapsedSeconds s.StartTime now < 300 →
      index s.Questions s.CurrentIndex = some q →
      (∃ r st, Pass gm now sessionID = some r ∧ r.state = some st ∧
        mapGet r.gm.Sessions sessionID = some st ∧
        st.IsGameOver = false ∧ st.IsRevisiting = true ∧
        st.CurrentIndex :: st.PendingPasses = s.PendingPasses ++ [s.CurrentIndex]) ∧
      (∃ r st, SubmitAnswer simpleFold gm now sessionID answer = some r ∧ r.state = some st ∧
        mapGet r.gm.Sessions sessionID = some st ∧ st.IsRevisiting = true ∧
        (s.PendingPasses = [] → st.IsGameOver = true) ∧
        (∀ p rest, s.PendingPasses = p :: rest →
          st.IsGameOver = false ∧ st.CurrentIndex = p ∧ st.PendingPasses = rest))) ∧
    (∀ (gm : GameManager) (s : GameState) (calls : List (Call × Int)),
      mapGet gm.Sessions sessionID = some s → s.IsRevisiting = true →
      (∀ j ∈ queueOf s, 0 ≤ j ∧ j < s.Questions.length) →
      (∀ c ∈ calls, c.1 ≠ Call.get) →
      (∀ c ∈ calls, elapsedSeconds s.StartTime c.2 < 300) →
      ∃ st, stateAfter simpleFold sessionID gm calls = some st ∧ st.IsRevisiting = true ∧
        queueOf st = calls.foldl fifoStep (queueOf s)) := by
  refine ⟨?_, ?_, ?_, ?_⟩
  · intro gm now lang calls i1 rest h hN hlen hcalls htime hpassed
    obtain ⟨hst, hno, hrev, hcur, hpend, hstart⟩ := created_fresh gm now sessionID lang h
    obtain ⟨gm', s', hrun, hs', _, hB⟩ := first_pass simpleFold sessionID calls _ _ hst hno hrev
      (by rw [hcur]) hcalls (fun c hc => by rw [hstart]; exact htime c hc)
      (by rw [hcur, hlen]; omega)
    refine ⟨s', by simp [stateAfter, hrun, hs'], ?_⟩
    refine (hB (by rw [hcur, hlen]; omega) (by rw [hlen]; exact hN)).2 i1 rest ?_
    rw [hpend, hcur, hpassed]
    rfl
  · intro calls
    refine ⟨passedIndices_pairwise calls 0, ?_⟩
    intro j
    rw [mem_passedIndices]
    simp
  · intro gm now answer s q hs hno hrev he hq
    refine ⟨?_, ?_⟩
    · refine ⟨_, _, Pass_running gm now sessionID s q hs hno he hq, rfl,
        mapGet_mapSet_self _ _ _, ?_⟩
      have hpre : (passedState s (elapsedSeconds s.StartTime now) q).PendingPasses
          = s.PendingPasses ++ [s.CurrentIndex] := rfl
      cases hp : s.PendingPasses ++ [s.CurrentIndex] with
      | nil => simp at hp
      | cons p rest =>
        rw [hp] at hpre
        rw [moveToNext_revisit_cons (passedState s (elapsedSeconds s.StartTime now) q) p rest hno hrev hpre]
        exact ⟨hno, hrev, rfl⟩
    · refine ⟨_, _, SubmitAnswer_running simpleFold gm now sessionID answer s q hs hno he hq,
        rfl, mapGet_mapSet_self _ _ _, ?_, ?_, ?_⟩
      · exact (queueOf_moveToNext_revisit (scoredState s (elapsedSeconds s.StartTime now) q
          (EqualFold simpleFold (TrimSpace answer) (TrimSpace q.Answer))) hno hrev).2
      · intro hp
        rw [moveToNext_revisit_nil (scoredState s (elapsedSeconds s.StartTime now) q
          (EqualFold simpleFold (TrimSpace answer) (TrimSpace q.Answer))) hno hrev hp]
      · intro p rest hp
        rw [moveToNext_revisit_cons (scoredState s (elapsedSeconds s.StartTime now) q
          (EqualFold simpleFold (TrimSpace answer) (TrimSpace q.Answer))) p rest hno hrev hp]
        exact ⟨hno, rfl, rfl⟩
  · intro gm s calls hs hrev hvalid hcalls htime
    obtain ⟨gm', s', hrun, hs', hrev', hqueue⟩ :=
      revisit_fifo simpleFold sessionID calls gm s hs hrev hvalid hcalls htime
    exact ⟨s', by simp [stateAfter, hrun, hs'], hrev', hqueue⟩

theorem fifo_revisit_order_witness :
    (∃ st, stateAfter noFold "s"
          (GetOrCreateSession { Sessions := [], Questions := [("en", demoQuestions3)] }
            0 "s" "en").1 demoFirstPass = some st ∧
        st.IsGameOver = false ∧ st.IsRevisiting = true ∧ st.CurrentIndex = 0 ∧
        st.PendingPasses = [2]) ∧
    ((∃ r st, Pass demoRevisiting 4000000000 "s" = some r ∧ r.state = some st ∧
        mapGet r.gm.Sessions "s" = some st ∧
        st.IsGameOver = false ∧ st.IsRevisiting = true ∧
        st.CurrentIndex :: st.PendingPasses
          = demoRevisitState.PendingPasses ++ [demoRevisitState.CurrentIndex]) ∧
      (∃ r st, SubmitAnswer noFold demoRevisiting 4000000000 "s" "ans1" = some r ∧
        r.state = some st ∧
        mapGet r.gm.Sessions "s" = some st ∧ st.IsRevisiting = true ∧
        (demoRevisitState.PendingPasses = [] → st.IsGameOver = true) ∧
        (∀ p rest, demoRevisitState.PendingPasses = p :: rest →
          st.IsGameOver = false ∧ st.CurrentIndex = p ∧ st.PendingPasses = rest))) ∧
    (∃ st, stateAfter noFold "s" demoRevisiting demoRevisitCalls = some st ∧
      st.IsRevisiting = true ∧
      queueOf st = demoRevisitCalls.foldl fifoStep (queueOf demoRevisitState)) ∧
    stateAfter noFold "s" demoStarted3 demoFirstPass = some demoRevisitState ∧
    demoRevisitCalls.foldl fifoStep (queueOf demoRevisitState) = [] :=
  ⟨(fifo_revisit_order noFold "s").1 { Sessions := [], Questions := [("en", demoQuestions3)] }
      0 "en" demoFirstPass 0 [2] (by decide) (by decide) (by decide) (by decide) (by decide)
      (by decide),
    (fifo_revisit_order noFold "s").2.2.1 demoRevisiting 4000000000 "ans1" demoRevisitState
      ⟨"A", "Q1", "ans1"⟩ (by decide) (by decide) (by decide) (by decide) (by decide),
    (fifo_revisit_order noFold "s").2.2.2 demoRevisiting demoRevisitState demoRevisitCalls
      (by decide) (by decide) (by decide) (by decide) (by decide),
    by decide, by decide⟩

/-! ## Game-over is terminal -/

theorem mapSet_same {β : Type} (m : List (String × β)) (k : String) (v : β)
    (h : mapGet m k = some v) : mapSet m k v = m := by
  induction m with
  | nil => simp [mapGet] at h
  | cons e rest ih =>
    obtain ⟨k', v'⟩ := e
    by_cases hk : k' = k
    · subst hk
      simp only [mapGet, if_true, Option.some.injEq] at h
      simp [mapSet, h]
    · simp only [mapGet, hk, if_false] at h
      simp [mapSet, hk, ih h]

theorem GetState_over (gm : GameManager) (now : Int) (sessionID : String) (s : GameState)
    (h : mapGet gm.Sessions sessionID = some s) (ho : s.IsGameOver = true) :
    GetState gm now sessionID = (gm, some s, true) := by
  simp only [GetState, h, updateTimer_of_over s now ho, mapSet_same gm.Sessions sessionID s h]

/-- C15. Game-over is terminal: when the store holds for `sessionID` a state with
`IsGameOver = true`, each of `GetOrCreateSession`, `SubmitAnswer`, `Pass` and `GetState` on
that session, at any clock reading, returns the manager it was given, so the state of the
session keeps every field; the two reads return that state, the two writes return no state
and `ok = false`. -/
theorem gameOver_terminal (simpleFold : Char → Char) (gm : GameManager) (now : Int)
    (sessionID lang answer : String) (s : GameState)
    (h : mapGet gm.Sessions sessionID = some s) (ho : s.IsGameOver = true) :
    GetOrCreateSession gm now sessionID lang = (gm, s, false) ∧
      SubmitAnswer simpleFold gm now sessionID answer
        = some ⟨gm, none, FeedbackPayload.empty, false⟩ ∧
      Pass gm now sessionID = some ⟨gm, none, FeedbackPayload.empty, false⟩ ∧
      GetState gm now sessionID = (gm, some s, true) := by
  refine ⟨?_, SubmitAnswer_dead simpleFold gm now sessionID answer (dead_of_over gm sessionID s h ho),
    Pass_dead gm now sessionID (dead_of_over gm sessionID s h ho),
    GetState_over gm now sessionID s h ho⟩
  unfold GetOrCreateSession
  rw [h]

theorem gameOver_terminal_witness :
    GetOrCreateSession demoFinished 900000000000 "s" "xx"
        = (demoFinished, demoFinishedState, false) ∧
      SubmitAnswer noFold demoFinished 900000000000 "s" "ans1"
        = some ⟨demoFinished, none, FeedbackPayload.empty, false⟩ ∧
      Pass demoFinished 900000000000 "s"
        = some ⟨demoFinished, none, FeedbackPayload.empty, false⟩ ∧
      GetState demoFinished 900000000000 "s" = (demoFinished, some demoFinishedState, true) :=
  gameOver_terminal noFold demoFinished 900000000000 "s" "xx" "ans1" demoFinishedState
    (by decide) (by decide)

/-! ## The snapshot projection -/

/-- C16. Snapshot projection: `sendState` only reads the state and writes exactly one
message. For a game-over state it is GAME_OVER with `CorrectCount`, `WrongCount` and the
length of `PendingPasses`; for a running state whose active question is `q` it is QUESTION
with `q`'s letter and prompt, `CurrentIndex`, the `LettersState` map and `TimeRemaining`. -/
theorem sendState_projection (s : GameState) :
    (s.IsGameOver = true →
      sendState s =
        some [{ MsgType := "GAME_OVER"
                Payload := SentPayload.gameOver
                  { CorrectCount := s.CorrectCount
                    WrongCount := s.WrongCount
                    PassedCount := s.PendingPasses.length } }]) ∧
    (s.IsGameOver = false → ∀ q, index s.Questions s.CurrentIndex = some q →
      sendState s =
        some [{ MsgType := "QUESTION"
                Payload := SentPayload.question
                  { Letter := q.Letter
                    Question := q.Question
                    Index := s.CurrentIndex
                    LettersState := s.LettersState
                    TimeRemaining := s.TimeRemaining } }]) := by
  refine ⟨?_, ?_⟩
  · intro ho
    simp [sendState, ho, TypeGameOver]
  · intro ho q hq
    simp [sendState, ho, hq, TypeQuestion]

theorem sendState_projection_witness :
    sendState demoFinishedState =
        some [{ MsgType := "GAME_OVER"
                Payload := SentPayload.gameOver
                  { CorrectCount := demoFinishedState.CorrectCount
                    WrongCount := demoFinishedState.WrongCount
                    PassedCount := demoFinishedState.PendingPasses.length } }] ∧
      sendState demoState =
        some [{ MsgType := "QUESTION"
                Payload := SentPayload.question
                  { Letter := "A"
                    Question := "Q1"
                    Index := demoState.CurrentIndex
                    LettersState := demoState.LettersState
                    TimeRemaining := demoState.TimeRemaining } }] :=
  ⟨(sendState_projection demoFinishedState).1 (by decide),
    (sendState_projection demoState).2 (by decide) ⟨"A", "Q1", "ans1"⟩ (by decide)⟩

/-! ## Expiry on access -/

theorem GetState_found (gm : GameManager) (now : Int) (sessionID : String) (s : GameState)
    (h : mapGet gm.Sessions sessionID = some s) :
    GetState gm now sessionID =
      ({ gm with Sessions := mapSet gm.Sessions sessionID (updateTimer s now) },
        some (updateTimer s now), true) := by
  simp only [GetState, h]

/-- C17, as stated, fails twice. `GetOrCreateSession` on the running session "s", 400
seconds after its start, returns the state with `IsGameOver = false` and `TimeRemaining =
300`. `GetState` on a session that advancement ended after 3 seconds returns, 400 seconds
after the start, `TimeRemaining = 297`. -/
theorem expiry_on_every_access_counterexample :
    300 ≤ elapsedSeconds demoState.StartTime 400000000000 ∧
      mapGet demoStarted.Sessions "s" = some demoState ∧
      (GetOrCreateSession demoStarted 400000000000 "s" "en").2.1.IsGameOver = false ∧
      (GetOrCreateSession demoStarted 400000000000 "s" "en").2.1.TimeRemaining = 300 ∧
      300 ≤ elapsedSeconds demoFinishedState.StartTime 400000000000 ∧
      mapGet demoFinished.Sessions "s" = some demoFinishedState ∧
      (GetState demoFinished 400000000000 "s").2.1.map GameState.TimeRemaining = some 297 := by
  refine ⟨by decide, by decide, by decide, by decide, by decide, by decide, by rfl⟩

/-- C17, amended. For a stored session that is not game-over at entry, `SubmitAnswer`, `Pass`
and `GetState` run the expiry check first: when at least 300 whole seconds have elapsed
since `StartTime`, the state they return has `IsGameOver = true` and `TimeRemaining = 0`.
`GetState` always returns the stored state after the timer check. For a session that is
already game-over `GetState` returns the state as it is, and `SubmitAnswer` and `Pass` return
no state. -/
theorem expiry_honoured (simpleFold : Char → Char) (gm : GameManager) (now : Int)
    (sessionID answer : String) (s : GameState)
    (h : mapGet gm.Sessions sessionID = some s) :
    (s.IsGameOver = false → 300 ≤ elapsedSeconds s.StartTime now →
      (∃ r st, SubmitAnswer simpleFold gm now sessionID answer = some r ∧
        r.state = some st ∧ st.IsGameOver = true ∧ st.TimeRemaining = 0) ∧
      (∃ r st, Pass gm now sessionID = some r ∧
        r.state = some st ∧ st.IsGameOver = true ∧ st.TimeRemaining = 0) ∧
      (∃ st, (GetState gm now sessionID).2.1 = some st ∧
        st.IsGameOver = true ∧ st.TimeRemaining = 0)) ∧
    (GetState gm now sessionID).2.1 = some (updateTimer s now) ∧
    (s.IsGameOver = true →
      (GetState gm now sessionID).2.1 = some s ∧
      (SubmitAnswer simpleFold gm now sessionID answer).map CallResult.state = some none ∧
      (Pass gm now sessionID).map CallResult.state = some none) := by
  refine ⟨?_, ?_, ?_⟩
  · intro hno he
    refine ⟨⟨_, _, SubmitAnswer_expired simpleFold gm now sessionID answer s h hno he,
      rfl, rfl, rfl⟩, ⟨_, _, Pass_expired gm now sessionID s h hno he, rfl, rfl, rfl⟩, ?_⟩
    rw [GetState_found gm now sessionID s h, updateTimer_of_expired s now hno he]
    exact ⟨_, rfl, rfl, rfl⟩
  · rw [GetState_found gm now sessionID s h]
  · intro ho
    refine ⟨?_, ?_, ?_⟩
    · rw [GetState_over gm now sessionID s h ho]
    · rw [SubmitAnswer_dead simpleFold gm now sessionID answer (dead_of_over gm sessionID s h ho)]
      rfl
    · rw [Pass_dead gm now sessionID (dead_of_over gm sessionID s h ho)]
      rfl

theorem expiry_honoured_witness :
    ((∃ r st, SubmitAnswer noFold demoStarted 400000000000 "s" "ans1" = some r ∧
        r.state = some st ∧ st.IsGameOver = true ∧ st.TimeRemaining = 0) ∧
      (∃ r st, Pass demoStarted 400000000000 "s" = some r ∧
        r.state = some st ∧ st.IsGameOver = true ∧ st.TimeRemaining = 0) ∧
      (∃ st, (GetState demoStarted 400000000000 "s").2.1 = some st ∧
        st.IsGameOver = true ∧ st.TimeRemaining = 0)) ∧
    ((GetState demoFinished 400000000000 "s").2.1 = some demoFinishedState ∧
      (SubmitAnswer noFold demoFinished 400000000000 "s" "ans1").map CallResult.state
        = some none ∧
      (Pass demoFinished 400000000000 "s").map CallResult.state = some none) :=
  ⟨(expiry_honoured noFold demoStarted 400000000000 "s" "ans1" demoState (by decide)).1
      (by decide) (by decide),
    (expiry_honoured noFold demoFinished 400000000000 "s" "ans1" demoFinishedState
      (by decide)).2.2 (by decide)⟩

/-! ## Messages written on expiry -/

/-- On expiry `processMessage` writes what `SubmitAnswer` or `Pass` hands back: for an ANSWER
event whose payload decodes, or a PASS event, on a stored session that is not game-over and
whose 300 seconds have elapsed, the expired state is stored and the messages written are a
FEEDBACK message carrying the empty feedback followed by the GAME_OVER snapshot. -/
theorem processMessage_expired (simpleFold : Char → Char) (gm : GameManager) (now : Int)
    (sessionID : String) (msg : WSMessage) (s : GameState)
    (h : mapGet gm.Sessions sessionID = some s) (hno : s.IsGameOver = false)
    (he : 300 ≤ elapsedSeconds s.StartTime now)
    (hmsg : (msg.MsgType = TypeAnswer ∧ msg.Payload.asAnswer.isSome = true) ∨
      msg.MsgType = TypePass) :
    processMessage simpleFold gm now sessionID msg =
      some ({ gm with Sessions := mapSet gm.Sessions sessionID (expiredState s) },
        expiryMessages s) := by
  rcases hmsg with ⟨ht, hp⟩ | ht
  · obtain ⟨payload, hpayload⟩ := Option.isSome_iff_exists.mp hp
    have h1 : ¬ msg.MsgType = TypeInit := by rw [ht]; decide
    simp only [processMessage, h1, if_false, ht, if_true, hpayload,
      SubmitAnswer_expired simpleFold gm now sessionID payload.Answer s h hno he]
    rfl
  · have h1 : ¬ msg.MsgType = TypeInit := by rw [ht]; decide
    have h2 : ¬ msg.MsgType = TypeAnswer := by rw [ht]; decide
    simp only [processMessage, h1, h2, if_false, ht, if_true,
      Pass_expired gm now sessionID s h hno he]
    rfl

/-- C18, evaluated. For the running session "s", 300 seconds after its start, an ANSWER event
makes `processMessage` write two messages: a FEEDBACK message whose payload is the empty
feedback that `SubmitAnswer` returns on expiry, and then the GAME_OVER snapshot; a PASS event
does the same. The claim allows the GAME_OVER snapshot only. The status written, "", is
none of the values green, red, yellow that `models.go` lists for `FeedbackPayload.Status`. -/
theorem expiry_writes_empty_feedback :
    mapGet demoStarted.Sessions "s" = some demoState ∧ demoState.IsGameOver = false ∧
      300 ≤ elapsedSeconds demoState.StartTime 300000000000 ∧
      (SubmitAnswer noFold demoStarted 300000000000 "s" "ans1").map
          (fun r => (r.ok, r.feedback))
        = some (true, { Letter := "", Status := "", Correct := false }) ∧
      (processMessage noFold demoStarted 300000000000 "s" demoAnswerMsg).map Prod.snd =
        some [{ MsgType := "FEEDBACK"
                Payload := SentPayload.feedback { Letter := "", Status := "", Correct := false } },
              { MsgType := "GAME_OVER"
                Payload := SentPayload.gameOver
                  { CorrectCount := 0, WrongCount := 0, PassedCount := 0 } }] ∧
      (processMessage noFold demoStarted 300000000000 "s" demoPassMsg).map Prod.snd =
        some [{ MsgType := "FEEDBACK"
                Payload := SentPayload.feedback { Letter := "", Status := "", Correct := false } },
              { MsgType := "GAME_OVER"
                Payload := SentPayload.gameOver
                  { CorrectCount := 0, WrongCount := 0, PassedCount := 0 } }] ∧
      ("" : String) ≠ "green" ∧ ("" : String) ≠ "red" ∧ ("" : String) ≠ "yellow" := by
  refine ⟨by decide, by decide, by decide, by rfl, by rfl, by rfl, by decide, by decide,
    by decide⟩

/-! ## Locks and routing -/

/-- C19, evaluated. `GetState` takes the shared lock, and yet it writes: on the running
session "s" it replaces the stored state, one second after the start by the state with
`TimeRemaining = 299` and 300 seconds after the start by the game-over state. The other three
methods take the exclusive lock. -/
theorem GetState_writes_under_shared_lock :
    lockMode Method.GetState = LockMode.shared ∧
      lockMode Method.GetOrCreateSession = LockMode.exclusive ∧
      lockMode Method.SubmitAnswer = LockMode.exclusive ∧
      lockMode Method.Pass = LockMode.exclusive ∧
      mapGet demoStarted.Sessions "s" = some demoState ∧
      (GetState demoStarted 1000000000 "s").1 ≠ demoStarted ∧
      mapGet (GetState demoStarted 1000000000 "s").1.Sessions "s"
        = some { demoState with TimeRemaining := 299 } ∧
      mapGet (GetState demoStarted 300000000000 "s").1.Sessions "s"
        = some { demoState with TimeRemaining := 0, IsGameOver := true } := by
  refine ⟨rfl, rfl, rfl, rfl, by decide, by decide, by decide, by decide⟩

/-- C20, evaluated. On a connection whose session id is "c", an INIT event that names session
"s" creates session "s" and writes its QUESTION snapshot; the ANSWER event that follows is
applied to session "c", which does not exist: nothing is written and session "s" is left as
it was. The same ANSWER on a connection whose session id is "s" writes FEEDBACK and a
snapshot. -/
theorem answer_ignores_init_session :
    processMessage noFold demoManager 0 "c" demoInitMsg =
        some (demoStarted,
          [{ MsgType := "QUESTION"
             Payload := SentPayload.question
               { Letter := "A", Question := "Q1", Index := 0
                 LettersState := [("A", ""), ("B", "")], TimeRemaining := 300 } }]) ∧
      mapGet demoStarted.Sessions "s" = some demoState ∧
      mapGet demoStarted.Sessions "c" = none ∧
      processMessage noFold demoStarted 1000000000 "c" demoAnswerMsg = some (demoStarted, []) ∧
      (processMessage noFold demoStarted 1000000000 "s" demoAnswerMsg).map Prod.snd =
        some [{ MsgType := "FEEDBACK"
                Payload := SentPayload.feedback
                  { Letter := "A", Status := "green", Correct := true } },
              { MsgType := "QUESTION"
                Payload := SentPayload.question
                  { Letter := "B", Question := "Q2", Index := 1
                    LettersState := [("A", "green"), ("B", "")], TimeRemaining := 299 } }] := by
  refine ⟨by rfl, by decide, by decide, by rfl, by rfl⟩

/-! ## Every store call is a step of one session -/

theorem GetOrCreateSession_absent (gm : GameManager) (now : Int) (sessionID lang : String)
    (h : mapGet gm.Sessions sessionID = none) :
    (GetOrCreateSession gm now sessionID lang).1 =
      { gm with Sessions := (mapSet gm.Sessions sessionID
          (newSessionState sessionID (resolvedLanguage gm.Questions lang)
            (resolvedQuestions gm.Questions lang) now)) } := by
  unfold GetOrCreateSession resolvedLanguage resolvedQuestions
  rw [h]
  cases mapGet gm.Questions lang <;> rfl

theorem SubmitAnswer_effect (simpleFold : Char → Char) (gm : GameManager) (now : Int)
    (sessionID answer : String) (r : CallResult)
    (h : SubmitAnswer simpleFold gm now sessionID answer = some r) : Effect gm r.gm := by
  cases hs : mapGet gm.Sessions sessionID with
  | none =>
    rw [SubmitAnswer_dead simpleFold gm now sessionID answer (Or.inl hs)] at h
    cases h
    exact Or.inl rfl
  | some s =>
    cases ho : s.IsGameOver
    · by_cases he : 300 ≤ elapsedSeconds s.StartTime now
      · rw [SubmitAnswer_expired simpleFold gm now sessionID answer s hs ho he] at h
        cases h
        refine Or.inr ⟨sessionID, _, rfl, Or.inl ⟨s, hs, ?_⟩⟩
        rw [← updateTimer_of_expired s now ho he]
        exact Step.timer s now
      · have he' : elapsedSeconds s.StartTime now < 300 := by omega
        cases hq : index s.Questions s.CurrentIndex with
        | none =>
          simp [SubmitAnswer, hs, ho, updateTimer_of_running s now ho he', hq] at h
        | some q =>
          rw [SubmitAnswer_running simpleFold gm now sessionID answer s q hs ho he' hq] at h
          cases h
          exact Or.inr ⟨sessionID, _, rfl, Or.inl ⟨s, hs, Step.answer s _ q _ ho hq⟩⟩
    · rw [SubmitAnswer_dead simpleFold gm now sessionID answer
        (dead_of_over gm sessionID s hs ho)] at h
      cases h
      exact Or.inl rfl

theorem Pass_effect (gm : GameManager) (now : Int) (sessionID : String) (r : CallResult)
    (h : Pass gm now sessionID = some r) : Effect gm r.gm := by
  cases hs : mapGet gm.Sessions sessionID with
  | none =>
    rw [Pass_dead gm now sessionID (Or.inl hs)] at h
    cases h
    exact Or.inl rfl
  | some s =>
    cases ho : s.IsGameOver
    · by_cases he : 300 ≤ elapsedSeconds s.StartTime now
      · rw [Pass_expired gm now sessionID s hs ho he] at h
        cases h
        refine Or.inr ⟨sessionID, _, rfl, Or.inl ⟨s, hs, ?_⟩⟩
        rw [← updateTimer_of_expired s now ho he]
        exact Step.timer s now
      · have he' : elapsedSeconds s.StartTime now < 300 := by omega
        cases hq : index s.Questions s.CurrentIndex with
        | none =>
          simp [Pass, hs, ho, updateTimer_of_running s now ho he', hq] at h
        | some q =>
          rw [Pass_running gm now sessionID s q hs ho he' hq] at h
          cases h
          exact Or.inr ⟨sessionID, _, rfl, Or.inl ⟨s, hs, Step.pass s _ q ho hq⟩⟩
    · rw [Pass_dead gm now sessionID (dead_of_over gm sessionID s hs ho)] at h
      cases h
      exact Or.inl rfl

theorem applyStoreCall_effect (simpleFold : Char → Char) (gm gm' : GameManager)
    (c : StoreCall × Int) (h : applyStoreCall simpleFold gm c = some gm') : Effect gm gm' := by
  obtain ⟨call, now⟩ := c
  cases call with
  | create sessionID lang =>
    simp only [applyStoreCall, Option.some.injEq] at h
    subst h
    cases hs : mapGet gm.Sessions sessionID with
    | none =>
      rw [GetOrCreateSession_absent gm now sessionID lang hs]
      exact Or.inr ⟨sessionID, _, rfl, Or.inr ⟨hs, lang, now, rfl⟩⟩
    | some s =>
      left
      unfold GetOrCreateSession
      rw [hs]
  | answer sessionID a =>
    simp only [applyStoreCall] at h
    cases hr : SubmitAnswer simpleFold gm now sessionID a with
    | none => rw [hr] at h; cases h
    | some r =>
      rw [hr] at h
      cases h
      exact SubmitAnswer_effect simpleFold gm now sessionID a r hr
  | pass sessionID =>
    simp only [applyStoreCall] at h
    cases hr : Pass gm now sessionID with
    | none => rw [hr] at h; cases h
    | some r =>
      rw [hr] at h
      cases h
      exact Pass_effect gm now sessionID r hr
  | get sessionID =>
    simp only [applyStoreCall, Option.some.injEq] at h
    subst h
    cases hs : mapGet gm.Sessions sessionID with
    | none =>
      left
      simp [GetState, hs]
    | some s =>
      rw [GetState_found gm now sessionID s hs]
      exact Or.inr ⟨sessionID, _, rfl, Or.inl ⟨s, hs, Step.timer s now⟩⟩

theorem Effect_questions (gm gm' : GameManager) (h : Effect gm gm') :
    gm'.Questions = gm.Questions := by
  rcases h with rfl | ⟨_, _, rfl, _⟩ <;> rfl

/-- After a store call a session that was stored is still stored, with its old state or a
`Step` of it. -/
theorem Effect_keeps (gm gm' : GameManager) (h : Effect gm gm') (sessionID : String)
    (s : GameState) (hs : mapGet gm.Sessions sessionID = some s) :
    ∃ s', mapGet gm'.Sessions sessionID = some s' ∧ (s' = s ∨ Step s s') := by
  rcases h with rfl | ⟨id0, s0', rfl, hcase⟩
  · exact ⟨s, hs, Or.inl rfl⟩
  · by_cases hid : id0 = sessionID
    · subst hid
      refine ⟨s0', mapGet_mapSet_self _ _ _, ?_⟩
      rcases hcase with ⟨s0, hs0, hstep⟩ | ⟨hnone, _⟩
      · rw [hs] at hs0
        cases hs0
        exact Or.inr hstep
      · rw [hs] at hnone
        cases hnone
    · have h2 : mapGet (mapSet gm.Sessions id0 s0') sessionID = some s := by
        rw [mapGet_mapSet_ne _ _ _ _ hid]
        exact hs
      exact ⟨s, h2, Or.inl rfl⟩

/-- After a store call every stored state is an old state, a `Step` of an old state, or the
fresh state of a session that was not stored. -/
theorem Effect_origin (gm gm' : GameManager) (h : Effect gm gm') (sessionID : String)
    (s' : GameState) (hs' : mapGet gm'.Sessions sessionID = some s') :
    (∃ s, mapGet gm.Sessions sessionID = some s ∧ (s' = s ∨ Step s s')) ∨
      (mapGet gm.Sessions sessionID = none ∧
        ∃ lang now, s' = newSessionState sessionID (resolvedLanguage gm.Questions lang)
          (resolvedQuestions gm.Questions lang) now) := by
  rcases h with rfl | ⟨id0, s0', rfl, hcase⟩
  · exact Or.inl ⟨s', hs', Or.inl rfl⟩
  · by_cases hid : id0 = sessionID
    · subst hid
      have heq : s0' = s' := by
        have := mapGet_mapSet_self gm.Sessions id0 s0'
        have h2 : mapGet (mapSet gm.Sessions id0 s0') id0 = some s' := hs'
        rw [this] at h2
        exact Option.some.inj h2
      subst heq
      rcases hcase with ⟨s0, hs0, hstep⟩ | ⟨hnone, hfresh⟩
      · exact Or.inl ⟨s0, hs0, Or.inr hstep⟩
      · exact Or.inr ⟨hnone, hfresh⟩
    · have h2 : mapGet (mapSet gm.Sessions id0 s0') sessionID = some s' := hs'
      rw [mapGet_mapSet_ne _ _ _ _ hid] at h2
      exact Or.inl ⟨s', h2, Or.inl rfl⟩

/-- A property that holds of every fresh state and is kept by every `Step` holds of every
session of every store reached from one in which it holds. -/
theorem runStore_invariant (simpleFold : Char → Char) (P : GameState → Prop)
    (catalog : List (String × List Question))
    (hfresh : ∀ sessionID lang now, P (newSessionState sessionID
      (resolvedLanguage catalog lang) (resolvedQuestions catalog lang) now))
    (hstep : ∀ s s', P s → Step s s' → P s')
    (calls : List (StoreCall × Int)) :
    ∀ gm gm', gm.Questions = catalog → AllSessions P gm →
      runStore simpleFold gm calls = some gm' →
      gm'.Questions = catalog ∧ AllSessions P gm' := by
  induction calls with
  | nil =>
    intro gm gm' hc hall hrun
    simp only [runStore, Option.some.injEq] at hrun
    subst hrun
    exact ⟨hc, hall⟩
  | cons c cs ih =>
    intro gm gm' hc hall hrun
    simp only [runStore] at hrun
    cases h1 : applyStoreCall simpleFold gm c with
    | none => rw [h1] at hrun; cases hrun
    | some gm1 =>
      rw [h1] at hrun
      have heff := applyStoreCall_effect simpleFold gm gm1 c h1
      refine ih gm1 gm' ((Effect_questions gm gm1 heff).trans hc) ?_ hrun
      intro sessionID s' hs'
      rcases Effect_origin gm gm1 heff sessionID s' hs' with
        ⟨s, hs, rfl | hst⟩ | ⟨_, lang, now, rfl⟩
      · exact hall sessionID _ hs
      · exact hstep s s' (hall sessionID s hs) hst
      · rw [hc]
        exact hfresh sessionID lang now

/-! ## Index validity on the whole store -/

/-- The timer check touches only `TimeRemaining` and `IsGameOver`, and never clears
`IsGameOver`. -/
theorem updateTimer_frame (s : GameState) (now : Int) :
    (updateTimer s now).Questions = s.Questions ∧
      (updateTimer s now).LettersState = s.LettersState ∧
      (updateTimer s now).PendingPasses = s.PendingPasses ∧
      (updateTimer s now).CurrentIndex = s.CurrentIndex ∧
      (updateTimer s now).IsRevisiting = s.IsRevisiting ∧
      ((updateTimer s now).IsGameOver = false → s.IsGameOver = false) := by
  cases ho : s.IsGameOver
  · by_cases he : 300 ≤ elapsedSeconds s.StartTime now
    · rw [updateTimer_of_expired s now ho he]
      exact ⟨rfl, rfl, rfl, rfl, rfl, fun _ => rfl⟩
    · rw [updateTimer_of_running s now ho (by omega)]
      exact ⟨rfl, rfl, rfl, rfl, rfl, fun _ => rfl⟩
  · rw [updateTimer_of_over s now ho]
    exact ⟨rfl, rfl, rfl, rfl, rfl, fun h => by rw [ho] at h; cases h⟩

theorem updateTimer_questions (s : GameState) (now : Int) :
    (updateTimer s now).Questions = s.Questions := (updateTimer_frame s now).1

theorem Step_questions (s s' : GameState) (h : Step s s') : s'.Questions = s.Questions := by
  cases h with
  | timer now => exact updateTimer_questions s now
  | answer e q correct _ _ => exact (moveToNext_frame _).2.2.1
  | pass e q _ _ => exact (moveToNext_frame _).2.2.1

theorem live_of_running (qs : List Question) (s : GameState) (h : SessionInv qs s)
    (hno : s.IsGameOver = false) : Live qs s := by
  rcases h with h | h | h
  · exact h
  · have := h.over
    rw [hno] at this
    cases this
  · have := h.1
    rw [hno] at this
    cases this

theorem Step_sessionInv (s s' : GameState) (hinv : SessionInv s.Questions s)
    (h : Step s s') : SessionInv s'.Questions s' := by
  rw [Step_questions s s' h]
  cases h with
  | timer now => exact updateTimer_preserves _ s now hinv
  | answer e q correct hno hq =>
    rcases moveToNext_preserves _ _ (scoredState_preAdvance _ s e q correct
      (live_of_running _ s hinv hno) hq) with h1 | h1
    · exact Or.inl h1
    · exact Or.inr (Or.inl h1)
  | pass e q hno hq =>
    rcases moveToNext_preserves _ _ (passedState_preAdvance _ s e q
      (live_of_running _ s hinv hno) hq) with h1 | h1
    · exact Or.inl h1
    · exact Or.inr (Or.inl h1)

theorem newSessionState_questions (sessionID lang : String) (qs : List Question) (now : Int) :
    (newSessionState sessionID lang qs now).Questions = qs := by
  rw [newSessionState_eq]

theorem resolvedQuestions_nonempty (catalog : List (String × List Question))
    (hwf : WellFormedCatalog catalog) (lang : String) :
    1 ≤ (resolvedQuestions catalog lang).length := by
  unfold resolvedQuestions
  cases hl : mapGet catalog lang with
  | some qs => exact hwf.1 lang qs hl
  | none =>
    cases he : mapGet catalog "en" with
    | none =>
      have := hwf.2
      rw [he] at this
      cases this
    | some qs => exact hwf.1 "en" qs he

theorem fresh_sessionInv (catalog : List (String × List Question))
    (hwf : WellFormedCatalog catalog) (sessionID lang : String) (now : Int) :
    SessionInv (newSessionState sessionID (resolvedLanguage catalog lang)
        (resolvedQuestions catalog lang) now).Questions
      (newSessionState sessionID (resolvedLanguage catalog lang)
        (resolvedQuestions catalog lang) now) := by
  rw [newSessionState_questions]
  exact Or.inl (newSessionState_live _ _ _ _ (resolvedQuestions_nonempty catalog hwf lang))

theorem applyStoreCall_progress (simpleFold : Char → Char) (gm : GameManager)
    (c : StoreCall × Int) (hall : AllSessions (fun s => SessionInv s.Questions s) gm) :
    ∃ gm', applyStoreCall simpleFold gm c = some gm' := by
  obtain ⟨call, now⟩ := c
  cases call with
  | create sessionID lang => exact ⟨_, rfl⟩
  | answer sessionID a =>
    cases hs : mapGet gm.Sessions sessionID with
    | none =>
      exact ⟨gm, by simp [applyStoreCall,
        SubmitAnswer_dead simpleFold gm now sessionID a (Or.inl hs)]⟩
    | some s =>
      obtain ⟨r, hr, _⟩ := SubmitAnswer_preserves simpleFold s.Questions gm now sessionID a
        ⟨s, hs, hall sessionID s hs⟩
      exact ⟨r.gm, by simp [applyStoreCall, hr]⟩
  | pass sessionID =>
    cases hs : mapGet gm.Sessions sessionID with
    | none => exact ⟨gm, by simp [applyStoreCall, Pass_dead gm now sessionID (Or.inl hs)]⟩
    | some s =>
      obtain ⟨r, hr, _⟩ := Pass_preserves s.Questions gm now sessionID
        ⟨s, hs, hall sessionID s hs⟩
      exact ⟨r.gm, by simp [applyStoreCall, hr]⟩
  | get sessionID => exact ⟨_, rfl⟩

theorem runStore_total (simpleFold : Char → Char) (catalog : List (String × List Question))
    (hwf : WellFormedCatalog catalog) (calls : List (StoreCall × Int)) :
    ∀ gm, gm.Questions = catalog → AllSessions (fun s => SessionInv s.Questions s) gm →
      ∃ gm', runStore simpleFold gm calls = some gm' ∧
        AllSessions (fun s => SessionInv s.Questions s) gm' := by
  induction calls with
  | nil =>
    intro gm _ hall
    exact ⟨gm, rfl, hall⟩
  | cons c cs ih =>
    intro gm hc hall
    obtain ⟨gm1, h1⟩ := applyStoreCall_progress simpleFold gm c hall
    have hone : runStore simpleFold gm [c] = some gm1 := by simp [runStore, h1]
    obtain ⟨hc1, hall1⟩ := runStore_invariant simpleFold (fun s => SessionInv s.Questions s)
      catalog (fresh_sessionInv catalog hwf) Step_sessionInv [c] gm gm1 hc hall hone
    obtain ⟨gm2, h2, hall2⟩ := ih gm1 hc1 hall1
    exact ⟨gm2, by simp [runStore, h1, h2], hall2⟩

theorem allSessions_new (P : GameState → Prop) (catalog : List (String × List Question)) :
    AllSessions P (NewGameManager catalog) := by
  intro sessionID s h
  simp [NewGameManager, mapGet] at h

/-- C11. Index validity: for a catalog in which every language key maps to a non-empty
sequence and "en" is a key, every sequence of `GetOrCreateSession`, `SubmitAnswer`, `Pass`
and `GetState` calls, on any sessions and at any clock readings, runs on the new manager
without panic, and in the store it leaves every state that is not game-over has
`0 ≤ CurrentIndex < len(Questions)`, so that `Questions[CurrentIndex]` exists; `sendState`
does not panic on any stored state. -/
theorem index_validity (simpleFold : Char → Char) (catalog : List (String × List Question))
    (hwf : WellFormedCatalog catalog) (calls : List (StoreCall × Int)) :
    ∃ gm', runStore simpleFold (NewGameManager catalog) calls = some gm' ∧
      ∀ sessionID s, mapGet gm'.Sessions sessionID = some s →
        (s.IsGameOver = false →
          0 ≤ s.CurrentIndex ∧ s.CurrentIndex < s.Questions.length ∧
            ∃ q, index s.Questions s.CurrentIndex = some q) ∧
        (sendState s).isSome = true := by
  obtain ⟨gm', hrun, hall⟩ := runStore_total simpleFold catalog hwf calls
    (NewGameManager catalog) rfl (allSessions_new _ catalog)
  refine ⟨gm', hrun, ?_⟩
  intro sessionID s hs
  have hinv := hall sessionID s hs
  have hvalid : s.IsGameOver = false →
      0 ≤ s.CurrentIndex ∧ s.CurrentIndex < s.Questions.length ∧
        ∃ q, index s.Questions s.CurrentIndex = some q := by
    intro hno
    have hl := live_of_running _ s hinv hno
    exact ⟨hl.lo, hl.hi, index_of_bounds _ _ hl.lo hl.hi⟩
  refine ⟨hvalid, ?_⟩
  cases ho : s.IsGameOver
  · obtain ⟨_, _, q, hq⟩ := hvalid ho
    simp [sendState, ho, hq]
  · simp [sendState, ho]

theorem demo_wellFormed : WellFormedCatalog [("en", demoQuestions)] := by
  refine ⟨?_, by decide⟩
  intro lang qs h
  by_cases hl : "en" = lang
  · simp [mapGet, hl] at h
    subst h
    decide
  · simp [mapGet, hl] at h

theorem index_validity_witness :
    (∃ gm', runStore noFold (NewGameManager [("en", demoQuestions)]) demoStoreCalls = some gm' ∧
      ∀ sessionID s, mapGet gm'.Sessions sessionID = some s →
        (s.IsGameOver = false →
          0 ≤ s.CurrentIndex ∧ s.CurrentIndex < s.Questions.length ∧
            ∃ q, index s.Questions s.CurrentIndex = some q) ∧
        (sendState s).isSome = true) ∧
    (runStore noFold (NewGameManager [("en", demoQuestions)]) demoStoreCalls).map
        (fun gm' => (mapGet gm'.Sessions "s").map
          (fun s => (s.IsGameOver, s.IsRevisiting, s.CurrentIndex, s.PendingPasses)))
      = some (some (false, true, (1 : Int), [])) :=
  ⟨index_validity noFold [("en", demoQuestions)] demo_wellFormed demoStoreCalls, by rfl⟩

/-! ## The size of LettersState -/

theorem mem_keysOf {β : Type} (m : List (String × β)) (k : String) :
    k ∈ keysOf m ↔ ∃ v, mapGet m k = some v := by
  induction m with
  | nil => simp [keysOf, mapGet]
  | cons e rest ih =>
    obtain ⟨k', v'⟩ := e
    have hk : keysOf ((k', v') :: rest) = k' :: keysOf rest := rfl
    rw [hk, List.mem_cons, ih]
    by_cases h : k' = k
    · subst h
      simp [mapGet]
    · have h' : ¬ k = k' := fun e => h e.symm
      simp [mapGet, h, h']

theorem keysOf_mapSet_mem {β : Type} (m : List (String × β)) (k : String) (v : β)
    (h : k ∈ keysOf m) : keysOf (mapSet m k v) = keysOf m := by
  induction m with
  | nil => simp [keysOf] at h
  | cons e rest ih =>
    obtain ⟨k', v'⟩ := e
    by_cases hk : k' = k
    · subst hk
      simp [mapSet, keysOf]
    · have hrest : k ∈ keysOf rest := by
        have hk2 : keysOf ((k', v') :: rest) = k' :: keysOf rest := rfl
        rw [hk2, List.mem_cons] at h
        rcases h with h | h
        · exact absurd h.symm hk
        · exact h
      have := ih hrest
      simp only [keysOf] at this ⊢
      simp [mapSet, hk, this]

theorem keysOf_mapSet_not_mem {β : Type} (m : List (String × β)) (k : String) (v : β)
    (h : k ∉ keysOf m) : keysOf (mapSet m k v) = keysOf m ++ [k] := by
  induction m with
  | nil => simp [keysOf, mapSet]
  | cons e rest ih =>
    obtain ⟨k', v'⟩ := e
    have hk2 : keysOf ((k', v') :: rest) = k' :: keysOf rest := rfl
    rw [hk2, List.mem_cons, not_or] at h
    have hk : ¬ k' = k := fun e => h.1 e.symm
    have := ih h.2
    simp only [keysOf] at this ⊢
    simp [mapSet, hk, this]

theorem keysOf_mapSet_nodup {β : Type} (m : List (String × β)) (k : String) (v : β)
    (h : (keysOf m).Nodup) : (keysOf (mapSet m k v)).Nodup := by
  by_cases hk : k ∈ keysOf m
  · rw [keysOf_mapSet_mem m k v hk]
    exact h
  · rw [keysOf_mapSet_not_mem m k v hk]
    exact List.Nodup.append h (List.nodup_singleton k) (by
      intro a ha hb
      rw [List.mem_singleton] at hb
      subst hb
      exact hk ha)

theorem keysOf_initLetters_nodup (qs : List Question) (m : List (String × String))
    (h : (keysOf m).Nodup) : (keysOf (initLetters qs m)).Nodup := by
  induction qs generalizing m with
  | nil => exact h
  | cons q qs ih =>
    have hstep : initLetters (q :: qs) m = initLetters qs (mapSet m q.Letter "") := rfl
    rw [hstep]
    exact ih _ (keysOf_mapSet_nodup m q.Letter "" h)

theorem mem_keysOf_initLetters (qs : List Question) (k : String) :
    k ∈ keysOf (initLetters qs []) ↔ k ∈ qs.map Question.Letter := by
  rw [mem_keysOf]
  constructor
  · rintro ⟨v, hv⟩
    rw [mapGet_initLetters] at hv
    by_cases hex : ∃ q ∈ qs, q.Letter = k
    · obtain ⟨q, hq, hl⟩ := hex
      exact List.mem_map.mpr ⟨q, hq, hl⟩
    · rw [if_neg hex] at hv
      simp [mapGet] at hv
  · intro h
    obtain ⟨q, hq, hl⟩ := List.mem_map.mp h
    refine ⟨"", ?_⟩
    rw [mapGet_initLetters, if_pos ⟨q, hq, hl⟩]

/-- The number of keys written at creation is the number of distinct letters. -/
theorem length_initLetters (qs : List Question) :
    (initLetters qs []).length = (qs.map Question.Letter).dedup.length := by
  have hperm : List.Perm (keysOf (initLetters qs [])) (qs.map Question.Letter).dedup := by
    rw [List.perm_ext_iff_of_nodup
      (keysOf_initLetters_nodup qs [] (by simp [keysOf])) (List.nodup_dedup _)]
    intro k
    rw [mem_keysOf_initLetters, List.mem_dedup]
  have := hperm.length_eq
  simpa [keysOf] using this

theorem index_mem (qs : List Question) (i : Int) (q : Question) (h : index qs i = some q) :
    q ∈ qs := by
  rw [index_some_iff] at h
  exact List.get?_mem h.2

theorem fresh_keysKept (sessionID lang : String) (qs : List Question) (now : Int) :
    KeysKept (newSessionState sessionID lang qs now) := by
  rw [newSessionState_eq]
  rfl

theorem Step_keysKept (s s' : GameState) (hinv : KeysKept s) (h : Step s s') :
    KeysKept s' := by
  have hset : ∀ (q : Question) (v : String), index s.Questions s.CurrentIndex = some q →
      keysOf (mapSet s.LettersState q.Letter v) = keysOf (initLetters s.Questions []) := by
    intro q v hq
    have hmem : q.Letter ∈ keysOf s.LettersState := by
      rw [hinv, mem_keysOf_initLetters]
      exact List.mem_map.mpr ⟨q, index_mem _ _ _ hq, rfl⟩
    rw [keysOf_mapSet_mem _ _ _ hmem]
    exact hinv
  unfold KeysKept
  cases h with
  | timer now =>
    rw [(updateTimer_frame s now).1, (updateTimer_frame s now).2.1]
    exact hinv
  | answer e q correct hno hq =>
    rw [(moveToNext_frame _).2.2.1, (moveToNext_frame _).2.2.2.2.2.1]
    exact hset q _ hq
  | pass e q hno hq =>
    rw [(moveToNext_frame _).2.2.1, (moveToNext_frame _).2.2.2.2.2.1]
    exact hset q _ hq

/-- C12, as stated, fails: for the catalog whose two English questions share the letter "A",
the fresh state has two questions and one `LettersState` entry. -/
theorem lettersState_size_counterexample :
    (GetOrCreateSession (NewGameManager [("en", dupQuestions)]) 0 "s" "en").2.1.Questions.length
        = 2 ∧
      (GetOrCreateSession (NewGameManager [("en", dupQuestions)]) 0 "s" "en").2.1.LettersState
        = [("A", "")] ∧
      (GetOrCreateSession (NewGameManager [("en", dupQuestions)]) 0 "s" "en").2.1.LettersState.length
        ≠ (GetOrCreateSession (NewGameManager [("en", dupQuestions)]) 0 "s"
            "en").2.1.Questions.length := by
  refine ⟨by decide, by decide, by decide⟩

/-- C12, amended. For every catalog, in every store reached from the new manager by
`GetOrCreateSession`, `SubmitAnswer`, `Pass` and `GetState` calls, the number of entries of
a session's `LettersState` is the number of distinct letters of its questions; it is the
number of questions when their letters are pairwise distinct. -/
theorem lettersState_size (simpleFold : Char → Char) (catalog : List (String × List Question))
    (calls : List (StoreCall × Int)) (gm' : GameManager) (sessionID : String) (s : GameState)
    (hrun : runStore simpleFold (NewGameManager catalog) calls = some gm')
    (hs : mapGet gm'.Sessions sessionID = some s) :
    s.LettersState.length = (s.Questions.map Question.Letter).dedup.length ∧
      (DistinctLetters s.Questions → s.LettersState.length = s.Questions.length) := by
  have hall := (runStore_invariant simpleFold KeysKept catalog
    (fun id lang now => fresh_keysKept id _ _ now) Step_keysKept calls
    (NewGameManager catalog) gm' rfl (allSessions_new _ catalog) hrun).2
  have hk : keysOf s.LettersState = keysOf (initLetters s.Questions []) := hall sessionID s hs
  have hlen : s.LettersState.length = (s.Questions.map Question.Letter).dedup.length := by
    rw [← length_initLetters]
    have := congrArg List.length hk
    simpa [keysOf] using this
  refine ⟨hlen, ?_⟩
  intro hd
  rw [hlen, List.Nodup.dedup hd, List.length_map]

theorem lettersState_size_witness :
    demoStoreState.LettersState.length
        = (demoStoreState.Questions.map Question.Letter).dedup.length ∧
      (DistinctLetters demoStoreState.Questions →
        demoStoreState.LettersState.length = demoStoreState.Questions.length) :=
  lettersState_size noFold [("en", demoQuestions)] demoStoreCalls demoStore "s" demoStoreState
    (by rfl) (by rfl)

/-! ## The queue and the statuses agree -/

theorem distinct_index (qs : List Question) (hd : DistinctLetters qs) (i j : Int)
    (q q' : Question) (hi : index qs i = some q) (hj : index qs j = some q')
    (hl : q.Letter = q'.Letter) : i = j := by
  have hbi := index_bounds qs i q hi
  have hbj := index_bounds qs j q' hj
  rw [index_some_iff] at hi hj
  have h1 : (qs.map Question.Letter)[i.toNat]? = some q.Letter := by
    rw [List.getElem?_map, ← List.get?_eq_getElem?, hi.2]
    rfl
  have h2 : (qs.map Question.Letter)[j.toNat]? = some q'.Letter := by
    rw [List.getElem?_map, ← List.get?_eq_getElem?, hj.2]
    rfl
  have hlen : i.toNat < (qs.map Question.Letter).length := by
    rw [List.length_map]
    omega
  have h3 : (qs.map Question.Letter)[i.toNat]? = (qs.map Question.Letter)[j.toNat]? := by
    rw [h1, h2, hl]
  have h4 : i.toNat = j.toNat := List.getElem?_inj hlen hd h3
  omega

theorem pending_ne_current (s : GameState) (h : Tidy s) (hno : s.IsGameOver = false) :
    ∀ j ∈ s.PendingPasses, j ≠ s.CurrentIndex := by
  intro j hj
  cases hrev : s.IsRevisiting
  · have := (h.first hno hrev).1 j hj
    omega
  · intro hjc
    rw [hjc] at hj
    exact (h.revisit hno hrev).1 hj

theorem mapGet_other_letter (s : GameState) (hd : DistinctLetters s.Questions) (q q' : Question)
    (j : Int) (v : String) (hq : index s.Questions s.CurrentIndex = some q)
    (hq' : index s.Questions j = some q') (hne : j ≠ s.CurrentIndex) :
    mapGet (mapSet s.LettersState q.Letter v) q'.Letter = mapGet s.LettersState q'.Letter := by
  apply mapGet_mapSet_ne
  intro hl
  exact hne (distinct_index s.Questions hd _ _ _ _ hq hq' hl).symm

theorem moveToNext_tidy (s : GameState) (h : PreTidy s) : Tidy (moveToNext s) := by
  cases hrev : s.IsRevisiting
  · obtain ⟨hlt, hunset⟩ := h.first hrev
    by_cases hmore : s.CurrentIndex + 1 < s.Questions.length
    · rw [moveToNext_first_more s h.running hrev hmore]
      refine ⟨h.pendingYellow, h.pendingNodup, fun _ _ => ⟨hlt, hunset⟩, ?_⟩
      intro _ hr
      have : s.IsRevisiting = true := hr
      rw [hrev] at this
      cases this
    · have hdone : (s.Questions.length : Int) ≤ s.CurrentIndex + 1 := by omega
      cases hp : s.PendingPasses with
      | nil =>
        rw [moveToNext_first_done_nil s h.running hrev hdone hp]
        refine ⟨h.pendingYellow, h.pendingNodup, ?_, ?_⟩
        · intro ho
          cases ho
        · intro ho
          cases ho
      | cons p rest =>
        rw [moveToNext_first_done_cons s p rest h.running hrev hdone hp]
        have hnd : (p :: rest).Nodup := by rw [← hp]; exact h.pendingNodup
        have hmem : p ∈ s.PendingPasses := by rw [hp]; exact List.mem_cons_self _ _
        refine ⟨?_, hnd.of_cons, ?_, ?_⟩
        · intro j hj
          exact h.pendingYellow j (by rw [hp]; exact List.mem_cons_of_mem _ hj)
        · intro _ hr
          cases hr
        · intro _ _
          refine ⟨(List.nodup_cons.mp hnd).1, ?_⟩
          intro q hq
          obtain ⟨q', hq', hy⟩ := h.pendingYellow p hmem
          have hq2 : index s.Questions p = some q := hq
          rw [hq2] at hq'
          cases hq'
          exact hy
  · cases hp : s.PendingPasses with
    | nil =>
      rw [moveToNext_revisit_nil s h.running hrev hp]
      refine ⟨h.pendingYellow, h.pendingNodup, ?_, ?_⟩
      · intro ho
        cases ho
      · intro ho
        cases ho
    | cons p rest =>
      rw [moveToNext_revisit_cons s p rest h.running hrev hp]
      have hnd : (p :: rest).Nodup := by rw [← hp]; exact h.pendingNodup
      have hmem : p ∈ s.PendingPasses := by rw [hp]; exact List.mem_cons_self _ _
      refine ⟨?_, hnd.of_cons, ?_, ?_⟩
      · intro j hj
        exact h.pendingYellow j (by rw [hp]; exact List.mem_cons_of_mem _ hj)
      · intro _ hr
        have : s.IsRevisiting = false := hr
        rw [hrev] at this
        cases this
      · intro _ _
        refine ⟨(List.nodup_cons.mp hnd).1, ?_⟩
        intro q hq
        obtain ⟨q', hq', hy⟩ := h.pendingYellow p hmem
        have hq2 : index s.Questions p = some q := hq
        rw [hq2] at hq'
        cases hq'
        exact hy

theorem scoredState_preTidy (s : GameState) (e : Int) (q : Question) (correct : Bool)
    (hd : DistinctLetters s.Questions) (h : Tidy s) (hno : s.IsGameOver = false)
    (hq : index s.Questions s.CurrentIndex = some q) :
    PreTidy (scoredState s e q correct) := by
  have hne := pending_ne_current s h hno
  refine ⟨hno, ?_, h.pendingNodup, ?_⟩
  · intro j hj
    obtain ⟨q', hq', hy⟩ := h.pendingYellow j hj
    refine ⟨q', hq', ?_⟩
    show mapGet (mapSet s.LettersState q.Letter _) q'.Letter = some "yellow"
    rw [mapGet_other_letter s hd q q' j _ hq hq' (hne j hj)]
    exact hy
  · intro hrev
    obtain ⟨hlt, hunset⟩ := h.first hno hrev
    refine ⟨?_, ?_⟩
    · intro j hj
      have := hlt j hj
      show j < s.CurrentIndex + 1
      omega
    · intro j q' hj hq'
      have hj' : s.CurrentIndex + 1 ≤ j := hj
      show mapGet (mapSet s.LettersState q.Letter _) q'.Letter = some ""
      rw [mapGet_other_letter s hd q q' j _ hq hq' (by omega)]
      exact hunset j q' (by omega) hq'

theorem passedState_preTidy (s : GameState) (e : Int) (q : Question)
    (hd : DistinctLetters s.Questions) (h : Tidy s) (hno : s.IsGameOver = false)
    (hq : index s.Questions s.CurrentIndex = some q) :
    PreTidy (passedState s e q) := by
  have hne := pending_ne_current s h hno
  refine ⟨hno, ?_, ?_, ?_⟩
  · intro j hj
    have hj' : j ∈ s.PendingPasses ++ [s.CurrentIndex] := hj
    rcases List.mem_append.mp hj' with hj' | hj'
    · obtain ⟨q', hq', hy⟩ := h.pendingYellow j hj'
      refine ⟨q', hq', ?_⟩
      show mapGet (mapSet s.LettersState q.Letter "yellow") q'.Letter = some "yellow"
      rw [mapGet_other_letter s hd q q' j _ hq hq' (hne j hj')]
      exact hy
    · rw [List.mem_singleton] at hj'
      subst hj'
      exact ⟨q, hq, mapGet_mapSet_self _ _ _⟩
  · show (s.PendingPasses ++ [s.CurrentIndex]).Nodup
    refine List.Nodup.append h.pendingNodup (List.nodup_singleton _) ?_
    intro a ha hb
    rw [List.mem_singleton] at hb
    exact hne a ha hb
  · intro hrev
    obtain ⟨hlt, hunset⟩ := h.first hno hrev
    refine ⟨?_, ?_⟩
    · intro j hj
      have hj' : j ∈ s.PendingPasses ++ [s.CurrentIndex] := hj
      show j < s.CurrentIndex + 1
      rcases List.mem_append.mp hj' with hj' | hj'
      · have := hlt j hj'
        omega
      · rw [List.mem_singleton] at hj'
        omega
    · intro j q' hj hq'
      have hj' : s.CurrentIndex + 1 ≤ j := hj
      show mapGet (mapSet s.LettersState q.Letter "yellow") q'.Letter = some ""
      rw [mapGet_other_letter s hd q q' j _ hq hq' (by omega)]
      exact hunset j q' (by omega) hq'

theorem updateTimer_tidy (s : GameState) (now : Int) (h : Tidy s) :
    Tidy (updateTimer s now) := by
  obtain ⟨fq, fl, fp, fc, fr, fo⟩ := updateTimer_frame s now
  refine ⟨?_, ?_, ?_, ?_⟩
  · intro j hj
    rw [fp] at hj
    obtain ⟨q, hq, hy⟩ := h.pendingYellow j hj
    exact ⟨q, by rw [fq]; exact hq, by rw [fl]; exact hy⟩
  · rw [fp]
    exact h.pendingNodup
  · intro ho hr
    rw [fr] at hr
    rw [fp, fc, fq, fl]
    exact h.first (fo ho) hr
  · intro ho hr
    rw [fr] at hr
    rw [fp, fc, fq, fl]
    exact h.revisit (fo ho) hr

theorem fresh_tidy (sessionID lang : String) (qs : List Question) (now : Int) :
    Tidy (newSessionState sessionID lang qs now) := by
  rw [newSessionState_eq]
  refine ⟨?_, List.nodup_nil, ?_, ?_⟩
  · intro j hj
    cases hj
  · intro _ _
    refine ⟨?_, ?_⟩
    · intro j hj
      cases hj
    · intro j q _ hq
      show mapGet (initLetters qs []) q.Letter = some ""
      rw [mapGet_initLetters, if_pos ⟨q, index_mem qs j q hq, rfl⟩]
  · intro _ hr
    cases hr

theorem Step_tidy (s s' : GameState) (hinv : TidyIfDistinct s) (h : Step s s') :
    TidyIfDistinct s' := by
  intro hd
  rw [Step_questions s s' h] at hd
  cases h with
  | timer now => exact updateTimer_tidy s now (hinv hd)
  | answer e q correct hno hq =>
    exact moveToNext_tidy _ (scoredState_preTidy s e q correct hd (hinv hd) hno hq)
  | pass e q hno hq =>
    exact moveToNext_tidy _ (passedState_preTidy s e q hd (hinv hd) hno hq)

theorem runStore_tidy (simpleFold : Char → Char) (calls : List (StoreCall × Int))
    (gm gm' : GameManager) (hall : AllSessions TidyIfDistinct gm)
    (hrun : runStore simpleFold gm calls = some gm') : AllSessions TidyIfDistinct gm' :=
  (runStore_invariant simpleFold TidyIfDistinct gm.Questions
    (fun id _ now _ => fresh_tidy id _ _ now) Step_tidy calls gm gm' rfl hall hrun).2

/-- C14. Pass queue holds only passed questions: for every catalog, in every store reached
from the new manager by `GetOrCreateSession`, `SubmitAnswer`, `Pass` and `GetState` calls,
for every session whose questions carry pairwise distinct letters, every index in
`PendingPasses` is a valid index into `Questions` and the letter of that question has status
"yellow". -/
theorem pending_only_passed (simpleFold : Char → Char)
    (catalog : List (String × List Question)) (calls : List (StoreCall × Int))
    (gm' : GameManager) (sessionID : String) (s : GameState)
    (hrun : runStore simpleFold (NewGameManager catalog) calls = some gm')
    (hs : mapGet gm'.Sessions sessionID = some s) (hd : DistinctLetters s.Questions) :
    ∀ j ∈ s.PendingPasses, 0 ≤ j ∧ j < s.Questions.length ∧
      ∃ q, index s.Questions j = some q ∧ mapGet s.LettersState q.Letter = some "yellow" := by
  have htidy : Tidy s := runStore_tidy simpleFold calls (NewGameManager catalog) gm'
    (allSessions_new _ catalog) hrun sessionID s hs hd
  intro j hj
  obtain ⟨q, hq, hy⟩ := htidy.pendingYellow j hj
  have hb := index_bounds _ _ _ hq
  exact ⟨hb.1, hb.2, q, hq, hy⟩

theorem pending_only_passed_witness :
    (∀ j ∈ demoStoreState3.PendingPasses, 0 ≤ j ∧ j < demoStoreState3.Questions.length ∧
      ∃ q, index demoStoreState3.Questions j = some q ∧
        mapGet demoStoreState3.LettersState q.Letter = some "yellow") ∧
    demoStoreState3.PendingPasses = [2] ∧
    demoStoreState3.LettersState = [("A", "yellow"), ("B", "green"), ("C", "yellow")] :=
  ⟨pending_only_passed noFold [("en", demoQuestions3)] demoStoreCalls3 demoStore3 "s"
    demoStoreState3 (by rfl) (by rfl) (by unfold DistinctLetters; decide), by decide, by decide⟩

/-! ## Statuses never regress -/

theorem statusAdvance_trans (a b c : String) (h1 : statusAdvance a b) (h2 : statusAdvance b c) :
    statusAdvance a c := by
  rcases h1 with rfl | ⟨ha, hb⟩ | ⟨ha, hb⟩
  · exact h2
  · subst ha
    rcases h2 with rfl | ⟨hb', _⟩ | ⟨_, hc⟩
    · exact Or.inr (Or.inl ⟨rfl, hb⟩)
    · subst hb'
      rcases hb with hb | hb | hb <;> exact absurd hb (by decide)
    · rcases hc with hc | hc
      · exact Or.inr (Or.inl ⟨rfl, Or.inl hc⟩)
      · exact Or.inr (Or.inl ⟨rfl, Or.inr (Or.inl hc)⟩)
  · subst ha
    rcases h2 with rfl | ⟨hb', _⟩ | ⟨hb', _⟩
    · exact Or.inr (Or.inr ⟨rfl, hb⟩)
    · subst hb'
      rcases hb with hb | hb <;> exact absurd hb (by decide)
    · subst hb'
      rcases hb with hb | hb <;> exact absurd hb (by decide)

theorem lettersAdvance_refl (s : GameState) : lettersAdvance s s :=
  fun _ v hv => ⟨v, hv, Or.inl rfl⟩

theorem lettersAdvance_trans (s1 s2 s3 : GameState) (h1 : lettersAdvance s1 s2)
    (h2 : lettersAdvance s2 s3) : lettersAdvance s1 s3 := by
  intro k v hv
  obtain ⟨v2, hv2, ha⟩ := h1 k v hv
  obtain ⟨v3, hv3, hb⟩ := h2 k v2 hv2
  exact ⟨v3, hv3, statusAdvance_trans v v2 v3 ha hb⟩

/-- The status of the active letter of a tidy running session is unset during the first pass
and "yellow" during the revisit phase. -/
theorem active_status (s : GameState) (h : Tidy s) (hno : s.IsGameOver = false)
    (q : Question) (hq : index s.Questions s.CurrentIndex = some q) :
    mapGet s.LettersState q.Letter = some "" ∨
      mapGet s.LettersState q.Letter = some "yellow" := by
  cases hrev : s.IsRevisiting
  · exact Or.inl ((h.first hno hrev).2 s.CurrentIndex q (le_refl _) hq)
  · exact Or.inr ((h.revisit hno hrev).2 q hq)

theorem mapSet_lettersAdvance (s s' : GameState) (q : Question) (w : String)
    (hs' : s'.LettersState = mapSet s.LettersState q.Letter w)
    (hact : mapGet s.LettersState q.Letter = some "" ∨
      mapGet s.LettersState q.Letter = some "yellow")
    (hw : w = "green" ∨ w = "red" ∨ w = "yellow") : lettersAdvance s s' := by
  intro k v hv
  rw [hs', mapGet_mapSet]
  by_cases hk : q.Letter = k
  · rw [if_pos hk]
    refine ⟨w, rfl, ?_⟩
    rw [hk] at hact
    rcases hact with hact | hact
    · rw [hv] at hact
      cases hact
      exact Or.inr (Or.inl ⟨rfl, hw⟩)
    · rw [hv] at hact
      cases hact
      rcases hw with hw | hw | hw
      · exact Or.inr (Or.inr ⟨rfl, Or.inl hw⟩)
      · exact Or.inr (Or.inr ⟨rfl, Or.inr hw⟩)
      · exact Or.inl hw
  · rw [if_neg hk]
    exact ⟨v, hv, Or.inl rfl⟩

theorem Step_lettersAdvance (s s' : GameState) (h : Tidy s) (hstep : Step s s') :
    lettersAdvance s s' := by
  cases hstep with
  | timer now =>
    intro k v hv
    exact ⟨v, by rw [(updateTimer_frame s now).2.1]; exact hv, Or.inl rfl⟩
  | answer e q correct hno hq =>
    refine mapSet_lettersAdvance s _ q (if correct = true then "green" else "red")
      (moveToNext_frame _).2.2.2.2.2.1 (active_status s h hno q hq) ?_
    cases correct
    · exact Or.inr (Or.inl rfl)
    · exact Or.inl rfl
  | pass e q hno hq =>
    exact mapSet_lettersAdvance s _ q "yellow" (moveToNext_frame _).2.2.2.2.2.1
      (active_status s h hno q hq) (Or.inr (Or.inr rfl))

theorem runStore_lettersAdvance (simpleFold : Char → Char) (calls : List (StoreCall × Int)) :
    ∀ (gm gm' : GameManager) (sessionID : String) (s : GameState),
      AllSessions TidyIfDistinct gm → runStore simpleFold gm calls = some gm' →
      mapGet gm.Sessions sessionID = some s → DistinctLetters s.Questions →
      ∃ s', mapGet gm'.Sessions sessionID = some s' ∧ lettersAdvance s s' := by
  induction calls with
  | nil =>
    intro gm gm' sessionID s _ hrun hs _
    simp only [runStore, Option.some.injEq] at hrun
    subst hrun
    exact ⟨s, hs, lettersAdvance_refl s⟩
  | cons c cs ih =>
    intro gm gm' sessionID s hall hrun hs hd
    simp only [runStore] at hrun
    cases h1 : applyStoreCall simpleFold gm c with
    | none => rw [h1] at hrun; cases hrun
    | some gm1 =>
      rw [h1] at hrun
      have hall1 : AllSessions TidyIfDistinct gm1 :=
        runStore_tidy simpleFold [c] gm gm1 hall (by simp [runStore, h1])
      obtain ⟨s1, hs1, hcase⟩ := Effect_keeps gm gm1
        (applyStoreCall_effect simpleFold gm gm1 c h1) sessionID s hs
      have hadv : lettersAdvance s s1 := by
        rcases hcase with rfl | hstep
        · exact lettersAdvance_refl _
        · exact Step_lettersAdvance s s1 (hall sessionID s hs hd) hstep
      have hq1 : s1.Questions = s.Questions := by
        rcases hcase with rfl | hstep
        · rfl
        · exact Step_questions s s1 hstep
      obtain ⟨s2, hs2, hadv2⟩ := ih gm1 gm' sessionID s1 hall1 hrun hs1 (by rw [hq1]; exact hd)
      exact ⟨s2, hs2, lettersAdvance_trans s s1 s2 hadv hadv2⟩

/-- C13. Status never regresses: for every catalog, from every store reached from the new
manager and for every session in it whose questions carry pairwise distinct letters, after
any further `GetOrCreateSession`, `SubmitAnswer`, `Pass` and `GetState` calls (one call or
many) the session is still stored, every letter is still in `LettersState`, and its status
is unchanged or has moved from unset to green, red or yellow or from yellow to green or red.
So a green or red letter keeps its status and no letter returns to unset. -/
theorem status_never_regresses (simpleFold : Char → Char)
    (catalog : List (String × List Question)) (calls more : List (StoreCall × Int))
    (gm gm' : GameManager) (sessionID : String) (s : GameState)
    (hrun : runStore simpleFold (NewGameManager catalog) calls = some gm)
    (hmore : runStore simpleFold gm more = some gm')
    (hs : mapGet gm.Sessions sessionID = some s) (hd : DistinctLetters s.Questions) :
    ∃ s', mapGet gm'.Sessions sessionID = some s' ∧
      ∀ k v, mapGet s.LettersState k = some v →
        ∃ v', mapGet s'.LettersState k = some v' ∧
          (v' = v ∨ (v = "" ∧ (v' = "green" ∨ v' = "red" ∨ v' = "yellow")) ∨
            (v = "yellow" ∧ (v' = "green" ∨ v' = "red"))) ∧
          ((v = "green" ∨ v = "red") → v' = v) ∧ (v ≠ "" → v' ≠ "") := by
  have hall : AllSessions TidyIfDistinct gm :=
    runStore_tidy simpleFold calls (NewGameManager catalog) gm (allSessions_new _ catalog) hrun
  obtain ⟨s', hs', hadv⟩ :=
    runStore_lettersAdvance simpleFold more gm gm' sessionID s hall hmore hs hd
  refine ⟨s', hs', ?_⟩
  intro k v hv
  obtain ⟨v', hv', ha⟩ := hadv k v hv
  refine ⟨v', hv', ha, ?_, ?_⟩
  · intro hgr
    rcases ha with h | ⟨h, _⟩ | ⟨h, _⟩
    · exact h
    · subst h
      rcases hgr with h | h <;> exact absurd h (by decide)
    · subst h
      rcases hgr with h | h <;> exact absurd h (by decide)
  · intro hne
    rcases ha with h | ⟨h, _⟩ | ⟨_, h⟩
    · rw [h]
      exact hne
    · exact absurd h hne
    · rcases h with h | h <;> rw [h] <;> decide

theorem status_never_regresses_witness :
    (∃ s', mapGet ((runStore noFold demoStore3 demoMoreCalls3).getD demoManager).Sessions "s"
        = some s' ∧
      ∀ k v, mapGet demoStoreState3.LettersState k = some v →
        ∃ v', mapGet s'.LettersState k = some v' ∧
          (v' = v ∨ (v = "" ∧ (v' = "green" ∨ v' = "red" ∨ v' = "yellow")) ∨
            (v = "yellow" ∧ (v' = "green" ∨ v' = "red"))) ∧
          ((v = "green" ∨ v = "red") → v' = v) ∧ (v ≠ "" → v' ≠ "")) ∧
    demoStoreState3.LettersState = [("A", "yellow"), ("B", "green"), ("C", "yellow")] ∧
    (mapGet ((runStore noFold demoStore3 demoMoreCalls3).getD demoManager).Sessions "s").map
        GameState.LettersState = some [("A", "red"), ("B", "green"), ("C", "yellow")] :=
  ⟨status_never_regresses noFold [("en", demoQuestions3)] demoStoreCalls3 demoMoreCalls3
    demoStore3 ((runStore noFold demoStore3 demoMoreCalls3).getD demoManager) "s"
    demoStoreState3 (by rfl) (by rfl) (by rfl) (by unfold DistinctLetters; decide), by decide,
    by rfl⟩

end Gopherword
